import Mathlib

/-!
# The ray-tracing kernel of `renderer/raytracer/raytracer.h`

A shallow embedding of the CPU ray tracer core (`ray`, `payload`, `triangle`, `aabb`,
`raytracer::build_acceleration_structure`, `raytracer::ray_generation`, `raytracer::trace_ray`,
`raytracer::intersection_shader`) and of the shaders installed by
`ray_tracing_renderer::render`, followed by theorems about them.

Conventions of the embedding.

* `float` is an arbitrary linear ordered field `K` (exact arithmetic); every definition is
  computable and can be evaluated at `K = ℚ`.  The constant `1e-8f` is `1 / 100000000`.
* `float3` and its operators follow `linalg.h`: `+`, `-`, `*`, `/`, `min`, `max` act
  componentwise, `maxelem`/`minelem` fold `max`/`min` over the three components.
  Division by zero is the field's `x / 0 = 0`, where IEEE-754 gives an infinity or a NaN; the
  theorems that use the value of `aabb_test` therefore assume a direction without zero
  component, and the theorems about the control flow of `trace_ray` hold whatever `aabb_test`
  answers.
* A `std::function` slot is an `Option`: `none` is the empty (`nullptr`) function.  Calling an
  empty slot throws `std::bad_function_call`, dereferencing the null `closest_triangle` is
  undefined behaviour; both are explicit `Except` errors.
* `trace_ray` is instrumented: next to its result it returns the list of the `aabb_test`,
  `intersection_shader` and shader calls it made, in order.
* The square root behind `linalg::normalize` is a parameter `sqrt`; the theorems that need it
  assume `exact_sqrt sqrt`, and the statements over the reals take `Real.sqrt`.
* The call `abs(det)` of `intersection_shader` is unqualified and its argument is a `float`:
  which function it calls depends on the headers of the build, which are not among the
  sources.  The functions that take it carry the parameter `overload : abs_overload`, the
  `float` overload or `int abs(int)`, and the theorems hold for both unless they say otherwise.
  The conversion of `det` to `int` needs a floor on `K` (`FloorRing K`, which `ℚ` and `ℝ`
  have); only the declarations that depend on `intersection_shader` assume it.
* The classes of `resource.h` are not among the sources: a vertex buffer is a list with the
  accessor `item` as a parameter, a render target is a function of the pixel coordinates with
  the conversion `from_color` as a parameter.
-/

set_option linter.dupNamespace false
set_option linter.unusedSectionVars false

namespace cg.renderer

variable {K : Type} [LinearOrderedField K]

/-! ## `linalg.h` vectors -/

/-- Three `float` components, `linalg::aliases::float3`. -/
@[ext]
structure float3 (K : Type) where
  x : K
  y : K
  z : K

namespace float3

instance : Zero (float3 K) := ⟨⟨0, 0, 0⟩⟩
instance : Add (float3 K) := ⟨fun a b => ⟨a.x + b.x, a.y + b.y, a.z + b.z⟩⟩
instance : Sub (float3 K) := ⟨fun a b => ⟨a.x - b.x, a.y - b.y, a.z - b.z⟩⟩
instance : Mul (float3 K) := ⟨fun a b => ⟨a.x * b.x, a.y * b.y, a.z * b.z⟩⟩
instance : Div (float3 K) := ⟨fun a b => ⟨a.x / b.x, a.y / b.y, a.z / b.z⟩⟩
instance : HMul K (float3 K) (float3 K) := ⟨fun s a => ⟨s * a.x, s * a.y, s * a.z⟩⟩
instance : HMul (float3 K) K (float3 K) := ⟨fun a s => ⟨a.x * s, a.y * s, a.z * s⟩⟩

/-- The constructor `float3(s)`: all three components equal to `s`. -/
def splat (s : K) : float3 K := ⟨s, s, s⟩

/-- Componentwise maximum, `linalg::max`. -/
def max (a b : float3 K) : float3 K := ⟨Max.max a.x b.x, Max.max a.y b.y, Max.max a.z b.z⟩

/-- Componentwise minimum, `linalg::min`. -/
def min (a b : float3 K) : float3 K := ⟨Min.min a.x b.x, Min.min a.y b.y, Min.min a.z b.z⟩

/-- Largest component, `linalg::maxelem`. -/
def maxelem (a : float3 K) : K := Max.max (Max.max a.x a.y) a.z

/-- Smallest component, `linalg::minelem`. -/
def minelem (a : float3 K) : K := Min.min (Min.min a.x a.y) a.z

/-- Cross product, `linalg::cross`. -/
def cross (a b : float3 K) : float3 K :=
  ⟨a.y * b.z - a.z * b.y, a.z * b.x - a.x * b.z, a.x * b.y - a.y * b.x⟩

/-- Dot product, `linalg::dot`. -/
def dot (a b : float3 K) : K := a.x * b.x + a.y * b.y + a.z * b.z

/-- Componentwise order on vectors: every component of `a` is at most that of `b`. -/
def le (a b : float3 K) : Prop := a.x ≤ b.x ∧ a.y ≤ b.y ∧ a.z ≤ b.z

end float3

open float3 (cross dot)

/-! ## Data model -/

/-- Modelled from the spec: `cg::color` is declared in `resource.h`, which is not among the
sources; the shaders brace-initialise it from three floats, the spec calls it the resolved
colour of a payload. -/
@[ext]
structure color (K : Type) where
  r : K
  g : K
  b : K

instance : Zero (color K) := ⟨⟨0, 0, 0⟩⟩

/-- The `struct ray`: the fields left by the constructor `ray(position, direction)`, whose
`direction` is the normalised argument. -/
@[ext]
structure ray (K : Type) where
  position : float3 K
  direction : float3 K

/-- The `struct payload`. -/
@[ext]
structure payload (K : Type) where
  t : K
  bary : float3 K
  color : color K

/-- The vertex record `VB` that `triangle<VB>` reads: position, normal and the three material
channels. -/
structure vertex (K : Type) where
  x : K
  y : K
  z : K
  nx : K
  ny : K
  nz : K
  ambient_r : K
  ambient_g : K
  ambient_b : K
  diffuse_r : K
  diffuse_g : K
  diffuse_b : K
  emissive_r : K
  emissive_g : K
  emissive_b : K

/-- The `struct triangle<VB>`. -/
structure triangle (K : Type) where
  a : float3 K
  b : float3 K
  c : float3 K
  ba : float3 K
  ca : float3 K
  na : float3 K
  nb : float3 K
  nc : float3 K
  ambient : float3 K
  diffuse : float3 K
  emissive : float3 K

/-- The constructor `triangle<VB>::triangle(vertex_a, vertex_b, vertex_c)`. -/
def triangle.triangle (vertex_a vertex_b vertex_c : vertex K) : triangle K :=
  let a : float3 K := ⟨vertex_a.x, vertex_a.y, vertex_a.z⟩
  let b : float3 K := ⟨vertex_b.x, vertex_b.y, vertex_b.z⟩
  let c : float3 K := ⟨vertex_c.x, vertex_c.y, vertex_c.z⟩
  { a := a
    b := b
    c := c
    ba := b - a
    ca := c - a
    na := ⟨vertex_a.nx, vertex_a.ny, vertex_a.nz⟩
    nb := ⟨vertex_b.nx, vertex_b.ny, vertex_b.nz⟩
    nc := ⟨vertex_c.nx, vertex_c.ny, vertex_c.nz⟩
    ambient := ⟨vertex_a.ambient_r, vertex_a.ambient_g, vertex_a.ambient_b⟩
    diffuse := ⟨vertex_a.diffuse_r, vertex_a.diffuse_g, vertex_a.diffuse_b⟩
    emissive := ⟨vertex_a.emissive_r, vertex_a.emissive_g, vertex_a.emissive_b⟩ }

/-! ## `raytracer::intersection_shader` -/

/-- The payload `intersection_shader` starts from and returns on each of its three rejecting
paths: value-initialised, then `t = -1.f`. -/
def no_hit : payload K := { t := -1, bary := 0, color := 0 }

/-- The function that the unqualified call `abs(det)` of `intersection_shader` resolves to.
`det` is a `float` and no argument-dependent lookup applies, so the call picks among the
functions named `abs` that the headers included before it declare at global scope; those
headers (`resource.h`, `linalg.h` and the standard library of the build) are not among the
sources. -/
inductive abs_overload where
  /-- The overload `float abs(float)`, declared at global scope by `<math.h>` of libstdc++ for
  one: the magnitude of `det`. -/
  | of_float
  /-- The function `int abs(int)` of `<stdlib.h>`, the only global `abs` when nothing declares
  the `float` overload (g++ with libstdc++ and the standard headers that `raytracer.h` names):
  `det` is converted to `int` first. -/
  | of_int
  deriving DecidableEq

/-- The conversion of a `float` to `int`: the value is truncated toward zero.  When the
truncated value does not fit the 32-bit `int` the conversion is undefined behaviour in C++;
the model returns what the x86 conversion instruction returns, `INT_MIN`. -/
def float_to_int [FloorRing K] (x : K) : Int :=
  let truncated : Int := if 0 ≤ x then Int.floor x else Int.ceil x
  if -2147483648 ≤ truncated ∧ truncated < 2147483648 then truncated else -2147483648

/-- The function `int abs(int)` on a 32-bit two's complement `int`: `abs(INT_MIN)`, undefined
behaviour in C, wraps to `INT_MIN`. -/
def abs_int (n : Int) : Int := if n = -2147483648 then -2147483648 else |n|

/-- The value of the call `abs(det)` as it enters the comparison with the `float` `eps`: the
magnitude of `det` for the `float` overload; for `int abs(int)` the absolute value of `det`
converted to `int`, converted back to `float` by the comparison. -/
def abs_overload.call [FloorRing K] (overload : abs_overload) (x : K) : K :=
  match overload with
  | abs_overload.of_float => |x|
  | abs_overload.of_int => ((abs_int (float_to_int x) : Int) : K)

/-- The function `raytracer::intersection_shader(triangle, ray)`; `overload` is the function
that its call `abs(det)` resolves to.  With `int abs(int)` the test `abs(det) < eps` rejects
every `det` of magnitude below one, and every `det` of magnitude `2^31` or more. -/
def intersection_shader [FloorRing K] (overload : abs_overload) (triangle : triangle K)
    (ray : ray K) : payload K :=
  let payload : payload K := { t := -1, bary := 0, color := 0 }
  let pvec := cross ray.direction triangle.ca
  let det := dot triangle.ba pvec
  let eps : K := 1 / 100000000
  if overload.call det < eps then payload
  else
    let inv_det := 1 / det
    let tvec := ray.position - triangle.a
    let u := dot tvec pvec * inv_det
    if u < 0 ∨ u > 1 then payload
    else
      let qvec := cross tvec triangle.ba
      let v := dot ray.direction qvec * inv_det
      if v < 0 ∨ u + v > 1 then payload
      else
        { payload with
          t := dot triangle.ca qvec * inv_det
          bary := ⟨1 - u - v, u, v⟩ }

/-! ## `aabb` -/

/-- The `class aabb<VB>`: the owned triangles and the two corners. -/
structure aabb (K : Type) where
  triangles : List (triangle K)
  aabb_min : float3 K
  aabb_max : float3 K

/-- A default-constructed box, `aabb<VB> aabb;`: no triangles.  The corners are whatever the
default constructor of `float3` leaves (zero in `linalg.h`, the spec's "default min/max of
zero"); `add_triangle` overwrites them before they are read. -/
def aabb.fresh : aabb K := { triangles := [], aabb_min := 0, aabb_max := 0 }

/-- The method `aabb<VB>::add_triangle(triangle)`, as a function from the box before the call to
the box after it. -/
def aabb.add_triangle (self : aabb K) (triangle : triangle K) : aabb K :=
  let seeded : aabb K :=
    if self.triangles.isEmpty then
      { self with aabb_max := triangle.a, aabb_min := triangle.a }
    else self
  let triangles := seeded.triangles ++ [triangle]
  let aabb_max := float3.max triangle.a seeded.aabb_max
  let aabb_max := float3.max triangle.b aabb_max
  let aabb_max := float3.max triangle.c aabb_max
  let aabb_min := float3.min triangle.a seeded.aabb_min
  let aabb_min := float3.min triangle.b aabb_min
  let aabb_min := float3.min triangle.c aabb_min
  { triangles := triangles, aabb_min := aabb_min, aabb_max := aabb_max }

/-- The method `aabb<VB>::get_traingles()`. -/
def aabb.get_traingles (self : aabb K) : List (triangle K) := self.triangles

/-- The method `aabb<VB>::aabb_test(ray)`. -/
def aabb.aabb_test (self : aabb K) (ray : ray K) : Bool :=
  let inv_ray_direction := float3.splat 1 / ray.direction
  let t0 := (self.aabb_max - ray.position) * inv_ray_direction
  let t1 := (self.aabb_min - ray.position) * inv_ray_direction
  let tmin := float3.min t0 t1
  let tmax := float3.max t0 t1
  decide (float3.maxelem tmin ≤ float3.minelem tmax)

/-! ## `raytracer` -/

/-- The type of the closest-hit and any-hit slots: `payload(ray, payload&, triangle)`.  Each call
site passes a local payload that is not read after the call, so the reference parameter is a
value. -/
abbrev hit_shader (K : Type) : Type := ray K → payload K → triangle K → payload K

/-- The state of `class raytracer<VB, RT>` that tracing reads: the boxes, the three shader slots
(`none` is `nullptr`), the vertex buffers and the viewport. -/
structure raytracer (K : Type) where
  acceleration_structures : List (aabb K) := []
  miss_shader : Option (ray K → payload K) := none
  closest_hit_shader : Option (hit_shader K) := none
  any_hit_shader : Option (hit_shader K) := none
  per_shape_vertex_buffer : List (List (vertex K)) := []
  width : Nat := 1920
  height : Nat := 1080

/-- What a call of `trace_ray` can end in besides a payload. -/
inductive fault where
  /-- Calling an empty `std::function` (`std::bad_function_call`). -/
  | bad_function_call
  /-- Dereferencing `closest_triangle` while it is `nullptr`. -/
  | null_dereference
  /-- A read of `resource::item` past the end of the buffer, when `item` checks its index
  (`std::out_of_range`). -/
  | out_of_range

/-- One call made by `trace_ray`, with its arguments (the ray is that of the `trace_ray` call)
and, for a shader, the payload it returned. -/
inductive event (K : Type) where
  | aabb_test (box : aabb K)
  | intersection_shader (triangle : triangle K)
  | miss_shader (result : payload K)
  | closest_hit_shader (p : payload K) (triangle : triangle K) (result : payload K)
  | any_hit_shader (p : payload K) (triangle : triangle K) (result : payload K)

/-- The two locals of `trace_ray` that the scan updates. -/
structure closest (K : Type) where
  closest_hit_payload : payload K
  closest_triangle : Option (triangle K)

/-- How a loop of `trace_ray` ends: it runs to its end with the locals `st`, or `trace_ray`
returned `result` from inside it. -/
inductive scan (K : Type) where
  | next (st : closest K)
  | returned (result : payload K)

/-- The inner loop of `trace_ray`, `for (auto& triangle : aabb.get_traingles())`, with the calls
it makes. -/
def scan_triangles [FloorRing K] (overload : abs_overload)
    (any_hit_shader : Option (hit_shader K)) (ray : ray K) (min_t : K) :
    List (triangle K) → closest K → scan K × List (event K)
  | [], st => (scan.next st, [])
  | triangle :: rest, st =>
    let payload := intersection_shader overload triangle ray
    if payload.t > min_t ∧ payload.t < st.closest_hit_payload.t then
      match any_hit_shader with
      | some f =>
        (scan.returned (f ray payload triangle),
          [event.intersection_shader triangle,
            event.any_hit_shader payload triangle (f ray payload triangle)])
      | none =>
        let out := scan_triangles overload any_hit_shader ray min_t rest
          { closest_hit_payload := payload, closest_triangle := some triangle }
        (out.1, event.intersection_shader triangle :: out.2)
    else
      let out := scan_triangles overload any_hit_shader ray min_t rest st
      (out.1, event.intersection_shader triangle :: out.2)

/-- The outer loop of `trace_ray`, `for (auto& aabb : acceleration_structures)`, with the calls
it makes. -/
def scan_boxes [FloorRing K] (overload : abs_overload)
    (any_hit_shader : Option (hit_shader K)) (ray : ray K) (min_t : K) :
    List (aabb K) → closest K → scan K × List (event K)
  | [], st => (scan.next st, [])
  | aabb :: rest, st =>
    if ¬ aabb.aabb_test ray then
      let out := scan_boxes overload any_hit_shader ray min_t rest st
      (out.1, event.aabb_test aabb :: out.2)
    else
      let inner := scan_triangles overload any_hit_shader ray min_t aabb.get_traingles st
      match inner.1 with
      | scan.returned result => (scan.returned result, event.aabb_test aabb :: inner.2)
      | scan.next st1 =>
        let out := scan_boxes overload any_hit_shader ray min_t rest st1
        (out.1, event.aabb_test aabb :: (inner.2 ++ out.2))

/-- The statement `return miss_shader(ray);`. -/
def return_miss_shader (self : raytracer K) (ray : ray K) :
    Except fault (payload K) × List (event K) :=
  match self.miss_shader with
  | some f => (Except.ok (f ray), [event.miss_shader (f ray)])
  | none => (Except.error fault.bad_function_call, [])

/-- The method `raytracer::trace_ray(ray, depth, max_t, min_t)`: its result and the calls it
made. -/
def trace_ray_run [FloorRing K] (overload : abs_overload) (self : raytracer K) (ray : ray K)
    (depth : Nat) (max_t min_t : K) :
    Except fault (payload K) × List (event K) :=
  if depth = 0 then return_miss_shader self ray
  else
    let closest_hit_payload : payload K := { t := max_t, bary := 0, color := 0 }
    let out := scan_boxes overload self.any_hit_shader ray min_t self.acceleration_structures
      { closest_hit_payload := closest_hit_payload, closest_triangle := none }
    match out.1 with
    | scan.returned result => (Except.ok result, out.2)
    | scan.next st =>
      if st.closest_hit_payload.t < max_t then
        match self.closest_hit_shader with
        | some f =>
          match st.closest_triangle with
          | some triangle =>
            (Except.ok (f ray st.closest_hit_payload triangle),
              out.2 ++ [event.closest_hit_shader st.closest_hit_payload triangle
                (f ray st.closest_hit_payload triangle)])
          | none => (Except.error fault.null_dereference, out.2)
        | none =>
          let miss := return_miss_shader self ray
          (miss.1, out.2 ++ miss.2)
      else
        let miss := return_miss_shader self ray
        (miss.1, out.2 ++ miss.2)

/-- The value returned by `raytracer::trace_ray(ray, depth, max_t, min_t)`. -/
def trace_ray [FloorRing K] (overload : abs_overload) (self : raytracer K) (ray : ray K)
    (depth : Nat) (max_t min_t : K) :
    Except fault (payload K) :=
  (trace_ray_run overload self ray depth max_t min_t).1

/-- The calls made by `raytracer::trace_ray(ray, depth, max_t, min_t)`, in order. -/
def trace_ray_log [FloorRing K] (overload : abs_overload) (self : raytracer K) (ray : ray K)
    (depth : Nat) (max_t min_t : K) :
    List (event K) :=
  (trace_ray_run overload self ray depth max_t min_t).2

/-- The default arguments of the declaration of `trace_ray`: `max_t = 1000.f`. -/
def default_max_t : K := 1000

/-- The default arguments of the declaration of `trace_ray`: `min_t = 0.001f`. -/
def default_min_t : K := 1 / 1000

/-! ## The variant of `trace_ray` without the bounding-box test -/

/-- The outer loop of the variant of `trace_ray` that skips `aabb_test` and runs
`intersection_shader` on every triangle of every box. -/
def scan_boxes_without_aabb_test [FloorRing K] (overload : abs_overload)
    (any_hit_shader : Option (hit_shader K)) (ray : ray K)
    (min_t : K) : List (aabb K) → closest K → scan K × List (event K)
  | [], st => (scan.next st, [])
  | aabb :: rest, st =>
    let inner := scan_triangles overload any_hit_shader ray min_t aabb.get_traingles st
    match inner.1 with
    | scan.returned result => (scan.returned result, inner.2)
    | scan.next st1 =>
      let out := scan_boxes_without_aabb_test overload any_hit_shader ray min_t rest st1
      (out.1, inner.2 ++ out.2)

/-- The value returned by the variant of `trace_ray` that skips `aabb_test`: the body of
`trace_ray` with the line `if (!aabb.aabb_test(ray)) continue;` removed. -/
def trace_ray_without_aabb_test [FloorRing K] (overload : abs_overload) (self : raytracer K)
    (ray : ray K) (depth : Nat)
    (max_t min_t : K) : Except fault (payload K) :=
  if depth = 0 then (return_miss_shader self ray).1
  else
    let closest_hit_payload : payload K := { t := max_t, bary := 0, color := 0 }
    let out := scan_boxes_without_aabb_test overload self.any_hit_shader ray min_t
      self.acceleration_structures
      { closest_hit_payload := closest_hit_payload, closest_triangle := none }
    match out.1 with
    | scan.returned result => Except.ok result
    | scan.next st =>
      if st.closest_hit_payload.t < max_t then
        match self.closest_hit_shader with
        | some f =>
          match st.closest_triangle with
          | some triangle => Except.ok (f ray st.closest_hit_payload triangle)
          | none => Except.error fault.null_dereference
        | none => (return_miss_shader self ray).1
      else (return_miss_shader self ray).1

/-! ## The shaders of `ray_tracing_renderer::render` -/

/-- The lambda assigned to `raytracer->miss_shader` in `ray_tracing_renderer::render`. -/
def renderer_miss_shader (ray : ray K) : payload K :=
  let payload : payload K := { t := 0, bary := 0, color := 0 }
  { payload with
    t := -1
    color := ⟨ray.direction.x / (1 / 2) + 1 / 2, ray.direction.y / (1 / 2) + 1 / 2,
      ray.direction.z / (1 / 2) + 1 / 2⟩ }

/-! ## Vocabulary of the statements -/

/-- The triangles that `trace_ray` passes to `intersection_shader` when nothing returns early,
in scan order: those of the boxes accepted by `aabb_test`, box after box. -/
def scan_order (ray : ray K) : List (aabb K) → List (triangle K)
  | [] => []
  | aabb :: rest =>
    if aabb.aabb_test ray then aabb.get_traingles ++ scan_order ray rest
    else scan_order ray rest

/-- The payload of `triangle` lies strictly inside the window: `min_t < t < max_t`. -/
def in_window [FloorRing K] (overload : abs_overload) (ray : ray K) (min_t max_t : K)
    (triangle : triangle K) : Prop :=
  min_t < (intersection_shader overload triangle ray).t ∧
    (intersection_shader overload triangle ray).t < max_t

/-- The three shader slots. -/
inductive slot where
  | miss
  | closest_hit
  | any_hit
  deriving DecidableEq

/-- The triangles passed to `intersection_shader` in a list of calls, in order. -/
def tested : List (event K) → List (triangle K)
  | [] => []
  | event.intersection_shader triangle :: rest => triangle :: tested rest
  | _ :: rest => tested rest

/-- The shader calls in a list of calls, in order: the slot called and the payload returned. -/
def invocations : List (event K) → List (slot × payload K)
  | [] => []
  | event.miss_shader result :: rest => (slot.miss, result) :: invocations rest
  | event.closest_hit_shader _ _ result :: rest => (slot.closest_hit, result) :: invocations rest
  | event.any_hit_shader _ _ result :: rest => (slot.any_hit, result) :: invocations rest
  | _ :: rest => invocations rest

/-- The boxes passed to `aabb_test` in a list of calls, in order. -/
def box_tests : List (event K) → List (aabb K)
  | [] => []
  | event.aabb_test box :: rest => box :: box_tests rest
  | _ :: rest => box_tests rest

/-- The triangle was built by the constructor `triangle<VB>::triangle`. -/
def triangle.constructed (t : renderer.triangle K) : Prop :=
  ∃ vertex_a vertex_b vertex_c : vertex K, t = triangle.triangle vertex_a vertex_b vertex_c

/-- The box was filled only through `add_triangle`: it is a default-constructed box to which
constructed triangles were added one by one. -/
def aabb.filled (box : aabb K) : Prop :=
  ∃ ts : List (triangle K), (∀ t ∈ ts, t.constructed) ∧
    box = ts.foldl aabb.add_triangle aabb.fresh

/-- The three points lie on one line (coincident points included): both edges from `a` are
multiples of one vector. -/
def collinear (a b c : float3 K) : Prop :=
  ∃ (e : float3 K) (α β : K), b - a = α * e ∧ c - a = β * e

/-- The normal `(b - a) × (c - a)` of the plane of the triangle `a`, `b`, `c`. -/
def plane_normal (a b c : float3 K) : float3 K := cross (b - a) (c - a)

/-- The centroid `(a + b + c) / 3`. -/
def centroid (a b c : float3 K) : float3 K := (1 / 3 : K) * (a + b + c)

/-- A vertex record at `(x, y, z)` with zero normal and black material. -/
def vertex.at_position (x y z : K) : vertex K :=
  { x := x, y := y, z := z, nx := 0, ny := 0, nz := 0,
    ambient_r := 0, ambient_g := 0, ambient_b := 0,
    diffuse_r := 0, diffuse_g := 0, diffuse_b := 0,
    emissive_r := 0, emissive_g := 0, emissive_b := 0 }

/-- The box encloses the three vertices of the triangle, componentwise. -/
def aabb.encloses (box : aabb K) (t : triangle K) : Prop :=
  (float3.le box.aabb_min t.a ∧ float3.le t.a box.aabb_max) ∧
  (float3.le box.aabb_min t.b ∧ float3.le t.b box.aabb_max) ∧
  (float3.le box.aabb_min t.c ∧ float3.le t.c box.aabb_max)

/-! ## Concrete inputs -/

/-- The triangle `(0,0,0)`, `(1,0,0)`, `(0,1,0)` in the plane `z = 0`. -/
def sample_triangle : triangle ℚ :=
  triangle.triangle (vertex.at_position 0 0 0) (vertex.at_position 1 0 0)
    (vertex.at_position 0 1 0)

/-- The ray from `(-1/12, -5/12, -2/3)` with the unit direction `(1/3, 2/3, 2/3)`; it meets the
plane `z = 0` at `t = 1`, in the point `(1/4, 1/4, 0)` of `sample_triangle`. -/
def sample_ray : ray ℚ := ⟨⟨-1 / 12, -5 / 12, -2 / 3⟩, ⟨1 / 3, 2 / 3, 2 / 3⟩⟩

/-- A triangle of side `3/100000` in the plane `z = 0` whose centroid is the origin. -/
def small_triangle : triangle ℚ :=
  triangle.triangle (vertex.at_position (-1 / 100000) (-1 / 100000) 0)
    (vertex.at_position (2 / 100000) (-1 / 100000) 0)
    (vertex.at_position (-1 / 100000) (2 / 100000) 0)

/-- The triangle `(0, 0, 0)`, `(1/2, 0, 0)`, `(0, 1/2, 0)`, whose centroid is `(1/6, 1/6, 0)`. -/
def half_triangle : triangle ℚ :=
  triangle.triangle (vertex.at_position 0 0 0) (vertex.at_position (1 / 2) 0 0)
    (vertex.at_position 0 (1 / 2) 0)

/-- The ray from `(1/6, 1/6, -1)` with the unit direction `(0, 0, 1)`, which points at the
centroid of `half_triangle`. -/
def half_triangle_ray : ray ℚ := ⟨⟨1 / 6, 1 / 6, -1⟩, ⟨0, 0, 1⟩⟩

/-- The box owning `sample_triangle` alone. -/
def sample_box : aabb ℚ := aabb.add_triangle aabb.fresh sample_triangle

/-- A closest-hit or any-hit shader that returns the payload it is given. -/
def echo_shader : hit_shader ℚ := fun _ payload _ => payload

/-- A tracer over `sample_box` with the renderer's miss shader and `echo_shader` as closest-hit
shader; no any-hit shader. -/
def sample_tracer : raytracer ℚ :=
  { acceleration_structures := [sample_box]
    miss_shader := some renderer_miss_shader
    closest_hit_shader := some echo_shader }

/-- The tracer `sample_tracer` with `echo_shader` installed as any-hit shader as well. -/
def sample_tracer_any_hit : raytracer ℚ :=
  { acceleration_structures := [sample_box]
    miss_shader := some renderer_miss_shader
    closest_hit_shader := some echo_shader
    any_hit_shader := some echo_shader }

/-- A tracer over `sample_box` with the renderer's miss shader and no other shader. -/
def sample_tracer_miss_only : raytracer ℚ :=
  { acceleration_structures := [sample_box]
    miss_shader := some renderer_miss_shader }

/-- The ray from `(7/12, 11/12, 2/3)` with the unit direction `(1/3, 2/3, 2/3)`: it starts above
the plane `z = 0` and points away from it; its line meets `sample_triangle` behind the origin,
at `t = -1`. -/
def away_ray : ray ℚ := ⟨⟨7 / 12, 11 / 12, 2 / 3⟩, ⟨1 / 3, 2 / 3, 2 / 3⟩⟩

/-- The ray from `(14/3, 13/3, -2/3)` with the unit direction `(1/3, 2/3, 2/3)`; it meets the
plane `z = 0` in `(5, 5, 0)`, and its line misses the box of `sample_triangle`. -/
def missing_ray : ray ℚ := ⟨⟨14 / 3, 13 / 3, -2 / 3⟩, ⟨1 / 3, 2 / 3, 2 / 3⟩⟩

/-! ## The constructor of `ray` -/

instance : Neg (float3 K) := ⟨fun a => ⟨-a.x, -a.y, -a.z⟩⟩
instance : HDiv (float3 K) K (float3 K) := ⟨fun a s => ⟨a.x / s, a.y / s, a.z / s⟩⟩

/-- Squared length, `linalg::length2`. -/
def float3.length2 (a : float3 K) : K := dot a a

/-- Length, `linalg::length`: `std::sqrt(length2(a))`.  The square root is the parameter `sqrt`;
exact arithmetic takes one with `exact_sqrt`, the reals take `Real.sqrt`. -/
def float3.length (sqrt : K → K) (a : float3 K) : K := sqrt (float3.length2 a)

/-- The function `linalg::normalize`: `a / length(a)`. -/
def float3.normalize (sqrt : K → K) (a : float3 K) : float3 K := a / float3.length sqrt a

/-- The constructor `ray::ray(position, direction)`. -/
def ray.ray (sqrt : K → K) (position direction : float3 K) : ray K :=
  { position := position, direction := float3.normalize sqrt direction }

/-- The function `sqrt` is an exact square root: non-negative, and squaring it gives the
argument back, for every non-negative argument. -/
def exact_sqrt (sqrt : K → K) : Prop := ∀ x : K, 0 ≤ x → 0 ≤ sqrt x ∧ sqrt x * sqrt x = x

/-! ## `raytracer::ray_generation` -/

/-- A counting loop `for (int i = 0; i < n; i++)` over a state, left by the first fault. -/
def for_loop {σ : Type} (body : Nat → σ → Except fault σ) : Nat → σ → Except fault σ
  | 0, s => Except.ok s
  | n + 1, s =>
    match for_loop body n s with
    | Except.ok s1 => body n s1
    | Except.error e => Except.error e

/-- The horizontal coordinate computed by `ray_generation` for the column `x`:
`u = 2.f * x / (width - 1) - 1.f`, then `u *= width / height`.  The subtraction `width - 1` is
that of `size_t`; it is only evaluated inside the loops, where `width >= 1`. -/
def ndc_u (width height x : Nat) : K :=
  let u : K := 2 * (x : K) / ((width - 1 : Nat) : K) - 1
  u * ((width : K) / (height : K))

/-- The vertical coordinate computed by `ray_generation` for the row `y`:
`v = 2.f * y / (height - 1) - 1.f`. -/
def ndc_v (height y : Nat) : K := 2 * (y : K) / ((height - 1 : Nat) : K) - 1

/-- The ray that `ray_generation` builds for the pixel `(x, y)`. -/
def pixel_ray (sqrt : K → K) (self : raytracer K) (position direction right up : float3 K)
    (x y : Nat) : ray K :=
  let u : K := ndc_u self.width self.height x
  let v : K := ndc_v self.height y
  let ray_direction := direction + u * right - v * up
  ray.ray sqrt position ray_direction

/-- The statement `payload payload = trace_ray(ray, 1);` of `ray_generation` for the pixel
`(x, y)`, with the default window of the declaration of `trace_ray`. -/
def pixel_payload [FloorRing K] (overload : abs_overload) (sqrt : K → K) (self : raytracer K)
    (position direction right up : float3 K)
    (x y : Nat) : Except fault (payload K) :=
  trace_ray overload self (pixel_ray sqrt self position direction right up x y) 1 default_max_t
    default_min_t

/-- Modelled from the spec: `cg::resource<RT>` is declared in `resource.h`, which is not among
the sources; the render target is a 2-D grid of pixels addressed by `(x, y)`, here a function
of `x` and `y`.  The assignment `render_target->item(x, y) = value`. -/
def write_pixel {RT : Type} (render_target : Nat → Nat → RT) (x y : Nat) (value : RT) :
    Nat → Nat → RT :=
  fun i j => if i = x ∧ j = y then value else render_target i j

/-- The method `raytracer::ray_generation(position, direction, right, up)`, as a function from
the render target before the call to the render target after it.  The conversion
`RT::from_color` of the pixel type is the parameter `from_color`.  The iterations of the inner
loop, which OpenMP distributes over threads, write distinct pixels and are run in order. -/
def ray_generation [FloorRing K] {RT : Type} (overload : abs_overload) (sqrt : K → K)
    (from_color : color K → RT) (self : raytracer K)
    (render_target : Nat → Nat → RT) (position direction right up : float3 K) :
    Except fault (Nat → Nat → RT) :=
  for_loop (fun x target =>
    for_loop (fun y target =>
      match pixel_payload overload sqrt self position direction right up x y with
      | Except.ok payload => Except.ok (write_pixel target x y (from_color payload.color))
      | Except.error e => Except.error e) self.height target) self.width render_target

/-! ## The closest-hit shader of `ray_tracing_renderer::render` -/

/-- The `struct light`. -/
structure light (K : Type) where
  position : float3 K
  color : float3 K

/-- Modelled from the spec: `cg::color::from_float3` is declared in `resource.h`, which is not
among the sources; it makes the colour of a payload from the three channels of a `float3`. -/
def color.from_float3 (v : float3 K) : color K := ⟨v.x, v.y, v.z⟩

/-- The lambda assigned to `raytracer->closest_hit_shader` in `ray_tracing_renderer::render`; it
captures the list `lights` of the renderer. -/
def renderer_closest_hit_shader (sqrt : K → K) (lights : List (light K)) : hit_shader K :=
  fun ray payload triangle =>
    let result_color := triangle.emissive
    let position := ray.position + ray.direction * payload.t
    let normal := payload.bary.x * triangle.na + payload.bary.y * triangle.nb
      + payload.bary.z * triangle.nc
    let result_color := lights.foldl (fun result_color light =>
      let to_light := renderer.ray.ray sqrt position (light.position - position)
      result_color + triangle.diffuse * light.color
        * Max.max (dot normal to_light.direction) 0) result_color
    { payload with color := color.from_float3 result_color }

/-! ## The end-to-end scene -/

/-- A vertex of the unit square in the plane `z = 0`, with normal `+z`, black ambient and
diffuse channels and the emissive colour `e`. -/
def square_vertex (x y : K) (e : float3 K) : vertex K :=
  { x := x, y := y, z := 0, nx := 0, ny := 0, nz := 1,
    ambient_r := 0, ambient_g := 0, ambient_b := 0,
    diffuse_r := 0, diffuse_g := 0, diffuse_b := 0,
    emissive_r := e.x, emissive_g := e.y, emissive_b := e.z }

/-- The two triangles of the unit square centred at the origin in the plane `z = 0`. -/
def unit_square (e : float3 K) : List (triangle K) :=
  [triangle.triangle (square_vertex (-1 / 2) (-1 / 2) e) (square_vertex (1 / 2) (-1 / 2) e)
      (square_vertex (1 / 2) (1 / 2) e),
    triangle.triangle (square_vertex (-1 / 2) (-1 / 2) e) (square_vertex (1 / 2) (1 / 2) e)
      (square_vertex (-1 / 2) (1 / 2) e)]

/-- The tracer of the end-to-end scenario: one box filled with the unit square, the renderer's
miss and closest-hit shaders, no lights, a viewport of 2 by 2. -/
def square_tracer (sqrt : K → K) (e : float3 K) : raytracer K :=
  { acceleration_structures := [(unit_square e).foldl aabb.add_triangle aabb.fresh]
    miss_shader := some renderer_miss_shader
    closest_hit_shader := some (renderer_closest_hit_shader sqrt [])
    width := 2
    height := 2 }

/-- The camera position of the end-to-end scenario. -/
def camera_position : float3 K := ⟨0, 0, -5⟩

/-- The camera forward vector of the end-to-end scenario. -/
def camera_forward : float3 K := ⟨0, 0, 1⟩

/-- The camera right vector of the end-to-end scenario. -/
def camera_right : float3 K := ⟨1, 0, 0⟩

/-- The camera up vector of the end-to-end scenario. -/
def camera_up : float3 K := ⟨0, 1, 0⟩

/-! ## Vocabulary for the extent of a box -/

/-- The vertex positions `a`, `b`, `c` of a list of triangles, in order. -/
def vertex_positions : List (triangle K) → List (float3 K)
  | [] => []
  | t :: rest => t.a :: t.b :: t.c :: vertex_positions rest

/-- The component `f` of the corner `m` is the component `f` of one of the vertices of `ts`. -/
def attains (f : float3 K → K) (m : float3 K) (ts : List (triangle K)) : Prop :=
  ∃ p ∈ vertex_positions ts, f m = f p

/-- Each component of each corner of the box is that component of a vertex of one of its
triangles.  Together with `aabb.encloses` for every triangle this says that `aabb_min` is the
componentwise minimum and `aabb_max` the componentwise maximum of the vertices. -/
def aabb.attained (box : aabb K) : Prop :=
  (attains float3.x box.aabb_min box.triangles ∧ attains float3.y box.aabb_min box.triangles ∧
    attains float3.z box.aabb_min box.triangles) ∧
  (attains float3.x box.aabb_max box.triangles ∧ attains float3.y box.aabb_max box.triangles ∧
    attains float3.z box.aabb_max box.triangles)

/-- The payload and triangle handed to the closest-hit or any-hit shader by each such call in a
list of calls, in order. -/
def handed : List (event K) → List (payload K × triangle K)
  | [] => []
  | event.closest_hit_shader p triangle _ :: rest => (p, triangle) :: handed rest
  | event.any_hit_shader p triangle _ :: rest => (p, triangle) :: handed rest
  | _ :: rest => handed rest

/-- The ray from `(5/12, 1/12, -2/3)` with the unit direction `(1/3, 2/3, 2/3)`; it meets the
plane `z = 0` in `(3/4, 3/4, 0)`, inside the box of `sample_triangle` and outside the
triangle. -/
def grazing_ray : ray ℚ := ⟨⟨5 / 12, 1 / 12, -2 / 3⟩, ⟨1 / 3, 2 / 3, 2 / 3⟩⟩

/-! ## `raytracer::build_acceleration_structure` -/

/-- Modelled from the spec: `cg::resource<VB>` is declared in `resource.h`, which is not among
the sources.  A vertex buffer is the list of its elements and `get_number_of_elements` is its
length; the accessor `item(i)` is a parameter of the build, of this type: it returns a vertex
or fails. -/
abbrev item_access (K : Type) : Type := List (vertex K) → Nat → Except fault (vertex K)

/-- The accessor `item` returns the element at every index inside the buffer. -/
def item_access.exact (item : item_access K) : Prop :=
  ∀ (buffer : List (vertex K)) (i : Nat) (v : vertex K), buffer[i]? = some v →
    item buffer i = Except.ok v

/-- Modelled from the spec: `resource::item` is declared in `resource.h`, which is not among
the sources.  The spec has a malformed vertex buffer fail at build time with an error surfaced
to the caller, and `build_acceleration_structure` checks no length itself, so the error is that
of the accessor: `item(i)` returns the element at an index inside the buffer and fails at an
index past its end, as `std::vector::at` does. -/
def checked_item : item_access K := fun buffer i =>
  match buffer[i]? with
  | some v => Except.ok v
  | none => Except.error fault.out_of_range

/-- The order in which the three arguments `item(vertex_id++)` of the constructor call in
`build_acceleration_structure` are evaluated, which C++ leaves unspecified: the letters name the
parameter evaluated first, second and third.  The order `abc` is the written one, `cba` is right
to left. -/
inductive argument_order where
  | abc
  | acb
  | bac
  | bca
  | cab
  | cba

/-- The triangle constructed from the vertices read first, second and third, for an order of
evaluation of the arguments. -/
def argument_order.arrange (order : argument_order) (read_0 read_1 read_2 : vertex K) :
    triangle K :=
  match order with
  | argument_order.abc => triangle.triangle read_0 read_1 read_2
  | argument_order.acb => triangle.triangle read_0 read_2 read_1
  | argument_order.bac => triangle.triangle read_1 read_0 read_2
  | argument_order.bca => triangle.triangle read_2 read_0 read_1
  | argument_order.cab => triangle.triangle read_1 read_2 read_0
  | argument_order.cba => triangle.triangle read_2 read_1 read_0

/-- The loop `while (vertex_id < vertex_buffer->get_number_of_elements())` of
`build_acceleration_structure`, from the index `vertex_id` and the box `aabb` built so far.  The
three reads `item(vertex_id++)` of an iteration take the indexes `vertex_id`, `vertex_id + 1`,
`vertex_id + 2` in the order they are evaluated; `order` says which argument of the constructor
each of them is. -/
def build_box (item : item_access K) (order : argument_order) (vertex_buffer : List (vertex K))
    (vertex_id : Nat) (aabb : renderer.aabb K) : Except fault (renderer.aabb K) :=
  if vertex_id < vertex_buffer.length then
    match item vertex_buffer vertex_id with
    | Except.error e => Except.error e
    | Except.ok read_0 =>
      match item vertex_buffer (vertex_id + 1) with
      | Except.error e => Except.error e
      | Except.ok read_1 =>
        match item vertex_buffer (vertex_id + 2) with
        | Except.error e => Except.error e
        | Except.ok read_2 =>
          build_box item order vertex_buffer (vertex_id + 3)
            (aabb.add_triangle (order.arrange read_0 read_1 read_2))
  else Except.ok aabb
termination_by vertex_buffer.length - vertex_id
decreasing_by omega

/-- The loop `for (auto& vertex_buffer : per_shape_vertex_buffer)` of
`build_acceleration_structure`, from the boxes `acceleration_structures` present so far. -/
def build_boxes (item : item_access K) (order : argument_order) :
    List (List (vertex K)) → List (aabb K) → Except fault (List (aabb K))
  | [], acceleration_structures => Except.ok acceleration_structures
  | vertex_buffer :: rest, acceleration_structures =>
    match build_box item order vertex_buffer 0 aabb.fresh with
    | Except.error e => Except.error e
    | Except.ok aabb => build_boxes item order rest (acceleration_structures ++ [aabb])

/-- The method `raytracer::build_acceleration_structure()`, as a function from the tracer
before the call to the tracer after it.  A fault of `item` leaves the method at once; the model
then returns the fault alone, without the boxes appended before it. -/
def build_acceleration_structure (item : item_access K) (order : argument_order)
    (self : raytracer K) : Except fault (raytracer K) :=
  match build_boxes item order self.per_shape_vertex_buffer self.acceleration_structures with
  | Except.error e => Except.error e
  | Except.ok acceleration_structures =>
    Except.ok { self with acceleration_structures := acceleration_structures }

/-- The triangles of consecutive vertex triples of a buffer: the `j`-th is built from the
vertices `3j`, `3j+1`, `3j+2`, as the constructor arguments that `order` says.  A remainder of
one or two vertices is dropped. -/
def triples (order : argument_order) : List (vertex K) → List (triangle K)
  | read_0 :: read_1 :: read_2 :: rest => order.arrange read_0 read_1 read_2 :: triples order rest
  | _ => []

/-- The box of a well-formed buffer: a default-constructed box to which the triangles of its
vertex triples were added in order. -/
def box_of (order : argument_order) (vertex_buffer : List (vertex K)) : aabb K :=
  (triples order vertex_buffer).foldl aabb.add_triangle aabb.fresh

/-- A tracer with one well-formed vertex buffer, the three vertices of `sample_triangle`, and
no box yet. -/
def sample_scene : raytracer ℚ :=
  { per_shape_vertex_buffer :=
      [[vertex.at_position 0 0 0, vertex.at_position 1 0 0, vertex.at_position 0 1 0]]
    miss_shader := some renderer_miss_shader }

namespace float3

@[simp] theorem zero_x : (0 : float3 K).x = 0 := rfl
@[simp] theorem zero_y : (0 : float3 K).y = 0 := rfl
@[simp] theorem zero_z : (0 : float3 K).z = 0 := rfl
@[simp] theorem add_x (a b : float3 K) : (a + b).x = a.x + b.x := rfl
@[simp] theorem add_y (a b : float3 K) : (a + b).y = a.y + b.y := rfl
@[simp] theorem add_z (a b : float3 K) : (a + b).z = a.z + b.z := rfl
@[simp] theorem sub_x (a b : float3 K) : (a - b).x = a.x - b.x := rfl
@[simp] theorem sub_y (a b : float3 K) : (a - b).y = a.y - b.y := rfl
@[simp] theorem sub_z (a b : float3 K) : (a - b).z = a.z - b.z := rfl
@[simp] theorem mul_x (a b : float3 K) : (a * b).x = a.x * b.x := rfl
@[simp] theorem mul_y (a b : float3 K) : (a * b).y = a.y * b.y := rfl
@[simp] theorem mul_z (a b : float3 K) : (a * b).z = a.z * b.z := rfl
@[simp] theorem div_x (a b : float3 K) : (a / b).x = a.x / b.x := rfl
@[simp] theorem div_y (a b : float3 K) : (a / b).y = a.y / b.y := rfl
@[simp] theorem div_z (a b : float3 K) : (a / b).z = a.z / b.z := rfl
@[simp] theorem smul_x (s : K) (a : float3 K) : (s * a).x = s * a.x := rfl
@[simp] theorem smul_y (s : K) (a : float3 K) : (s * a).y = s * a.y := rfl
@[simp] theorem smul_z (s : K) (a : float3 K) : (s * a).z = s * a.z := rfl
@[simp] theorem muls_x (a : float3 K) (s : K) : (a * s).x = a.x * s := rfl
@[simp] theorem muls_y (a : float3 K) (s : K) : (a * s).y = a.y * s := rfl
@[simp] theorem muls_z (a : float3 K) (s : K) : (a * s).z = a.z * s := rfl

end float3

/-- A `float` of magnitude below one converts to the `int` zero. -/
theorem float_to_int_small [FloorRing K] (x : K) (h : |x| < 1) : float_to_int x = 0 := by
  obtain ⟨h1, h2⟩ := abs_lt.mp h
  unfold float_to_int
  by_cases hx : 0 ≤ x
  · have : Int.floor x = 0 := Int.floor_eq_zero_iff.mpr ⟨hx, h2⟩
    simp [hx, this]
  · have : Int.ceil x = 0 := Int.ceil_eq_zero_iff.mpr ⟨h1, le_of_lt (not_le.mp hx)⟩
    simp [hx, this]

/-- With `int abs(int)` the call `abs(det)` is zero for every `det` of magnitude below one. -/
theorem call_of_int_small [FloorRing K] (x : K) (h : |x| < 1) : abs_overload.of_int.call x = 0 := by
  simp [abs_overload.call, float_to_int_small x h, abs_int]

/-- The truncation toward zero of a `float` has at most its magnitude. -/
theorem abs_trunc_le [FloorRing K] (x : K) :
    ((|if 0 ≤ x then Int.floor x else Int.ceil x| : Int) : K) ≤ |x| := by
  by_cases hx : 0 ≤ x
  · have h0 : (0 : Int) ≤ Int.floor x := Int.floor_nonneg.mpr hx
    simp only [hx, if_true, abs_of_nonneg h0, abs_of_nonneg hx]
    exact Int.floor_le x
  · have hx1 : x < 0 := not_le.mp hx
    have h0 : Int.ceil x ≤ 0 := Int.ceil_le.mpr (by simpa using le_of_lt hx1)
    simp only [hx, if_false, abs_of_nonpos h0, abs_of_neg hx1, Int.cast_neg]
    exact neg_le_neg (Int.le_ceil x)

/-- The `int` conversion followed by `int abs(int)` never exceeds the absolute value of the
truncated value. -/
theorem abs_int_le (n : Int) :
    abs_int (if -2147483648 ≤ n ∧ n < 2147483648 then n else -2147483648) ≤ |n| := by
  have h0 := abs_nonneg n
  unfold abs_int
  split_ifs <;> omega

/-- Whichever function `abs` is, the value of `abs(det)` is at most the magnitude of `det`. -/
theorem call_le_abs [FloorRing K] (ov : abs_overload) (x : K) : ov.call x ≤ |x| := by
  cases ov
  · exact le_refl _
  · unfold abs_overload.call float_to_int
    simp only []
    have h := abs_trunc_le x
    generalize (if 0 ≤ x then Int.floor x else Int.ceil x) = n at h ⊢
    have h1 : ((abs_int (if -2147483648 ≤ n ∧ n < 2147483648 then n else -2147483648) : Int) : K)
        ≤ ((|n| : Int) : K) := Int.cast_le.mpr (abs_int_le n)
    exact le_trans h1 h

/-- Truncation toward zero commutes with negation. -/
theorem trunc_neg [FloorRing K] (x : K) :
    (if 0 ≤ -x then Int.floor (-x) else Int.ceil (-x)) =
      -(if 0 ≤ x then Int.floor x else Int.ceil x) := by
  rcases lt_trichotomy x 0 with h | h | h
  · have h1 : 0 ≤ -x := by linarith
    have h2 : ¬ 0 ≤ x := not_le.mpr h
    simp only [h1, h2, if_true, if_false, Int.floor_neg]
  · subst h; simp
  · have h1 : ¬ 0 ≤ -x := by intro h'; linarith
    have h2 : 0 ≤ x := le_of_lt h
    simp only [h1, h2, if_true, if_false, Int.ceil_neg]

/-- Whichever function `abs` is, `abs(-det)` and `abs(det)` have the same value. -/
theorem call_neg [FloorRing K] (ov : abs_overload) (x : K) : ov.call (-x) = ov.call x := by
  cases ov
  · exact abs_neg x
  · unfold abs_overload.call float_to_int
    simp only [trunc_neg]
    congr 1
    generalize (if 0 ≤ x then Int.floor x else Int.ceil x) = n
    unfold abs_int
    split_ifs <;> first | rfl | omega | exact abs_neg n

/-- Whichever function `abs` is, a `det` that is not rejected by `abs(det) < eps` is at least
`1e-8` in magnitude; in particular it is not zero. -/
theorem abs_of_call [FloorRing K] (ov : abs_overload)
    (x : K) (h : ¬ ov.call x < 1 / 100000000) : ¬ |x| < 1 / 100000000 :=
  fun h1 => h (lt_of_le_of_lt (call_le_abs ov x) h1)

/-- The determinant tested by `intersection_shader` is at least `1e-8` in absolute value on the
accepting path, and the accepted `u`, `v` pass both range tests. -/
theorem intersection_shader_accept [FloorRing K] (ov : abs_overload) (tri : triangle K) (r : ray K)
    (h : intersection_shader ov tri r ≠ no_hit) :
    ¬ abs (dot tri.ba (cross r.direction tri.ca)) < 1 / 100000000 ∧
    ¬ (dot (r.position - tri.a) (cross r.direction tri.ca)
          * (1 / dot tri.ba (cross r.direction tri.ca)) < 0 ∨
        dot (r.position - tri.a) (cross r.direction tri.ca)
          * (1 / dot tri.ba (cross r.direction tri.ca)) > 1) ∧
    ¬ (dot r.direction (cross (r.position - tri.a) tri.ba)
          * (1 / dot tri.ba (cross r.direction tri.ca)) < 0 ∨
        dot (r.position - tri.a) (cross r.direction tri.ca)
            * (1 / dot tri.ba (cross r.direction tri.ca))
          + dot r.direction (cross (r.position - tri.a) tri.ba)
            * (1 / dot tri.ba (cross r.direction tri.ca)) > 1) ∧
    intersection_shader ov tri r =
      { t := dot tri.ca (cross (r.position - tri.a) tri.ba)
          * (1 / dot tri.ba (cross r.direction tri.ca))
        bary := ⟨1 - dot (r.position - tri.a) (cross r.direction tri.ca)
                * (1 / dot tri.ba (cross r.direction tri.ca))
              - dot r.direction (cross (r.position - tri.a) tri.ba)
                * (1 / dot tri.ba (cross r.direction tri.ca)),
            dot (r.position - tri.a) (cross r.direction tri.ca)
              * (1 / dot tri.ba (cross r.direction tri.ca)),
            dot r.direction (cross (r.position - tri.a) tri.ba)
              * (1 / dot tri.ba (cross r.direction tri.ca))⟩
        color := 0 } := by
  unfold intersection_shader at h ⊢
  simp only [] at h ⊢
  split_ifs at h ⊢ with h1 h2 h3
  · exact absurd rfl h
  · exact absurd rfl h
  · exact absurd rfl h
  · exact ⟨abs_of_call ov _ h1, h2, h3, rfl⟩

/-- On the accepting path the determinant is not rejected by the test `abs(det) < eps`, as the
build evaluates it. -/
theorem intersection_shader_gate [FloorRing K] (ov : abs_overload) (tri : triangle K) (r : ray K)
    (h : intersection_shader ov tri r ≠ no_hit) :
    ¬ ov.call (dot tri.ba (cross r.direction tri.ca)) < 1 / 100000000 := by
  unfold intersection_shader at h
  simp only [] at h
  intro h1
  rw [if_pos h1] at h
  exact h rfl

/-- The first rejecting path of `intersection_shader` when `abs` is `int abs(int)`: every
determinant below one in magnitude is converted to the `int` zero and gives the no-hit
payload. -/
theorem intersection_shader_of_int_below_one [FloorRing K] (tri : triangle K) (r : ray K)
    (h : |dot tri.ba (cross r.direction tri.ca)| < 1) :
    intersection_shader abs_overload.of_int tri r = no_hit := by
  unfold intersection_shader
  simp only []
  rw [call_of_int_small _ h, if_pos (by norm_num)]
  rfl

/-- Cramer's rule behind Möller–Trumbore: with `det ≠ 0`, the accepted `t`, `u`, `v` place the
same point on the ray and on the triangle. -/
theorem moller_trumbore_point (a b c o d : float3 K)
    (hdet : dot (b - a) (cross d (c - a)) ≠ 0) :
    o + (dot (c - a) (cross (o - a) (b - a)) * (1 / dot (b - a) (cross d (c - a)))) * d =
      (1 - dot (o - a) (cross d (c - a)) * (1 / dot (b - a) (cross d (c - a)))
          - dot d (cross (o - a) (b - a)) * (1 / dot (b - a) (cross d (c - a)))) * a
        + (dot (o - a) (cross d (c - a)) * (1 / dot (b - a) (cross d (c - a)))) * b
        + (dot d (cross (o - a) (b - a)) * (1 / dot (b - a) (cross d (c - a)))) * c := by
  have hdet2 := hdet
  simp only [dot, cross, float3.sub_x, float3.sub_y, float3.sub_z] at hdet2
  ext
  · simp only [dot, cross, float3.sub_x, float3.sub_y, float3.sub_z, float3.add_x,
      float3.smul_x]
    field_simp
    ring
  · simp only [dot, cross, float3.sub_x, float3.sub_y, float3.sub_z, float3.add_y,
      float3.smul_y]
    field_simp
    ring
  · simp only [dot, cross, float3.sub_x, float3.sub_y, float3.sub_z, float3.add_z,
      float3.smul_z]
    field_simp
    ring

/-- A constructed triangle caches its two edges. -/
theorem constructed_edges {t : triangle K} (h : t.constructed) :
    t.ba = t.b - t.a ∧ t.ca = t.c - t.a := by
  obtain ⟨va, vb, vc, rfl⟩ := h
  exact ⟨rfl, rfl⟩

/-- On the accepting path of `intersection_shader`, for a triangle whose edges are `b - a` and
`c - a`: the weights sum to one, lie in `[0, 1]`, and the hit point is the same on the ray and on
the triangle. -/
theorem hit_geometry [FloorRing K] (ov : abs_overload) (tri : triangle K) (r : ray K)
    (hba : tri.ba = tri.b - tri.a) (hca : tri.ca = tri.c - tri.a)
    (h : intersection_shader ov tri r ≠ no_hit) :
    (intersection_shader ov tri r).bary.x + (intersection_shader ov tri r).bary.y
        + (intersection_shader ov tri r).bary.z = 1 ∧
    (0 ≤ (intersection_shader ov tri r).bary.x ∧ (intersection_shader ov tri r).bary.x ≤ 1) ∧
    (0 ≤ (intersection_shader ov tri r).bary.y ∧ (intersection_shader ov tri r).bary.y ≤ 1) ∧
    (0 ≤ (intersection_shader ov tri r).bary.z ∧ (intersection_shader ov tri r).bary.z ≤ 1) ∧
    r.position + (intersection_shader ov tri r).t * r.direction =
      (intersection_shader ov tri r).bary.x * tri.a + (intersection_shader ov tri r).bary.y * tri.b
        + (intersection_shader ov tri r).bary.z * tri.c := by
  obtain ⟨h1, h2, h3, heq⟩ := intersection_shader_accept ov tri r h
  have hdet : dot (tri.b - tri.a) (cross r.direction (tri.c - tri.a)) ≠ 0 := by
    intro h0
    apply h1
    rw [hba, hca, h0, abs_zero]
    norm_num
  have hpt := moller_trumbore_point tri.a tri.b tri.c r.position r.direction hdet
  rw [heq]
  simp only [not_or, not_lt] at h2 h3
  rw [hba, hca] at h2 h3 ⊢
  refine ⟨by ring, ⟨by linarith [h3.2], by linarith [h2.1, h3.1]⟩, ⟨h2.1, h2.2⟩,
    ⟨h3.1, by linarith [h2.1, h3.2]⟩, hpt⟩

/-- Collinear points span no plane: the normal vanishes. -/
theorem collinear_normal {a b c : float3 K} (h : collinear a b c) : plane_normal a b c = 0 := by
  obtain ⟨e, α, β, hb, hc⟩ := h
  unfold plane_normal
  rw [hb, hc]
  ext <;> simp [cross] <;> ring

/-- The determinant of `intersection_shader` is minus the component of the direction along the
normal of the triangle. -/
theorem det_eq_neg_dot_normal (a b c d : float3 K) :
    dot (b - a) (cross d (c - a)) = - dot d (plane_normal a b c) := by
  simp only [dot, cross, plane_normal, float3.sub_x, float3.sub_y, float3.sub_z]
  ring

/-- C2. Over exact arithmetic, whenever `intersection_shader` does not return the no-hit payload
for a constructed triangle, the returned weights `(w, u, v)` sum to one, each lies in `[0, 1]`,
and the hit point is the same on the ray and on the triangle:
`o + t*d = w*a + u*b + v*c`. -/
theorem intersection_shader_barycentric [FloorRing K] (ov : abs_overload)
    (vertex_a vertex_b vertex_c : vertex K) (r : ray K)
    (h : intersection_shader ov (triangle.triangle vertex_a vertex_b vertex_c) r ≠ no_hit) :
    (intersection_shader ov (triangle.triangle vertex_a vertex_b vertex_c) r).bary.x
        + (intersection_shader ov (triangle.triangle vertex_a vertex_b vertex_c) r).bary.y
        + (intersection_shader ov (triangle.triangle vertex_a vertex_b vertex_c) r).bary.z = 1 ∧
    (0 ≤ (intersection_shader ov (triangle.triangle vertex_a vertex_b vertex_c) r).bary.x ∧
      (intersection_shader ov (triangle.triangle vertex_a vertex_b vertex_c) r).bary.x ≤ 1) ∧
    (0 ≤ (intersection_shader ov (triangle.triangle vertex_a vertex_b vertex_c) r).bary.y ∧
      (intersection_shader ov (triangle.triangle vertex_a vertex_b vertex_c) r).bary.y ≤ 1) ∧
    (0 ≤ (intersection_shader ov (triangle.triangle vertex_a vertex_b vertex_c) r).bary.z ∧
      (intersection_shader ov (triangle.triangle vertex_a vertex_b vertex_c) r).bary.z ≤ 1) ∧
    r.position
        + (intersection_shader ov (triangle.triangle vertex_a vertex_b vertex_c) r).t * r.direction =
      (intersection_shader ov (triangle.triangle vertex_a vertex_b vertex_c) r).bary.x
          * (triangle.triangle vertex_a vertex_b vertex_c).a
        + (intersection_shader ov (triangle.triangle vertex_a vertex_b vertex_c) r).bary.y
          * (triangle.triangle vertex_a vertex_b vertex_c).b
        + (intersection_shader ov (triangle.triangle vertex_a vertex_b vertex_c) r).bary.z
          * (triangle.triangle vertex_a vertex_b vertex_c).c :=
  hit_geometry ov _ r rfl rfl h

/-- C2 at a concrete input: `sample_ray` hits `sample_triangle`.
The call `abs(det)` is that of the `float` overload. -/
theorem intersection_shader_barycentric_witness :
    intersection_shader abs_overload.of_float sample_triangle sample_ray ≠ no_hit ∧
    (intersection_shader abs_overload.of_float sample_triangle sample_ray).bary.x
        + (intersection_shader abs_overload.of_float sample_triangle sample_ray).bary.y
        + (intersection_shader abs_overload.of_float sample_triangle sample_ray).bary.z = 1 ∧
    sample_ray.position + (intersection_shader abs_overload.of_float sample_triangle sample_ray).t
        * sample_ray.direction =
      (intersection_shader abs_overload.of_float sample_triangle sample_ray).bary.x * sample_triangle.a
        + (intersection_shader abs_overload.of_float sample_triangle sample_ray).bary.y * sample_triangle.b
        + (intersection_shader abs_overload.of_float sample_triangle sample_ray).bary.z * sample_triangle.c :=
  have hit : intersection_shader abs_overload.of_float sample_triangle sample_ray ≠ no_hit := by
    norm_num [sample_triangle, sample_ray, intersection_shader, abs_overload.call, no_hit,
      triangle.triangle,
      vertex.at_position, cross, dot, payload.ext_iff, float3.ext_iff, abs_div]
  have h := intersection_shader_barycentric abs_overload.of_float (vertex.at_position (0 : ℚ) 0 0)
    (vertex.at_position 1 0 0) (vertex.at_position 0 1 0) sample_ray hit
  ⟨hit, h.1, h.2.2.2.2⟩

/-- C9. Over exact arithmetic, for every ray, `intersection_shader` returns the no-hit payload,
with `t = -1`, for every degenerate triangle (collinear or coincident vertices) and for every
triangle whose plane is parallel to the ray direction (direction orthogonal to the normal). -/
theorem intersection_shader_degenerate_or_parallel [FloorRing K] (ov : abs_overload)
    (vertex_a vertex_b vertex_c : vertex K)
    (r : ray K)
    (h : collinear (triangle.triangle vertex_a vertex_b vertex_c).a
          (triangle.triangle vertex_a vertex_b vertex_c).b
          (triangle.triangle vertex_a vertex_b vertex_c).c ∨
        dot r.direction (plane_normal (triangle.triangle vertex_a vertex_b vertex_c).a
          (triangle.triangle vertex_a vertex_b vertex_c).b
          (triangle.triangle vertex_a vertex_b vertex_c).c) = 0) :
    intersection_shader ov (triangle.triangle vertex_a vertex_b vertex_c) r = no_hit ∧
    (intersection_shader ov (triangle.triangle vertex_a vertex_b vertex_c) r).t = -1 := by
  have hdet : dot (triangle.triangle vertex_a vertex_b vertex_c).ba
      (cross r.direction (triangle.triangle vertex_a vertex_b vertex_c).ca) = 0 := by
    have hd := det_eq_neg_dot_normal (triangle.triangle vertex_a vertex_b vertex_c).a
      (triangle.triangle vertex_a vertex_b vertex_c).b
      (triangle.triangle vertex_a vertex_b vertex_c).c r.direction
    rcases h with h | h
    · rw [collinear_normal h] at hd
      rw [show (triangle.triangle vertex_a vertex_b vertex_c).ba
          = (triangle.triangle vertex_a vertex_b vertex_c).b
            - (triangle.triangle vertex_a vertex_b vertex_c).a from rfl,
        show (triangle.triangle vertex_a vertex_b vertex_c).ca
          = (triangle.triangle vertex_a vertex_b vertex_c).c
            - (triangle.triangle vertex_a vertex_b vertex_c).a from rfl, hd]
      simp [dot]
    · rw [h] at hd
      simpa using hd
  have hno : intersection_shader ov (triangle.triangle vertex_a vertex_b vertex_c) r = no_hit := by
    unfold intersection_shader
    simp only [hdet]
    rw [if_pos (lt_of_le_of_lt (call_le_abs ov 0) (by norm_num))]
    rfl
  exact ⟨hno, by rw [hno]; rfl⟩

/-- C9 at a concrete input: a triangle with three coincident vertices.
The call `abs(det)` is that of the `float` overload. -/
theorem intersection_shader_degenerate_or_parallel_witness :
    intersection_shader abs_overload.of_float (triangle.triangle (vertex.at_position (1 : ℚ) 2 3)
      (vertex.at_position 1 2 3) (vertex.at_position 1 2 3)) sample_ray = no_hit ∧
    (intersection_shader abs_overload.of_float (triangle.triangle (vertex.at_position (1 : ℚ) 2 3)
      (vertex.at_position 1 2 3) (vertex.at_position 1 2 3)) sample_ray).t = -1 :=
  intersection_shader_degenerate_or_parallel abs_overload.of_float (vertex.at_position (1 : ℚ) 2 3)
    (vertex.at_position 1 2 3) (vertex.at_position 1 2 3) sample_ray
    (Or.inl ⟨0, 0, 0, by ext <;> simp [triangle.triangle, vertex.at_position],
      by ext <;> simp [triangle.triangle, vertex.at_position]⟩)

/-- The accepting path of `intersection_shader`: when the three tests pass, the payload carries
`t` and the weights `(1 - u - v, u, v)`. -/
theorem intersection_shader_hit [FloorRing K] (ov : abs_overload) (tri : triangle K) (r : ray K)
    (h1 : ¬ ov.call (dot tri.ba (cross r.direction tri.ca)) < 1 / 100000000)
    (h2 : ¬ (dot (r.position - tri.a) (cross r.direction tri.ca)
          * (1 / dot tri.ba (cross r.direction tri.ca)) < 0 ∨
        dot (r.position - tri.a) (cross r.direction tri.ca)
          * (1 / dot tri.ba (cross r.direction tri.ca)) > 1))
    (h3 : ¬ (dot r.direction (cross (r.position - tri.a) tri.ba)
          * (1 / dot tri.ba (cross r.direction tri.ca)) < 0 ∨
        dot (r.position - tri.a) (cross r.direction tri.ca)
            * (1 / dot tri.ba (cross r.direction tri.ca))
          + dot r.direction (cross (r.position - tri.a) tri.ba)
            * (1 / dot tri.ba (cross r.direction tri.ca)) > 1)) :
    intersection_shader ov tri r =
      { t := dot tri.ca (cross (r.position - tri.a) tri.ba)
          * (1 / dot tri.ba (cross r.direction tri.ca))
        bary := ⟨1 - dot (r.position - tri.a) (cross r.direction tri.ca)
                * (1 / dot tri.ba (cross r.direction tri.ca))
              - dot r.direction (cross (r.position - tri.a) tri.ba)
                * (1 / dot tri.ba (cross r.direction tri.ca)),
            dot (r.position - tri.a) (cross r.direction tri.ca)
              * (1 / dot tri.ba (cross r.direction tri.ca)),
            dot r.direction (cross (r.position - tri.a) tri.ba)
              * (1 / dot tri.ba (cross r.direction tri.ca))⟩
        color := 0 } := by
  unfold intersection_shader
  simp only []
  rw [if_neg h1, if_neg h2, if_neg h3]

/-- The two functions `abs` differ between `1e-8` and one: the ray `half_triangle_ray` points
at the centroid of `half_triangle` and the determinant is `-1/4`; with the `float` overload
`intersection_shader` reports the intersection at `t = 1`, with `int abs(int)` it returns the
no-hit payload. -/
theorem intersection_shader_half_triangle :
    half_triangle_ray.direction = (1 : ℚ) *
      (centroid half_triangle.a half_triangle.b half_triangle.c - half_triangle_ray.position) ∧
    dot half_triangle.ba (cross half_triangle_ray.direction half_triangle.ca) = -1 / 4 ∧
    (intersection_shader abs_overload.of_float half_triangle half_triangle_ray).t = 1 ∧
    intersection_shader abs_overload.of_int half_triangle half_triangle_ray = no_hit := by
  have hdet : dot half_triangle.ba (cross half_triangle_ray.direction half_triangle.ca)
      = -1 / 4 := by
    norm_num [half_triangle, half_triangle_ray, triangle.triangle, vertex.at_position, cross,
      dot]
  refine ⟨?_, hdet, ?_, intersection_shader_of_int_below_one _ _ (by rw [hdet]; norm_num
    [abs_div])⟩
  · ext <;> norm_num [centroid, half_triangle, half_triangle_ray, triangle.triangle,
      vertex.at_position]
  · norm_num [half_triangle, half_triangle_ray, intersection_shader, abs_overload.call,
      triangle.triangle, vertex.at_position, cross, dot, abs_div]

/-- The componentwise order is reflexive. -/
theorem le3_refl (a : float3 K) : float3.le a a := ⟨le_rfl, le_rfl, le_rfl⟩

/-- The componentwise order is transitive. -/
theorem le3_trans {a b c : float3 K} (h1 : float3.le a b) (h2 : float3.le b c) :
    float3.le a c :=
  ⟨h1.1.trans h2.1, h1.2.1.trans h2.2.1, h1.2.2.trans h2.2.2⟩

/-- The componentwise maximum is above its first argument. -/
theorem le3_max_left (a b : float3 K) : float3.le a (float3.max a b) :=
  ⟨le_max_left _ _, le_max_left _ _, le_max_left _ _⟩

/-- The componentwise maximum is above its second argument. -/
theorem le3_max_right (a b : float3 K) : float3.le b (float3.max a b) :=
  ⟨le_max_right _ _, le_max_right _ _, le_max_right _ _⟩

/-- The componentwise minimum is below its first argument. -/
theorem min3_le_left (a b : float3 K) : float3.le (float3.min a b) a :=
  ⟨min_le_left _ _, min_le_left _ _, min_le_left _ _⟩

/-- The componentwise minimum is below its second argument. -/
theorem min3_le_right (a b : float3 K) : float3.le (float3.min a b) b :=
  ⟨min_le_right _ _, min_le_right _ _, min_le_right _ _⟩

/-- The triangles of a box after `add_triangle`: the new one is appended. -/
theorem add_triangle_triangles (box : aabb K) (t : triangle K) :
    (box.add_triangle t).triangles = box.triangles ++ [t] := by
  unfold aabb.add_triangle
  by_cases h : box.triangles.isEmpty <;> simp [h]

/-- The corners after `add_triangle`, from the corners `seed` it widens: those of the box, or
the first vertex when the box was empty. -/
theorem add_triangle_corners (box : aabb K) (t : triangle K) :
    ∃ lo hi : float3 K,
      (box.triangles ≠ [] → lo = box.aabb_min ∧ hi = box.aabb_max) ∧
      (box.add_triangle t).aabb_min = float3.min t.c (float3.min t.b (float3.min t.a lo)) ∧
      (box.add_triangle t).aabb_max = float3.max t.c (float3.max t.b (float3.max t.a hi)) := by
  by_cases h : box.triangles.isEmpty
  · refine ⟨t.a, t.a, ?_, ?_, ?_⟩
    · intro hne
      exact absurd (List.isEmpty_iff.mp h) hne
    · simp [aabb.add_triangle, h]
    · simp [aabb.add_triangle, h]
  · refine ⟨box.aabb_min, box.aabb_max, fun _ => ⟨rfl, rfl⟩, ?_, ?_⟩
    · simp [aabb.add_triangle, h]
    · simp [aabb.add_triangle, h]

/-- The method `add_triangle` encloses the triangle it adds. -/
theorem add_triangle_encloses_new (box : aabb K) (t : triangle K) :
    (box.add_triangle t).encloses t := by
  obtain ⟨lo, hi, -, hmin, hmax⟩ := add_triangle_corners box t
  unfold aabb.encloses
  rw [hmin, hmax]
  refine ⟨⟨?_, ?_⟩, ⟨?_, ?_⟩, ⟨?_, ?_⟩⟩
  · exact le3_trans (min3_le_right _ _)
      (le3_trans (min3_le_right _ _) (min3_le_left _ _))
  · exact le3_trans (le3_max_left _ _)
      (le3_trans (le3_max_right _ _) (le3_max_right _ _))
  · exact le3_trans (min3_le_right _ _) (min3_le_left _ _)
  · exact le3_trans (le3_max_left _ _) (le3_max_right _ _)
  · exact min3_le_left _ _
  · exact le3_max_left _ _

/-- The method `add_triangle` never shrinks a box that already owns a triangle. -/
theorem add_triangle_widens (box : aabb K) (t : triangle K) (hne : box.triangles ≠ []) :
    float3.le (box.add_triangle t).aabb_min box.aabb_min ∧
    float3.le box.aabb_max (box.add_triangle t).aabb_max := by
  obtain ⟨lo, hi, hseed, hmin, hmax⟩ := add_triangle_corners box t
  obtain ⟨hlo, hhi⟩ := hseed hne
  rw [hmin, hmax, hlo, hhi]
  exact ⟨le3_trans (min3_le_right _ _)
      (le3_trans (min3_le_right _ _) (min3_le_right _ _)),
    le3_trans (le3_max_right _ _)
      (le3_trans (le3_max_right _ _) (le3_max_right _ _))⟩

/-- The method `add_triangle` keeps every triangle of the box enclosed, and encloses the new
one. -/
theorem add_triangle_invariant (box : aabb K) (t : triangle K)
    (h : ∀ s ∈ box.triangles, box.encloses s) :
    ∀ s ∈ (box.add_triangle t).triangles, (box.add_triangle t).encloses s := by
  intro s hs
  rw [add_triangle_triangles] at hs
  rcases List.mem_append.mp hs with hs | hs
  · have hne : box.triangles ≠ [] := List.ne_nil_of_mem hs
    obtain ⟨hlo, hhi⟩ := add_triangle_widens box t hne
    obtain ⟨⟨a1, a2⟩, ⟨b1, b2⟩, ⟨c1, c2⟩⟩ := h s hs
    exact ⟨⟨le3_trans hlo a1, le3_trans a2 hhi⟩,
      ⟨le3_trans hlo b1, le3_trans b2 hhi⟩,
      ⟨le3_trans hlo c1, le3_trans c2 hhi⟩⟩
  · rw [List.mem_singleton.mp hs]
    exact add_triangle_encloses_new box t

/-- A run of `add_triangle` calls appends the triangles in call order and keeps the enclosure
invariant. -/
theorem foldl_add_triangle (ts : List (triangle K)) (box : aabb K)
    (h : ∀ s ∈ box.triangles, box.encloses s) :
    (ts.foldl aabb.add_triangle box).triangles = box.triangles ++ ts ∧
    ∀ s ∈ (ts.foldl aabb.add_triangle box).triangles,
      (ts.foldl aabb.add_triangle box).encloses s := by
  induction ts generalizing box with
  | nil => exact ⟨by simp, h⟩
  | cons t rest ih =>
    obtain ⟨h1, h2⟩ := ih (box.add_triangle t) (add_triangle_invariant box t h)
    refine ⟨?_, h2⟩
    rw [List.foldl_cons, h1, add_triangle_triangles]
    simp

/-- C4. For every sequence `ts` of `add_triangle` calls on an empty box and every `n`, after
the first `n` calls the box encloses every vertex (`a`, `b` and `c`) of every triangle added so
far, componentwise; and an `add_triangle` call on a non-empty box never shrinks it. -/
theorem add_triangle_containment (box0 : aabb K) (h0 : box0.triangles = [])
    (ts : List (triangle K)) :
    (∀ n : Nat, ∀ t ∈ ts.take n, ((ts.take n).foldl aabb.add_triangle box0).encloses t) ∧
    (∀ (box : aabb K) (t : triangle K), box.triangles ≠ [] →
      float3.le (box.add_triangle t).aabb_min box.aabb_min ∧
      float3.le box.aabb_max (box.add_triangle t).aabb_max) := by
  refine ⟨?_, fun box t hne => add_triangle_widens box t hne⟩
  intro n t ht
  obtain ⟨h1, h2⟩ := foldl_add_triangle (ts.take n) box0 (by simp [h0])
  apply h2
  rw [h1, h0]
  simpa using ht

/-- C4 at a concrete input: two triangles added to a default-constructed box; the box after
both calls encloses the first one. -/
theorem add_triangle_containment_witness :
    (([sample_triangle, small_triangle].take 2).foldl aabb.add_triangle aabb.fresh).encloses
      sample_triangle :=
  (add_triangle_containment aabb.fresh rfl [sample_triangle, small_triangle]).1 2
    sample_triangle (by simp)

/-- The tested triangles of two runs of calls, one after the other. -/
theorem tested_append (l1 l2 : List (event K)) : tested (l1 ++ l2) = tested l1 ++ tested l2 := by
  induction l1 with
  | nil => rfl
  | cons e rest ih => cases e <;> simp [tested, ih]

/-- The shader calls of two runs of calls, one after the other. -/
theorem invocations_append (l1 l2 : List (event K)) :
    invocations (l1 ++ l2) = invocations l1 ++ invocations l2 := by
  induction l1 with
  | nil => rfl
  | cons e rest ih => cases e <;> simp [invocations, ih]

/-- The box tests of two runs of calls, one after the other. -/
theorem box_tests_append (l1 l2 : List (event K)) :
    box_tests (l1 ++ l2) = box_tests l1 ++ box_tests l2 := by
  induction l1 with
  | nil => rfl
  | cons e rest ih => cases e <;> simp [box_tests, ih]

/-- One iteration of the inner loop of `trace_ray`. -/
theorem scan_triangles_cons [FloorRing K] (ov : abs_overload)
    (any_hit_shader : Option (hit_shader K)) (r : ray K) (min_t : K)
    (t : triangle K) (rest : List (triangle K)) (st : closest K) :
    scan_triangles ov any_hit_shader r min_t (t :: rest) st =
      if (intersection_shader ov t r).t > min_t ∧
          (intersection_shader ov t r).t < st.closest_hit_payload.t then
        match any_hit_shader with
        | some f =>
          (scan.returned (f r (intersection_shader ov t r) t),
            [event.intersection_shader t,
              event.any_hit_shader (intersection_shader ov t r) t
                (f r (intersection_shader ov t r) t)])
        | none =>
          ((scan_triangles ov any_hit_shader r min_t rest
              { closest_hit_payload := intersection_shader ov t r, closest_triangle := some t }).1,
            event.intersection_shader t ::
              (scan_triangles ov any_hit_shader r min_t rest
                { closest_hit_payload := intersection_shader ov t r,
                  closest_triangle := some t }).2)
      else
        ((scan_triangles ov any_hit_shader r min_t rest st).1,
          event.intersection_shader t :: (scan_triangles ov any_hit_shader r min_t rest st).2) :=
  rfl

/-- The inner loop over `l1 ++ l2` is the loop over `l1` followed, unless it returned, by the
loop over `l2`. -/
theorem scan_triangles_append [FloorRing K] (ov : abs_overload)
    (any_hit_shader : Option (hit_shader K)) (r : ray K) (min_t : K)
    (l1 l2 : List (triangle K)) (st : closest K) :
    scan_triangles ov any_hit_shader r min_t (l1 ++ l2) st =
      match (scan_triangles ov any_hit_shader r min_t l1 st).1 with
      | scan.returned result =>
        (scan.returned result, (scan_triangles ov any_hit_shader r min_t l1 st).2)
      | scan.next st1 =>
        ((scan_triangles ov any_hit_shader r min_t l2 st1).1,
          (scan_triangles ov any_hit_shader r min_t l1 st).2
            ++ (scan_triangles ov any_hit_shader r min_t l2 st1).2) := by
  induction l1 generalizing st with
  | nil => simp [scan_triangles]
  | cons t rest ih =>
    rw [List.cons_append, scan_triangles_cons ov, scan_triangles_cons ov]
    split_ifs with hc
    · cases any_hit_shader with
      | some f => simp
      | none =>
        simp only []
        rw [ih]
        cases h : (scan_triangles ov none r min_t rest
          { closest_hit_payload := intersection_shader ov t r, closest_triangle := some t }).1 <;>
          simp
    · rw [ih]
      cases h : (scan_triangles ov any_hit_shader r min_t rest st).1 <;> simp

/-- The outer loop computes what the inner loop computes on the triangles in scan order, and
tests and invokes the same. -/
theorem scan_boxes_flat [FloorRing K] (ov : abs_overload)
    (any_hit_shader : Option (hit_shader K)) (r : ray K) (min_t : K)
    (bs : List (aabb K)) (st : closest K) :
    (scan_boxes ov any_hit_shader r min_t bs st).1 =
      (scan_triangles ov any_hit_shader r min_t (scan_order r bs) st).1 ∧
    tested (scan_boxes ov any_hit_shader r min_t bs st).2 =
      tested (scan_triangles ov any_hit_shader r min_t (scan_order r bs) st).2 ∧
    invocations (scan_boxes ov any_hit_shader r min_t bs st).2 =
      invocations (scan_triangles ov any_hit_shader r min_t (scan_order r bs) st).2 := by
  induction bs generalizing st with
  | nil => simp [scan_boxes, scan_order, scan_triangles]
  | cons b rest ih =>
    simp only [scan_boxes, scan_order]
    by_cases hb : b.aabb_test r = true
    · simp only [hb, not_true_eq_false, if_false, if_true, scan_triangles_append ov]
      cases h1 : (scan_triangles ov any_hit_shader r min_t b.get_traingles st).1 with
      | returned result => simp [tested, invocations]
      | next st1 =>
        obtain ⟨i1, i2, i3⟩ := ih st1
        simp [tested, invocations, tested_append, invocations_append, i1, i2, i3]
    · obtain ⟨i1, i2, i3⟩ := ih st
      simp [hb, tested, invocations, i1, i2, i3]

/-- The inner loop without an any-hit shader: it tests every triangle, and ends either with the
locals untouched, when no payload passes the test against them, or with the first triangle of
least `t` among those above `min_t`, which is below the `t` the loop started from. -/
theorem scan_triangles_closest [FloorRing K] (ov : abs_overload)
    (r : ray K) (min_t : K) (l : List (triangle K)) (st : closest K) :
    (scan_triangles ov none r min_t l st).2 = l.map event.intersection_shader ∧
    (((∀ x ∈ l, ¬ ((intersection_shader ov x r).t > min_t ∧
          (intersection_shader ov x r).t < st.closest_hit_payload.t)) ∧
        (scan_triangles ov none r min_t l st).1 = scan.next st) ∨
      ∃ pre tri post, l = pre ++ tri :: post ∧
        min_t < (intersection_shader ov tri r).t ∧
        (intersection_shader ov tri r).t < st.closest_hit_payload.t ∧
        (∀ x ∈ pre, min_t < (intersection_shader ov x r).t →
          (intersection_shader ov tri r).t < (intersection_shader ov x r).t) ∧
        (∀ x ∈ post, min_t < (intersection_shader ov x r).t →
          (intersection_shader ov tri r).t ≤ (intersection_shader ov x r).t) ∧
        (scan_triangles ov none r min_t l st).1 =
          scan.next { closest_hit_payload := intersection_shader ov tri r,
                      closest_triangle := some tri }) := by
  induction l generalizing st with
  | nil => exact ⟨rfl, Or.inl ⟨by simp, rfl⟩⟩
  | cons t rest ih =>
    rw [scan_triangles_cons ov]
    split_ifs with hc
    · obtain ⟨hlog, hres⟩ := ih ⟨intersection_shader ov t r, some t⟩
      simp only []
      refine ⟨by simp [hlog], Or.inr ?_⟩
      rcases hres with ⟨hnone, heq⟩ | ⟨pre, tri, post, hl, h1, h2, h3, h4, heq⟩
      · refine ⟨[], t, rest, rfl, hc.1, hc.2, by simp, ?_, heq⟩
        intro x hx hmin
        exact not_lt.mp (fun hlt => hnone x hx ⟨hmin, hlt⟩)
      · refine ⟨t :: pre, tri, post, by simp [hl], h1, lt_trans h2 hc.2, ?_, h4, heq⟩
        intro x hx hmin
        rcases List.mem_cons.mp hx with rfl | hx
        · exact h2
        · exact h3 x hx hmin
    · obtain ⟨hlog, hres⟩ := ih st
      simp only []
      refine ⟨by simp [hlog], ?_⟩
      rcases hres with ⟨hnone, heq⟩ | ⟨pre, tri, post, hl, h1, h2, h3, h4, heq⟩
      · left
        refine ⟨?_, heq⟩
        intro x hx
        rcases List.mem_cons.mp hx with rfl | hx
        · exact hc
        · exact hnone x hx
      · right
        refine ⟨t :: pre, tri, post, by simp [hl], h1, h2, ?_, h4, heq⟩
        intro x hx hmin
        rcases List.mem_cons.mp hx with rfl | hx
        · have : st.closest_hit_payload.t ≤ (intersection_shader ov x r).t :=
            not_lt.mp (fun hlt => hc ⟨hmin, hlt⟩)
          exact lt_of_lt_of_le h2 this
        · exact h3 x hx hmin

/-- The inner loop with an any-hit shader `f`: either no payload passes the test, every triangle
is tested and the locals are untouched, or the loop returns `f` of the first triangle whose
payload passes, having tested the triangles up to that one and no other. -/
theorem scan_triangles_any_hit [FloorRing K] (ov : abs_overload)
    (f : hit_shader K) (r : ray K) (min_t : K)
    (l : List (triangle K)) (st : closest K) :
    ((∀ x ∈ l, ¬ ((intersection_shader ov x r).t > min_t ∧
          (intersection_shader ov x r).t < st.closest_hit_payload.t)) ∧
      scan_triangles ov (some f) r min_t l st = (scan.next st, l.map event.intersection_shader)) ∨
    ∃ pre tri post, l = pre ++ tri :: post ∧
      (∀ x ∈ pre, ¬ ((intersection_shader ov x r).t > min_t ∧
          (intersection_shader ov x r).t < st.closest_hit_payload.t)) ∧
      ((intersection_shader ov tri r).t > min_t ∧
          (intersection_shader ov tri r).t < st.closest_hit_payload.t) ∧
      scan_triangles ov (some f) r min_t l st =
        (scan.returned (f r (intersection_shader ov tri r) tri),
          (pre ++ [tri]).map event.intersection_shader
            ++ [event.any_hit_shader (intersection_shader ov tri r) tri
                (f r (intersection_shader ov tri r) tri)]) := by
  induction l generalizing st with
  | nil => exact Or.inl ⟨by simp, rfl⟩
  | cons t rest ih =>
    rw [scan_triangles_cons ov]
    split_ifs with hc
    · exact Or.inr ⟨[], t, rest, rfl, by simp, hc, by simp⟩
    · rcases ih st with ⟨hnone, heq⟩ | ⟨pre, tri, post, hl, h1, h2, heq⟩
      · left
        refine ⟨?_, by simp [heq]⟩
        intro x hx
        rcases List.mem_cons.mp hx with rfl | hx
        · exact hc
        · exact hnone x hx
      · right
        refine ⟨t :: pre, tri, post, by simp [hl], ?_, h2, by simp [heq]⟩
        intro x hx
        rcases List.mem_cons.mp hx with rfl | hx
        · exact hc
        · exact h1 x hx

/-- The tested triangles of a run of `intersection_shader` calls. -/
theorem tested_map (l : List (triangle K)) : tested (l.map event.intersection_shader) = l := by
  induction l with
  | nil => rfl
  | cons t rest ih => simp [tested, ih]

/-- A run of `intersection_shader` calls invokes no shader. -/
theorem invocations_map (l : List (triangle K)) :
    invocations (l.map event.intersection_shader) = [] := by
  induction l with
  | nil => rfl
  | cons t rest ih => simp [invocations, ih]

/-- Membership in the scan order: the triangles of the boxes accepted by `aabb_test`. -/
theorem mem_scan_order (r : ray K) (bs : List (aabb K)) (tri : triangle K) :
    tri ∈ scan_order r bs ↔
      ∃ box ∈ bs, box.aabb_test r = true ∧ tri ∈ box.get_traingles := by
  induction bs with
  | nil => simp [scan_order]
  | cons b rest ih =>
    by_cases hb : b.aabb_test r = true
    · simp [scan_order, hb, ih]
    · simp [scan_order, hb, ih]

/-- When the scan runs to its end with the locals `st`, `trace_ray` dispatches on them. -/
theorem trace_ray_run_next [FloorRing K] (ov : abs_overload)
    (rt : raytracer K) (r : ray K) (depth : Nat) (max_t min_t : K)
    (st : closest K) (hd : depth ≠ 0)
    (h : (scan_boxes ov rt.any_hit_shader r min_t rt.acceleration_structures
      ⟨⟨max_t, 0, 0⟩, none⟩).1 = scan.next st) :
    trace_ray_run ov rt r depth max_t min_t =
      if st.closest_hit_payload.t < max_t then
        match rt.closest_hit_shader with
        | some f =>
          match st.closest_triangle with
          | some triangle =>
            (Except.ok (f r st.closest_hit_payload triangle),
              (scan_boxes ov rt.any_hit_shader r min_t rt.acceleration_structures
                  ⟨⟨max_t, 0, 0⟩, none⟩).2
                ++ [event.closest_hit_shader st.closest_hit_payload triangle
                  (f r st.closest_hit_payload triangle)])
          | none => (Except.error fault.null_dereference,
              (scan_boxes ov rt.any_hit_shader r min_t rt.acceleration_structures
                  ⟨⟨max_t, 0, 0⟩, none⟩).2)
        | none =>
          ((return_miss_shader rt r).1,
            (scan_boxes ov rt.any_hit_shader r min_t rt.acceleration_structures
                ⟨⟨max_t, 0, 0⟩, none⟩).2 ++ (return_miss_shader rt r).2)
      else
        ((return_miss_shader rt r).1,
          (scan_boxes ov rt.any_hit_shader r min_t rt.acceleration_structures
              ⟨⟨max_t, 0, 0⟩, none⟩).2 ++ (return_miss_shader rt r).2) := by
  unfold trace_ray_run
  simp only [hd, if_false, h]

/-- When the scan returns from inside the loops, `trace_ray` returns that payload. -/
theorem trace_ray_run_returned [FloorRing K] (ov : abs_overload)
    (rt : raytracer K) (r : ray K) (depth : Nat) (max_t min_t : K)
    (result : payload K) (hd : depth ≠ 0)
    (h : (scan_boxes ov rt.any_hit_shader r min_t rt.acceleration_structures
      ⟨⟨max_t, 0, 0⟩, none⟩).1 = scan.returned result) :
    trace_ray_run ov rt r depth max_t min_t =
      (Except.ok result,
        (scan_boxes ov rt.any_hit_shader r min_t rt.acceleration_structures
          ⟨⟨max_t, 0, 0⟩, none⟩).2) := by
  unfold trace_ray_run
  simp only [hd, if_false, h]

/-- C1. For every acceleration set, ray, `depth >= 1`, `min_t` and `max_t`, with a closest-hit
shader `f` installed and no any-hit shader: if some triangle of a box that passes `aabb_test`
has an `intersection_shader` payload with `min_t < t < max_t`, then the triangles in scan order
split as `pre ++ tri :: post` where the payload of `tri` is inside the window, is strictly below
every payload inside the window before it and at most every one after it (the first of least
`t`), and `trace_ray` returns `f(ray, intersection_shader(tri, ray), tri)`. -/
theorem trace_ray_closest_hit [FloorRing K] (ov : abs_overload)
    (rt : raytracer K) (r : ray K) (depth : Nat) (max_t min_t : K)
    (f : hit_shader K) (hdepth : 1 ≤ depth) (hclosest : rt.closest_hit_shader = some f)
    (hany : rt.any_hit_shader = none)
    (hex : ∃ box ∈ rt.acceleration_structures, box.aabb_test r = true ∧
      ∃ tri ∈ box.get_traingles, in_window ov r min_t max_t tri) :
    ∃ pre tri post, scan_order r rt.acceleration_structures = pre ++ tri :: post ∧
      in_window ov r min_t max_t tri ∧
      (∀ x ∈ pre, in_window ov r min_t max_t x →
        (intersection_shader ov tri r).t < (intersection_shader ov x r).t) ∧
      (∀ x ∈ post, in_window ov r min_t max_t x →
        (intersection_shader ov tri r).t ≤ (intersection_shader ov x r).t) ∧
      trace_ray ov rt r depth max_t min_t = Except.ok (f r (intersection_shader ov tri r) tri) := by
  have hd : depth ≠ 0 := by omega
  obtain ⟨hflat, -, -⟩ := scan_boxes_flat ov rt.any_hit_shader r min_t rt.acceleration_structures
    ⟨⟨max_t, 0, 0⟩, none⟩
  obtain ⟨-, hres⟩ := scan_triangles_closest ov r min_t (scan_order r rt.acceleration_structures)
    ⟨⟨max_t, 0, 0⟩, none⟩
  rcases hres with ⟨hnone, -⟩ | ⟨pre, tri, post, hl, h1, h2, h3, h4, heq⟩
  · exfalso
    obtain ⟨box, hbox, htest, tri, htri, hw⟩ := hex
    exact hnone tri ((mem_scan_order r _ tri).mpr ⟨box, hbox, htest, htri⟩) ⟨hw.1, hw.2⟩
  · refine ⟨pre, tri, post, hl, ⟨h1, h2⟩, fun x hx hw => h3 x hx hw.1,
      fun x hx hw => h4 x hx hw.1, ?_⟩
    have hscan : (scan_boxes ov rt.any_hit_shader r min_t rt.acceleration_structures
        ⟨⟨max_t, 0, 0⟩, none⟩).1 = scan.next ⟨intersection_shader ov tri r, some tri⟩ := by
      rw [hflat, hany]
      exact heq
    unfold trace_ray
    rw [trace_ray_run_next ov rt r depth max_t min_t _ hd hscan, if_pos h2, hclosest]

/-- C1 at a concrete input: `sample_tracer`, whose one box owns `sample_triangle`, traced along
`sample_ray` with depth 1 and the default window.
The call `abs(det)` is that of the `float` overload. -/
theorem trace_ray_closest_hit_witness :
    ∃ pre tri post, scan_order sample_ray sample_tracer.acceleration_structures
        = pre ++ tri :: post ∧
      in_window abs_overload.of_float sample_ray default_min_t default_max_t tri ∧
      (∀ x ∈ pre, in_window abs_overload.of_float sample_ray default_min_t default_max_t x →
        (intersection_shader abs_overload.of_float tri sample_ray).t <
          (intersection_shader abs_overload.of_float x sample_ray).t) ∧
      (∀ x ∈ post, in_window abs_overload.of_float sample_ray default_min_t default_max_t x →
        (intersection_shader abs_overload.of_float tri sample_ray).t ≤
          (intersection_shader abs_overload.of_float x sample_ray).t) ∧
      trace_ray abs_overload.of_float sample_tracer sample_ray 1 default_max_t default_min_t
        = Except.ok (echo_shader sample_ray (intersection_shader abs_overload.of_float tri sample_ray) tri) :=
  trace_ray_closest_hit abs_overload.of_float sample_tracer sample_ray 1 default_max_t default_min_t echo_shader
    (by decide) rfl rfl
    ⟨sample_box, by simp [sample_tracer],
      by norm_num [sample_box, sample_ray, aabb.aabb_test, aabb.add_triangle, aabb.fresh,
        sample_triangle, triangle.triangle, vertex.at_position, float3.splat, float3.min,
        float3.max, float3.maxelem, float3.minelem],
      sample_triangle, by simp [sample_box, aabb.get_traingles, aabb.add_triangle, aabb.fresh],
      by norm_num [in_window, default_min_t, default_max_t, sample_triangle, sample_ray,
        intersection_shader, abs_overload.call, triangle.triangle, vertex.at_position, cross, dot,
          abs_div]⟩

/-- C5. For every acceleration set, ray, `depth >= 1`, `min_t` and `max_t`, with an any-hit
shader `f` installed: if some triangle of a box that passes `aabb_test` has an
`intersection_shader` payload with `min_t < t < max_t`, then the triangles in scan order split
as `pre ++ tri :: post` where `tri` is the first whose payload is inside the window,
`trace_ray` returns `f(ray, intersection_shader(tri, ray), tri)`, the triangles tested by
`intersection_shader` are exactly `pre` and `tri` (none of `post`), and the only shader call is
that one call of the any-hit shader. -/
theorem trace_ray_any_hit [FloorRing K] (ov : abs_overload)
    (rt : raytracer K) (r : ray K) (depth : Nat) (max_t min_t : K)
    (f : hit_shader K) (hdepth : 1 ≤ depth) (hany : rt.any_hit_shader = some f)
    (hex : ∃ box ∈ rt.acceleration_structures, box.aabb_test r = true ∧
      ∃ tri ∈ box.get_traingles, in_window ov r min_t max_t tri) :
    ∃ pre tri post, scan_order r rt.acceleration_structures = pre ++ tri :: post ∧
      (∀ x ∈ pre, ¬ in_window ov r min_t max_t x) ∧
      in_window ov r min_t max_t tri ∧
      trace_ray ov rt r depth max_t min_t = Except.ok (f r (intersection_shader ov tri r) tri) ∧
      tested (trace_ray_log ov rt r depth max_t min_t) = pre ++ [tri] ∧
      invocations (trace_ray_log ov rt r depth max_t min_t)
        = [(slot.any_hit, f r (intersection_shader ov tri r) tri)] := by
  have hd : depth ≠ 0 := by omega
  obtain ⟨hflat, htested, hinv⟩ := scan_boxes_flat ov rt.any_hit_shader r min_t
    rt.acceleration_structures ⟨⟨max_t, 0, 0⟩, none⟩
  rw [hany] at hflat htested hinv
  rcases scan_triangles_any_hit ov f r min_t (scan_order r rt.acceleration_structures)
    ⟨⟨max_t, 0, 0⟩, none⟩ with ⟨hnone, -⟩ | ⟨pre, tri, post, hl, h1, h2, heq⟩
  · exfalso
    obtain ⟨box, hbox, htest, tri, htri, hw⟩ := hex
    exact hnone tri ((mem_scan_order r _ tri).mpr ⟨box, hbox, htest, htri⟩) ⟨hw.1, hw.2⟩
  · rw [heq] at hflat htested hinv
    simp only [tested_append, tested_map, invocations_append, invocations_map, tested,
      invocations, List.append_nil, List.nil_append] at hflat htested hinv
    have hrun := trace_ray_run_returned ov rt r depth max_t min_t _ hd (by rw [hany]; exact hflat)
    refine ⟨pre, tri, post, hl, fun x hx hw => h1 x hx ⟨hw.1, hw.2⟩, ⟨h2.1, h2.2⟩, ?_, ?_, ?_⟩
    · unfold trace_ray
      rw [hrun]
    · unfold trace_ray_log
      rw [hrun, hany]
      exact htested
    · unfold trace_ray_log
      rw [hrun, hany]
      exact hinv

/-- C5 at a concrete input: `sample_tracer_any_hit` traced along `sample_ray` with depth 1 and
the default window.
The call `abs(det)` is that of the `float` overload. -/
theorem trace_ray_any_hit_witness :
    ∃ pre tri post, scan_order sample_ray sample_tracer_any_hit.acceleration_structures
        = pre ++ tri :: post ∧
      (∀ x ∈ pre, ¬ in_window abs_overload.of_float sample_ray default_min_t default_max_t x) ∧
      in_window abs_overload.of_float sample_ray default_min_t default_max_t tri ∧
      trace_ray abs_overload.of_float sample_tracer_any_hit sample_ray 1 default_max_t default_min_t
        = Except.ok (echo_shader sample_ray (intersection_shader abs_overload.of_float tri sample_ray) tri) ∧
      tested (trace_ray_log abs_overload.of_float sample_tracer_any_hit sample_ray 1 default_max_t default_min_t)
        = pre ++ [tri] ∧
      invocations (trace_ray_log abs_overload.of_float sample_tracer_any_hit sample_ray 1 default_max_t default_min_t)
        = [(slot.any_hit, echo_shader sample_ray (intersection_shader abs_overload.of_float tri sample_ray) tri)] :=
  trace_ray_any_hit abs_overload.of_float sample_tracer_any_hit sample_ray 1 default_max_t default_min_t echo_shader
    (by decide) rfl
    ⟨sample_box, by simp [sample_tracer_any_hit],
      by norm_num [sample_box, sample_ray, aabb.aabb_test, aabb.add_triangle, aabb.fresh,
        sample_triangle, triangle.triangle, vertex.at_position, float3.splat, float3.min,
        float3.max, float3.maxelem, float3.minelem],
      sample_triangle, by simp [sample_box, aabb.get_traingles, aabb.add_triangle, aabb.fresh],
      by norm_num [in_window, default_min_t, default_max_t, sample_triangle, sample_ray,
        intersection_shader, abs_overload.call, triangle.triangle, vertex.at_position, cross, dot,
          abs_div]⟩

/-- The inner loop over triangles none of whose payloads passes the test against the locals:
every triangle is tested, no shader is called, the locals are untouched. -/
theorem scan_triangles_inert [FloorRing K] (ov : abs_overload)
    (any_hit_shader : Option (hit_shader K)) (r : ray K) (min_t : K)
    (l : List (triangle K)) (st : closest K)
    (h : ∀ x ∈ l, ¬ ((intersection_shader ov x r).t > min_t ∧
      (intersection_shader ov x r).t < st.closest_hit_payload.t)) :
    scan_triangles ov any_hit_shader r min_t l st =
      (scan.next st, l.map event.intersection_shader) := by
  induction l with
  | nil => rfl
  | cons t rest ih =>
    rw [scan_triangles_cons ov, if_neg (h t (List.mem_cons_self _ _)),
      ih (fun x hx => h x (List.mem_cons_of_mem _ hx))]
    rfl

/-- How the scan of `trace_ray` ends, from the locals `t = max_t`, no triangle.  Either it
returned from inside the loops: then an any-hit shader `f` is installed, the payload is `f` of a
triangle in scan order whose payload is inside the window, and that call is the only shader
call.  Or it ran to its end without a shader call, with the locals untouched or holding a
triangle in scan order and its payload, which is inside the window. -/
theorem scan_boxes_outcome [FloorRing K] (ov : abs_overload)
    (any_hit_shader : Option (hit_shader K)) (r : ray K)
    (max_t min_t : K) (bs : List (aabb K)) :
    (∃ f tri, any_hit_shader = some f ∧ tri ∈ scan_order r bs ∧ in_window ov r min_t max_t tri ∧
      (scan_boxes ov any_hit_shader r min_t bs ⟨⟨max_t, 0, 0⟩, none⟩).1
        = scan.returned (f r (intersection_shader ov tri r) tri) ∧
      invocations (scan_boxes ov any_hit_shader r min_t bs ⟨⟨max_t, 0, 0⟩, none⟩).2
        = [(slot.any_hit, f r (intersection_shader ov tri r) tri)]) ∨
    (invocations (scan_boxes ov any_hit_shader r min_t bs ⟨⟨max_t, 0, 0⟩, none⟩).2 = [] ∧
      (((∀ x ∈ scan_order r bs, ¬ in_window ov r min_t max_t x) ∧
        (scan_boxes ov any_hit_shader r min_t bs ⟨⟨max_t, 0, 0⟩, none⟩).1
          = scan.next ⟨⟨max_t, 0, 0⟩, none⟩) ∨
      (∃ tri, any_hit_shader = none ∧ tri ∈ scan_order r bs ∧ in_window ov r min_t max_t tri ∧
        (scan_boxes ov any_hit_shader r min_t bs ⟨⟨max_t, 0, 0⟩, none⟩).1
          = scan.next ⟨intersection_shader ov tri r, some tri⟩))) := by
  obtain ⟨hflat, -, hinv⟩ := scan_boxes_flat ov any_hit_shader r min_t bs ⟨⟨max_t, 0, 0⟩, none⟩
  cases any_hit_shader with
  | some f =>
    rcases scan_triangles_any_hit ov f r min_t (scan_order r bs) ⟨⟨max_t, 0, 0⟩, none⟩ with
      ⟨hnone, heq⟩ | ⟨pre, tri, post, hl, -, h2, heq⟩
    · right
      rw [heq] at hflat hinv
      rw [invocations_map] at hinv
      exact ⟨hinv, Or.inl ⟨fun x hx hw => hnone x hx ⟨hw.1, hw.2⟩, hflat⟩⟩
    · left
      rw [heq] at hflat hinv
      simp only [invocations_append, invocations_map, invocations, List.nil_append] at hinv
      exact ⟨f, tri, rfl, by simp [hl], ⟨h2.1, h2.2⟩, hflat, hinv⟩
  | none =>
    right
    obtain ⟨hlog, hres⟩ := scan_triangles_closest ov r min_t (scan_order r bs) ⟨⟨max_t, 0, 0⟩, none⟩
    rw [hlog, invocations_map] at hinv
    refine ⟨hinv, ?_⟩
    rcases hres with ⟨hnone, heq⟩ | ⟨pre, tri, post, hl, h1, h2, -, -, heq⟩
    · exact Or.inl ⟨fun x hx hw => hnone x hx ⟨hw.1, hw.2⟩, hflat.trans heq⟩
    · exact Or.inr ⟨tri, rfl, by simp [hl], ⟨h1, h2⟩, hflat.trans heq⟩

/-- C8. For every acceleration set, ray, `min_t`, `max_t` and every choice of installed shaders,
`trace_ray` with `depth = 0` returns what the call `miss_shader(ray)` gives (its payload, or
`std::bad_function_call` from an empty slot), tests no box and no triangle, and its only call is
that call of the miss shader. -/
theorem trace_ray_depth_zero [FloorRing K] (ov : abs_overload)
    (rt : raytracer K) (r : ray K) (max_t min_t : K) :
    trace_ray ov rt r 0 max_t min_t =
      (match rt.miss_shader with
        | some m => Except.ok (m r)
        | none => Except.error fault.bad_function_call) ∧
    box_tests (trace_ray_log ov rt r 0 max_t min_t) = [] ∧
    tested (trace_ray_log ov rt r 0 max_t min_t) = [] ∧
    (∀ m, rt.miss_shader = some m →
      trace_ray_log ov rt r 0 max_t min_t = [event.miss_shader (m r)]) ∧
    (∀ e ∈ trace_ray_log ov rt r 0 max_t min_t, ∃ p, e = event.miss_shader p) := by
  unfold trace_ray trace_ray_log trace_ray_run return_miss_shader
  cases h : rt.miss_shader with
  | some m => simp [box_tests, tested]
  | none => simp [box_tests, tested]

/-- C6. For every acceleration set, ray, `depth >= 1` and window with `min_t >= 0`: if every
triangle is either not intersected or intersected only at `t <= 0`, then `trace_ray` returns
what the call `miss_shader(ray)` gives, whichever closest-hit and any-hit shaders are
installed; with the renderer's miss shader that payload has `t = -1`. -/
theorem trace_ray_miss [FloorRing K] (ov : abs_overload)
    (rt : raytracer K) (r : ray K) (depth : Nat) (max_t min_t : K)
    (hdepth : 1 ≤ depth) (hmin : 0 ≤ min_t)
    (haway : ∀ box ∈ rt.acceleration_structures, ∀ tri ∈ box.get_traingles,
      intersection_shader ov tri r = no_hit ∨ (intersection_shader ov tri r).t ≤ 0) :
    trace_ray ov rt r depth max_t min_t =
      (match rt.miss_shader with
        | some m => Except.ok (m r)
        | none => Except.error fault.bad_function_call) ∧
    (∀ m, rt.miss_shader = some m → trace_ray ov rt r depth max_t min_t = Except.ok (m r)) ∧
    (rt.miss_shader = some renderer_miss_shader →
      ∃ p, trace_ray ov rt r depth max_t min_t = Except.ok p ∧ p.t = -1) := by
  have hd : depth ≠ 0 := by omega
  have hnone : ∀ x ∈ scan_order r rt.acceleration_structures, ¬ in_window ov r min_t max_t x := by
    intro x hx hw
    obtain ⟨box, hbox, -, hmem⟩ := (mem_scan_order r _ x).mp hx
    have hle : (intersection_shader ov x r).t ≤ 0 := by
      rcases haway box hbox x hmem with h | h
      · rw [h]
        simp [no_hit]
      · exact h
    exact absurd hw.1 (not_lt.mpr (hle.trans hmin))
  have hscan : (scan_boxes ov rt.any_hit_shader r min_t rt.acceleration_structures
      ⟨⟨max_t, 0, 0⟩, none⟩).1 = scan.next ⟨⟨max_t, 0, 0⟩, none⟩ := by
    rcases scan_boxes_outcome ov rt.any_hit_shader r max_t min_t rt.acceleration_structures with
      ⟨f, tri, -, hmem, hw, -, -⟩ | ⟨-, ⟨-, h⟩ | ⟨tri, -, hmem, hw, -⟩⟩
    · exact absurd hw (hnone tri hmem)
    · exact h
    · exact absurd hw (hnone tri hmem)
  have hrun : trace_ray ov rt r depth max_t min_t =
      (match rt.miss_shader with
        | some m => Except.ok (m r)
        | none => Except.error fault.bad_function_call) := by
    unfold trace_ray
    rw [trace_ray_run_next ov rt r depth max_t min_t _ hd hscan, if_neg (lt_irrefl _)]
    unfold return_miss_shader
    cases rt.miss_shader <;> rfl
  refine ⟨hrun, ?_, ?_⟩
  · intro m hm
    rw [hrun, hm]
  · intro hm
    rw [hrun, hm]
    exact ⟨_, rfl, rfl⟩

/-- C6 at a concrete input: `away_ray` points away from `sample_triangle` (its line meets the
triangle at `t = -1`), traced with depth 1 and the default window.
The call `abs(det)` is that of the `float` overload. -/
theorem trace_ray_miss_witness :
    (intersection_shader abs_overload.of_float sample_triangle away_ray).t = -1 ∧
    intersection_shader abs_overload.of_float sample_triangle away_ray ≠ no_hit ∧
    trace_ray abs_overload.of_float sample_tracer away_ray 1 default_max_t default_min_t
      = Except.ok (renderer_miss_shader away_ray) :=
  ⟨by norm_num [sample_triangle, away_ray, intersection_shader, abs_overload.call,
    triangle.triangle,
      vertex.at_position, cross, dot, abs_div],
    by norm_num [sample_triangle, away_ray, intersection_shader, abs_overload.call, no_hit,
      triangle.triangle,
      vertex.at_position, cross, dot, payload.ext_iff, float3.ext_iff, abs_div],
    (trace_ray_miss abs_overload.of_float sample_tracer away_ray 1 default_max_t default_min_t (by decide)
      (by norm_num [default_min_t])
      (by
        intro box hbox tri htri
        simp only [sample_tracer, List.mem_singleton] at hbox
        subst hbox
        simp only [sample_box, aabb.get_traingles, aabb.add_triangle, aabb.fresh,
          List.isEmpty_nil, if_true, List.nil_append, List.mem_singleton] at htri
        subst htri
        right
        norm_num [sample_triangle, away_ray, intersection_shader, abs_overload.call,
          triangle.triangle,
          vertex.at_position, cross, dot, abs_div])).2.1 renderer_miss_shader rfl⟩

/-- C7. For every call of `trace_ray` with a miss shader `m` installed, the shader calls it
makes are exactly one call of one of the three shaders, and `trace_ray` returns the payload
that call returned; when neither a closest-hit nor an any-hit shader is installed, a genuine
hit inside `(min_t, max_t)` or not, that one call is `miss_shader(ray)`. -/
theorem trace_ray_one_shader [FloorRing K] (ov : abs_overload)
    (rt : raytracer K) (r : ray K) (depth : Nat) (max_t min_t : K)
    (m : ray K → payload K) (hm : rt.miss_shader = some m) :
    (∃ s p, invocations (trace_ray_log ov rt r depth max_t min_t) = [(s, p)] ∧
      trace_ray ov rt r depth max_t min_t = Except.ok p) ∧
    (rt.closest_hit_shader = none → rt.any_hit_shader = none →
      invocations (trace_ray_log ov rt r depth max_t min_t) = [(slot.miss, m r)] ∧
      trace_ray ov rt r depth max_t min_t = Except.ok (m r)) := by
  have hmiss : return_miss_shader rt r = (Except.ok (m r), [event.miss_shader (m r)]) := by
    unfold return_miss_shader
    rw [hm]
  unfold trace_ray trace_ray_log
  by_cases hd : depth = 0
  · have hrun : trace_ray_run ov rt r depth max_t min_t
        = (Except.ok (m r), [event.miss_shader (m r)]) := by
      unfold trace_ray_run
      rw [if_pos hd, hmiss]
    rw [hrun]
    exact ⟨⟨slot.miss, m r, rfl, rfl⟩, fun _ _ => ⟨rfl, rfl⟩⟩
  · rcases scan_boxes_outcome ov rt.any_hit_shader r max_t min_t rt.acceleration_structures with
      ⟨f, tri, hany, -, -, hres, hinv⟩ | ⟨hinv, ⟨-, hres⟩ | ⟨tri, -, -, hw, hres⟩⟩
    · rw [trace_ray_run_returned ov rt r depth max_t min_t _ hd hres]
      refine ⟨⟨slot.any_hit, _, hinv, rfl⟩, ?_⟩
      intro _ hnone
      rw [hnone] at hany
      exact absurd hany (by simp)
    · rw [trace_ray_run_next ov rt r depth max_t min_t _ hd hres, if_neg (lt_irrefl _), hmiss]
      refine ⟨⟨slot.miss, m r, ?_, rfl⟩, fun _ _ => ⟨?_, rfl⟩⟩ <;>
        simp [invocations_append, hinv, invocations]
    · rw [trace_ray_run_next ov rt r depth max_t min_t _ hd hres, if_pos hw.2]
      cases hc : rt.closest_hit_shader with
      | some f =>
        refine ⟨⟨slot.closest_hit, f r (intersection_shader ov tri r) tri, ?_, rfl⟩,
          fun h => absurd h (by simp)⟩
        simp [invocations_append, hinv, invocations]
      | none =>
        rw [hmiss]
        refine ⟨⟨slot.miss, m r, ?_, rfl⟩, fun _ _ => ⟨?_, rfl⟩⟩ <;>
          simp [invocations_append, hinv, invocations]

/-- C7 at a concrete input: `sample_tracer_miss_only` has no closest-hit and no any-hit shader;
`sample_ray` genuinely hits `sample_triangle` inside the default window, and the one shader
call is the miss shader.
The call `abs(det)` is that of the `float` overload. -/
theorem trace_ray_one_shader_witness :
    intersection_shader abs_overload.of_float sample_triangle sample_ray ≠ no_hit ∧
    in_window abs_overload.of_float sample_ray default_min_t default_max_t sample_triangle ∧
    invocations (trace_ray_log abs_overload.of_float sample_tracer_miss_only sample_ray 1 default_max_t default_min_t)
      = [(slot.miss, renderer_miss_shader sample_ray)] ∧
    trace_ray abs_overload.of_float sample_tracer_miss_only sample_ray 1 default_max_t default_min_t
      = Except.ok (renderer_miss_shader sample_ray) :=
  ⟨by norm_num [sample_triangle, sample_ray, intersection_shader, abs_overload.call, no_hit,
    triangle.triangle,
      vertex.at_position, cross, dot, payload.ext_iff, float3.ext_iff, abs_div],
    by norm_num [in_window, default_min_t, default_max_t, sample_triangle, sample_ray,
      intersection_shader, abs_overload.call, triangle.triangle, vertex.at_position, cross, dot,
        abs_div],
    (trace_ray_one_shader abs_overload.of_float sample_tracer_miss_only sample_ray 1 default_max_t default_min_t
      renderer_miss_shader rfl).2 rfl rfl⟩

/-- One slab of `aabb_test`: a parameter `t` whose point lies between the two planes lies
between the two plane parameters. -/
theorem slab_bounds (o d lo hi t : K) (hd : d ≠ 0) (h1 : lo ≤ o + t * d) (h2 : o + t * d ≤ hi) :
    Min.min ((hi - o) * (1 / d)) ((lo - o) * (1 / d)) ≤ t ∧
    t ≤ Max.max ((hi - o) * (1 / d)) ((lo - o) * (1 / d)) := by
  rcases lt_or_gt_of_ne hd with hneg | hpos
  · have hlo : t ≤ (lo - o) * (1 / d) := by
      rw [mul_one_div, le_div_iff_of_neg hneg]
      linarith
    have hhi : (hi - o) * (1 / d) ≤ t := by
      rw [mul_one_div, div_le_iff_of_neg hneg]
      linarith
    exact ⟨(min_le_left _ _).trans hhi, hlo.trans (le_max_right _ _)⟩
  · have hlo : (lo - o) * (1 / d) ≤ t := by
      rw [mul_one_div, div_le_iff₀ hpos]
      linarith
    have hhi : t ≤ (hi - o) * (1 / d) := by
      rw [mul_one_div, le_div_iff₀ hpos]
      linarith
    exact ⟨(min_le_right _ _).trans hlo, hhi.trans (le_max_left _ _)⟩

/-- A convex combination of three numbers between `lo` and `hi` lies between `lo` and `hi`. -/
theorem convex_bounds (w u v a b c lo hi : K) (hw : 0 ≤ w) (hu : 0 ≤ u) (hv : 0 ≤ v)
    (hsum : w + u + v = 1) (ha : lo ≤ a ∧ a ≤ hi) (hb : lo ≤ b ∧ b ≤ hi)
    (hc : lo ≤ c ∧ c ≤ hi) :
    lo ≤ w * a + u * b + v * c ∧ w * a + u * b + v * c ≤ hi := by
  have e1 : lo = w * lo + u * lo + v * lo := by
    rw [← add_mul, ← add_mul, hsum, one_mul]
  have e2 : hi = w * hi + u * hi + v * hi := by
    rw [← add_mul, ← add_mul, hsum, one_mul]
  constructor
  · rw [e1]
    have := mul_le_mul_of_nonneg_left ha.1 hw
    have := mul_le_mul_of_nonneg_left hb.1 hu
    have := mul_le_mul_of_nonneg_left hc.1 hv
    linarith
  · rw [e2]
    have := mul_le_mul_of_nonneg_left ha.2 hw
    have := mul_le_mul_of_nonneg_left hb.2 hu
    have := mul_le_mul_of_nonneg_left hc.2 hv
    linarith

/-- The slab test accepts a ray without zero direction component whose line passes through a
point of the box. -/
theorem aabb_test_of_point (box : aabb K) (r : ray K) (t : K)
    (hx : r.direction.x ≠ 0) (hy : r.direction.y ≠ 0) (hz : r.direction.z ≠ 0)
    (hlo : float3.le box.aabb_min (r.position + t * r.direction))
    (hhi : float3.le (r.position + t * r.direction) box.aabb_max) :
    box.aabb_test r = true := by
  obtain ⟨x1, x2⟩ := slab_bounds r.position.x r.direction.x box.aabb_min.x box.aabb_max.x t hx
    hlo.1 hhi.1
  obtain ⟨y1, y2⟩ := slab_bounds r.position.y r.direction.y box.aabb_min.y box.aabb_max.y t hy
    hlo.2.1 hhi.2.1
  obtain ⟨z1, z2⟩ := slab_bounds r.position.z r.direction.z box.aabb_min.z box.aabb_max.z t hz
    hlo.2.2 hhi.2.2
  unfold aabb.aabb_test
  simp only [decide_eq_true_eq, float3.maxelem, float3.minelem, float3.min, float3.max,
    float3.splat, float3.mul_x, float3.mul_y, float3.mul_z, float3.sub_x, float3.sub_y,
    float3.sub_z, float3.div_x, float3.div_y, float3.div_z]
  exact le_trans (max_le (max_le x1 y1) z1) (le_min (le_min x2 y2) z2)

/-- A box filled through `add_triangle` owns constructed triangles and encloses each of them. -/
theorem filled_encloses {box : aabb K} (h : box.filled) :
    ∀ s ∈ box.get_traingles, s.constructed ∧ box.encloses s := by
  obtain ⟨ts, hts, rfl⟩ := h
  obtain ⟨h1, h2⟩ := foldl_add_triangle ts (aabb.fresh : aabb K) (by simp [aabb.fresh])
  intro s hs
  refine ⟨hts s ?_, h2 s hs⟩
  have hs1 : s ∈ (ts.foldl aabb.add_triangle (aabb.fresh : aabb K)).triangles := hs
  rw [h1] at hs1
  simpa [aabb.fresh] using hs1

/-- The bounding-box test accepts every box one of whose triangles is really hit: for a ray
without zero direction component, a constructed triangle enclosed by the box and an
intersection reported by `intersection_shader`, `aabb_test` is true. -/
theorem aabb_test_of_hit [FloorRing K] (ov : abs_overload)
    (box : aabb K) (tri : triangle K) (r : ray K)
    (hx : r.direction.x ≠ 0) (hy : r.direction.y ≠ 0) (hz : r.direction.z ≠ 0)
    (hc : tri.constructed) (henc : box.encloses tri)
    (hit : intersection_shader ov tri r ≠ no_hit) :
    box.aabb_test r = true := by
  obtain ⟨hba, hca⟩ := constructed_edges hc
  obtain ⟨hsum, ⟨w0, -⟩, ⟨u0, -⟩, ⟨v0, -⟩, hpt⟩ := hit_geometry ov tri r hba hca hit
  obtain ⟨⟨a1, a2⟩, ⟨b1, b2⟩, ⟨c1, c2⟩⟩ := henc
  have px := convex_bounds _ _ _ tri.a.x tri.b.x tri.c.x box.aabb_min.x box.aabb_max.x
    w0 u0 v0 hsum ⟨a1.1, a2.1⟩ ⟨b1.1, b2.1⟩ ⟨c1.1, c2.1⟩
  have py := convex_bounds _ _ _ tri.a.y tri.b.y tri.c.y box.aabb_min.y box.aabb_max.y
    w0 u0 v0 hsum ⟨a1.2.1, a2.2.1⟩ ⟨b1.2.1, b2.2.1⟩ ⟨c1.2.1, c2.2.1⟩
  have pz := convex_bounds _ _ _ tri.a.z tri.b.z tri.c.z box.aabb_min.z box.aabb_max.z
    w0 u0 v0 hsum ⟨a1.2.2, a2.2.2⟩ ⟨b1.2.2, b2.2.2⟩ ⟨c1.2.2, c2.2.2⟩
  apply aabb_test_of_point box r (intersection_shader ov tri r).t hx hy hz
  · rw [hpt]
    exact ⟨px.1, py.1, pz.1⟩
  · rw [hpt]
    exact ⟨px.2, py.2, pz.2⟩

/-- The inner loop never raises the `t` of the closest payload. -/
theorem scan_triangles_le [FloorRing K] (ov : abs_overload)
    (any_hit_shader : Option (hit_shader K)) (r : ray K) (min_t : K)
    (l : List (triangle K)) (st st1 : closest K)
    (h : (scan_triangles ov any_hit_shader r min_t l st).1 = scan.next st1) :
    st1.closest_hit_payload.t ≤ st.closest_hit_payload.t := by
  induction l generalizing st with
  | nil =>
    simp only [scan_triangles, scan.next.injEq] at h
    rw [h]
  | cons t rest ih =>
    rw [scan_triangles_cons ov] at h
    split_ifs at h with hc
    · cases any_hit_shader with
      | some f => simp at h
      | none => exact (ih _ h).trans hc.2.le
    · exact ih _ h

/-- With boxes whose rejected triangles are all unhit, and a window that does not contain the
sentinel `t = -1`, the scan with `aabb_test` and the scan without it end the same. -/
theorem scan_boxes_without_aabb_test_eq [FloorRing K] (ov : abs_overload)
    (any_hit_shader : Option (hit_shader K)) (r : ray K)
    (max_t min_t : K) (bs : List (aabb K))
    (hb : ∀ box ∈ bs, ∀ tri ∈ box.get_traingles, intersection_shader ov tri r ≠ no_hit →
      box.aabb_test r = true)
    (hwin : ¬ (min_t < -1 ∧ -1 < max_t)) (st : closest K)
    (hst : st.closest_hit_payload.t ≤ max_t) :
    (scan_boxes ov any_hit_shader r min_t bs st).1 =
      (scan_boxes_without_aabb_test ov any_hit_shader r min_t bs st).1 := by
  induction bs generalizing st with
  | nil => rfl
  | cons b rest ih =>
    have hrest : ∀ box ∈ rest, ∀ tri ∈ box.get_traingles,
        intersection_shader ov tri r ≠ no_hit → box.aabb_test r = true :=
      fun box hbox => hb box (List.mem_cons_of_mem _ hbox)
    simp only [scan_boxes, scan_boxes_without_aabb_test]
    by_cases htest : b.aabb_test r = true
    · simp only [htest, not_true_eq_false, if_false]
      cases h1 : (scan_triangles ov any_hit_shader r min_t b.get_traingles st).1 with
      | returned result => rfl
      | next st1 =>
        exact ih hrest st1 ((scan_triangles_le ov any_hit_shader r min_t _ st st1 h1).trans hst)
    · have hinert : ∀ x ∈ b.get_traingles, ¬ ((intersection_shader ov x r).t > min_t ∧
          (intersection_shader ov x r).t < st.closest_hit_payload.t) := by
        intro x hx hcand
        have hno : intersection_shader ov x r = no_hit := by
          by_contra hne
          exact htest (hb b (List.mem_cons_self _ _) x hx hne)
        rw [hno] at hcand
        simp only [no_hit] at hcand
        exact hwin ⟨hcand.1, lt_of_lt_of_le hcand.2 hst⟩
      rw [scan_triangles_inert ov any_hit_shader r min_t _ st hinert]
      simp only [htest, not_false_eq_true, if_true]
      exact ih hrest st hst

/-- The box `sample_box` was filled through `add_triangle`. -/
theorem sample_box_filled : sample_box.filled :=
  ⟨[sample_triangle], fun t ht => by
    rw [List.mem_singleton.mp ht]
    exact ⟨_, _, _, rfl⟩, rfl⟩

/-- C3, refuted as stated for a window that contains the sentinel `t = -1`. The one box of
`sample_tracer` was filled through `add_triangle`, `missing_ray` has no zero direction
component and its line misses the box; with `min_t = -2`, whichever function `abs` is, the
variant without `aabb_test` hands the no-hit payload of `sample_triangle` to the closest-hit
shader, while `trace_ray` skips the box and returns the miss shader's payload. -/
theorem aabb_test_changes_result_below_sentinel :
    (∀ box ∈ sample_tracer.acceleration_structures, box.filled) ∧
    (missing_ray.direction.x ≠ 0 ∧ missing_ray.direction.y ≠ 0 ∧
      missing_ray.direction.z ≠ 0) ∧
    ∀ overload : abs_overload,
      trace_ray overload sample_tracer missing_ray 1 default_max_t (-2)
        = Except.ok (renderer_miss_shader missing_ray) ∧
      trace_ray_without_aabb_test overload sample_tracer missing_ray 1 default_max_t (-2)
        = Except.ok no_hit ∧
      trace_ray overload sample_tracer missing_ray 1 default_max_t (-2)
        ≠ trace_ray_without_aabb_test overload sample_tracer missing_ray 1 default_max_t (-2) := by
  have htest : sample_box.aabb_test missing_ray = false := by
    norm_num [sample_box, missing_ray, aabb.aabb_test, aabb.add_triangle, aabb.fresh,
      sample_triangle, triangle.triangle, vertex.at_position, float3.splat, float3.min,
      float3.max, float3.maxelem, float3.minelem]
  have htris : sample_box.get_traingles = [sample_triangle] := rfl
  refine ⟨?_, ?_, ?_⟩
  · intro box hbox
    simp only [sample_tracer, List.mem_singleton] at hbox
    rw [hbox]
    exact sample_box_filled
  · norm_num [missing_ray]
  · intro overload
    have hno : intersection_shader overload sample_triangle missing_ray = no_hit := by
      cases overload
      · norm_num [sample_triangle, missing_ray, intersection_shader, abs_overload.call, no_hit,
          triangle.triangle, vertex.at_position, cross, dot, abs_div]
      · exact intersection_shader_of_int_below_one _ _ (by
          norm_num [sample_triangle, missing_ray, triangle.triangle, vertex.at_position, cross,
            dot, abs_div])
    have h1 : trace_ray overload sample_tracer missing_ray 1 default_max_t (-2)
        = Except.ok (renderer_miss_shader missing_ray) := by
      simp [trace_ray, trace_ray_run, sample_tracer, scan_boxes, htest, return_miss_shader]
    have h2 : trace_ray_without_aabb_test overload sample_tracer missing_ray 1 default_max_t (-2)
        = Except.ok no_hit := by
      simp [trace_ray_without_aabb_test, sample_tracer, scan_boxes_without_aabb_test, htris,
        scan_triangles, hno, no_hit, default_max_t, echo_shader]
      norm_num
    refine ⟨h1, h2, ?_⟩
    rw [h1, h2]
    intro h
    have hc := congrArg (fun e => match e with
      | Except.ok p => p.color.r
      | Except.error _ => 0) h
    have hz : (0 : color ℚ).r = 0 := rfl
    norm_num [renderer_miss_shader, missing_ray, no_hit, hz] at hc

/-- C3, amended. Over exact arithmetic, for every acceleration set whose boxes were filled only
through `add_triangle` and every ray whose direction has no zero component: if
`intersection_shader` reports an intersection with a triangle of a box, `aabb_test` of that box
on that ray is true; and for every depth, every choice of shaders and every window that does
not contain the sentinel `t = -1` (every window with `min_t >= -1`, the default one included),
`trace_ray` returns the same as the variant that skips `aabb_test`. -/
theorem aabb_test_keeps_hits [FloorRing K] (ov : abs_overload) (rt : raytracer K) (r : ray K)
    (hfilled : ∀ box ∈ rt.acceleration_structures, box.filled)
    (hdir : r.direction.x ≠ 0 ∧ r.direction.y ≠ 0 ∧ r.direction.z ≠ 0) :
    (∀ box ∈ rt.acceleration_structures, ∀ tri ∈ box.get_traingles,
      intersection_shader ov tri r ≠ no_hit → box.aabb_test r = true) ∧
    (∀ (depth : Nat) (max_t min_t : K), ¬ (min_t < -1 ∧ -1 < max_t) →
      trace_ray ov rt r depth max_t min_t =
        trace_ray_without_aabb_test ov rt r depth max_t min_t) := by
  have hb : ∀ box ∈ rt.acceleration_structures, ∀ tri ∈ box.get_traingles,
      intersection_shader ov tri r ≠ no_hit → box.aabb_test r = true := by
    intro box hbox tri htri hit
    obtain ⟨hc, henc⟩ := filled_encloses (hfilled box hbox) tri htri
    exact aabb_test_of_hit ov box tri r hdir.1 hdir.2.1 hdir.2.2 hc henc hit
  refine ⟨hb, ?_⟩
  intro depth max_t min_t hwin
  have heq := scan_boxes_without_aabb_test_eq ov rt.any_hit_shader r max_t min_t
    rt.acceleration_structures hb hwin ⟨⟨max_t, 0, 0⟩, none⟩ le_rfl
  unfold trace_ray trace_ray_without_aabb_test
  by_cases hd : depth = 0
  · unfold trace_ray_run
    rw [if_pos hd, if_pos hd]
  · rw [if_neg hd]
    simp only []
    rw [← heq]
    cases h : (scan_boxes ov rt.any_hit_shader r min_t rt.acceleration_structures
      ⟨⟨max_t, 0, 0⟩, none⟩).1 with
    | returned result => rw [trace_ray_run_returned ov rt r depth max_t min_t _ hd h]
    | next st =>
      rw [trace_ray_run_next ov rt r depth max_t min_t _ hd h]
      obtain ⟨p, ct⟩ := st
      by_cases hlt : p.t < max_t <;> cases rt.closest_hit_shader <;> cases ct <;> simp [hlt]

/-- C3, amended, at a concrete input: `sample_tracer` and `sample_ray`, depth 1, default
window.
The call `abs(det)` is that of the `float` overload. -/
theorem aabb_test_keeps_hits_witness :
    (intersection_shader abs_overload.of_float sample_triangle sample_ray ≠ no_hit →
      sample_box.aabb_test sample_ray = true) ∧
    trace_ray abs_overload.of_float sample_tracer sample_ray 1 default_max_t default_min_t
      = trace_ray_without_aabb_test abs_overload.of_float sample_tracer sample_ray 1 default_max_t default_min_t :=
  have h := aabb_test_keeps_hits abs_overload.of_float sample_tracer sample_ray
    (by
      intro box hbox
      simp only [sample_tracer, List.mem_singleton] at hbox
      rw [hbox]
      exact sample_box_filled)
    (by norm_num [sample_ray])
  ⟨h.1 sample_box (by simp [sample_tracer]) sample_triangle (by simp [sample_box,
      aabb.get_traingles, aabb.add_triangle, aabb.fresh]),
    h.2 1 default_max_t default_min_t (by norm_num [default_min_t])⟩

@[simp] theorem float3.neg_x (a : float3 K) : (-a).x = -a.x := rfl
@[simp] theorem float3.neg_y (a : float3 K) : (-a).y = -a.y := rfl
@[simp] theorem float3.neg_z (a : float3 K) : (-a).z = -a.z := rfl
@[simp] theorem float3.divs_x (a : float3 K) (s : K) : (a / s).x = a.x / s := rfl
@[simp] theorem float3.divs_y (a : float3 K) (s : K) : (a / s).y = a.y / s := rfl
@[simp] theorem float3.divs_z (a : float3 K) (s : K) : (a / s).z = a.z / s := rfl

/-- The squared length of a non-zero vector is positive. -/
theorem length2_pos {a : float3 K} (h : a ≠ 0) : 0 < float3.length2 a := by
  have hne : a.x ≠ 0 ∨ a.y ≠ 0 ∨ a.z ≠ 0 := by
    by_contra hc
    push_neg at hc
    exact h (float3.ext hc.1 hc.2.1 hc.2.2)
  simp only [float3.length2, dot]
  rcases hne with hx | hy | hz
  · have := mul_self_pos.mpr hx
    nlinarith [mul_self_nonneg a.y, mul_self_nonneg a.z]
  · have := mul_self_pos.mpr hy
    nlinarith [mul_self_nonneg a.x, mul_self_nonneg a.z]
  · have := mul_self_pos.mpr hz
    nlinarith [mul_self_nonneg a.x, mul_self_nonneg a.y]

/-- With an exact square root, the length of a non-zero vector is positive and its square is the
squared length. -/
theorem length_pos {sqrt : K → K} (hs : exact_sqrt sqrt) {a : float3 K} (h : a ≠ 0) :
    0 < float3.length sqrt a ∧
    float3.length sqrt a * float3.length sqrt a = float3.length2 a := by
  obtain ⟨h0, h1⟩ := hs (float3.length2 a) (length2_pos h).le
  refine ⟨?_, h1⟩
  rcases h0.lt_or_eq with hlt | heq
  · exact hlt
  · exfalso
    have hp := length2_pos h
    unfold float3.length at *
    rw [← h1, ← heq] at hp
    simp at hp

/-- With an exact square root, normalising a non-zero vector gives a unit vector that is the
positive multiple `1 / length` of it. -/
theorem normalize_unit {sqrt : K → K} (hs : exact_sqrt sqrt) {a : float3 K} (h : a ≠ 0) :
    float3.length2 (float3.normalize sqrt a) = 1 ∧
    float3.length sqrt (float3.normalize sqrt a) = 1 ∧
    0 < 1 / float3.length sqrt a ∧
    float3.normalize sqrt a = (1 / float3.length sqrt a) * a := by
  obtain ⟨hpos, hsq⟩ := length_pos hs h
  have hl2 : float3.length2 (float3.normalize sqrt a) = 1 := by
    have hne := hpos.ne'
    simp only [float3.length2, dot, float3.normalize, float3.divs_x, float3.divs_y,
      float3.divs_z] at hsq ⊢
    field_simp
    linarith
  refine ⟨hl2, ?_, by positivity, ?_⟩
  · unfold float3.length
    rw [hl2]
    obtain ⟨h0, h1⟩ := hs 1 zero_le_one
    have : (sqrt 1 - 1) * (sqrt 1 + 1) = 0 := by ring_nf; rw [sq, h1]; ring
    rcases mul_eq_zero.mp this with h2 | h2
    · linarith
    · linarith
  · ext <;> simp [float3.normalize] <;> ring

/-- The real square root is exact. -/
theorem exact_sqrt_real : exact_sqrt Real.sqrt :=
  fun x hx => ⟨Real.sqrt_nonneg x, Real.mul_self_sqrt hx⟩

/-- C14. Over the reals, for every position and every non-zero direction vector `d`, the ray
constructed by `ray(position, d)` has a direction of length exactly 1 that is a positive
multiple of `d`, and its position is the given position. -/
theorem ray_normalized (position d : float3 ℝ) (hd : d ≠ 0) :
    float3.length Real.sqrt (ray.ray Real.sqrt position d).direction = 1 ∧
    dot (ray.ray Real.sqrt position d).direction (ray.ray Real.sqrt position d).direction = 1 ∧
    (∃ k : ℝ, 0 < k ∧ (ray.ray Real.sqrt position d).direction = k * d) ∧
    (ray.ray Real.sqrt position d).position = position := by
  obtain ⟨h1, h2, h3, h4⟩ := normalize_unit exact_sqrt_real hd
  exact ⟨h2, h1, ⟨_, h3, h4⟩, rfl⟩

/-- C14 at a concrete input: the direction `(0, 3, 4)` from the position `(1, 2, 3)`. -/
theorem ray_normalized_witness :
    float3.length Real.sqrt (ray.ray Real.sqrt (⟨1, 2, 3⟩ : float3 ℝ) ⟨0, 3, 4⟩).direction = 1 ∧
    (ray.ray Real.sqrt (⟨1, 2, 3⟩ : float3 ℝ) ⟨0, 3, 4⟩).position = ⟨1, 2, 3⟩ :=
  have h := ray_normalized (⟨1, 2, 3⟩ : float3 ℝ) ⟨0, 3, 4⟩ (by
    intro h0
    have := congrArg float3.y h0
    norm_num at this)
  ⟨h.1, h.2.2.2⟩

/-- With a miss shader installed, `trace_ray` returns a payload. -/
theorem trace_ray_returns [FloorRing K] (ov : abs_overload)
    (rt : raytracer K) (r : ray K) (depth : Nat) (max_t min_t : K)
    (m : ray K → payload K) (hm : rt.miss_shader = some m) :
    ∃ p, trace_ray ov rt r depth max_t min_t = Except.ok p := by
  have hmiss : return_miss_shader rt r = (Except.ok (m r), [event.miss_shader (m r)]) := by
    unfold return_miss_shader
    rw [hm]
  unfold trace_ray
  by_cases hd : depth = 0
  · refine ⟨m r, ?_⟩
    unfold trace_ray_run
    rw [if_pos hd, hmiss]
  · rcases scan_boxes_outcome ov rt.any_hit_shader r max_t min_t rt.acceleration_structures with
      ⟨f, tri, -, -, -, hres, -⟩ | ⟨-, ⟨-, hres⟩ | ⟨tri, -, -, hw, hres⟩⟩
    · rw [trace_ray_run_returned ov rt r depth max_t min_t _ hd hres]
      exact ⟨_, rfl⟩
    · rw [trace_ray_run_next ov rt r depth max_t min_t _ hd hres, if_neg (lt_irrefl _), hmiss]
      exact ⟨_, rfl⟩
    · rw [trace_ray_run_next ov rt r depth max_t min_t _ hd hres, if_pos hw.2]
      cases hc : rt.closest_hit_shader with
      | some f => exact ⟨_, rfl⟩
      | none =>
        rw [hmiss]
        exact ⟨_, rfl⟩

/-- The inner loop of `ray_generation` over the first `n` rows of the column `x`, when every
trace returns a payload: those pixels are written, the others kept. -/
theorem ray_generation_column {RT : Type} (from_color : color K → RT)
    (trace : Nat → Nat → Except fault (payload K)) (P : Nat → Nat → payload K)
    (x n : Nat) (hP : ∀ y, y < n → trace x y = Except.ok (P x y))
    (target : Nat → Nat → RT) :
    for_loop (fun y target =>
      match trace x y with
      | Except.ok payload => Except.ok (write_pixel target x y (from_color payload.color))
      | Except.error e => Except.error e) n target
    = Except.ok (fun i j => if i = x ∧ j < n then from_color (P i j).color else target i j) := by
  induction n with
  | zero => simp [for_loop]
  | succ n ih =>
    rw [for_loop, ih (fun y hy => hP y (Nat.lt_succ_of_lt hy))]
    simp only [hP n (Nat.lt_succ_self n)]
    congr 1
    funext i j
    unfold write_pixel
    by_cases hi : i = x
    · subst hi
      by_cases hj : j = n
      · subst hj
        simp
      · by_cases hlt : j < n
        · simp [hj, hlt, Nat.lt_succ_of_lt hlt]
        · have : ¬ j < n + 1 := by omega
          simp [hj, hlt, this]
    · simp [hi]

/-- The two loops of `ray_generation` over the first `w` columns, when every trace returns a
payload: the pixels of those columns are written, the others kept. -/
theorem ray_generation_columns {RT : Type} (from_color : color K → RT)
    (trace : Nat → Nat → Except fault (payload K)) (P : Nat → Nat → payload K)
    (w h : Nat) (hP : ∀ x y, x < w → y < h → trace x y = Except.ok (P x y))
    (target : Nat → Nat → RT) :
    for_loop (fun x target =>
      for_loop (fun y target =>
        match trace x y with
        | Except.ok payload => Except.ok (write_pixel target x y (from_color payload.color))
        | Except.error e => Except.error e) h target) w target
    = Except.ok (fun i j => if i < w ∧ j < h then from_color (P i j).color else target i j) := by
  induction w with
  | zero => simp [for_loop]
  | succ w ih =>
    rw [for_loop, ih (fun x y hx hy => hP x y (Nat.lt_succ_of_lt hx) hy)]
    simp only []
    rw [ray_generation_column from_color trace P w h (fun y hy => hP w y (Nat.lt_succ_self w) hy)]
    congr 1
    funext i j
    by_cases hi : i = w
    · subst hi
      simp
    · by_cases hlt : i < w
      · simp [hi, hlt, Nat.lt_succ_of_lt hlt]
      · have : ¬ i < w + 1 := by omega
        simp [hi, hlt, this]

/-- The render target after `ray_generation`, when every pixel's trace returns a payload: each
pixel of the viewport holds the converted colour of its payload, the rest is kept. -/
theorem ray_generation_pixels [FloorRing K] (ov : abs_overload)
    {RT : Type} (sqrt : K → K) (from_color : color K → RT)
    (rt : raytracer K) (target : Nat → Nat → RT) (position direction right up : float3 K)
    (P : Nat → Nat → payload K)
    (hP : ∀ x y, x < rt.width → y < rt.height →
      pixel_payload ov sqrt rt position direction right up x y = Except.ok (P x y)) :
    ray_generation ov sqrt from_color rt target position direction right up
      = Except.ok (fun i j =>
          if i < rt.width ∧ j < rt.height then from_color (P i j).color else target i j) :=
  ray_generation_columns from_color (pixel_payload ov sqrt rt position direction right up) P
    rt.width rt.height hP target

/-- The cast of `n - 1` for `n >= 1`. -/
theorem cast_pred_of_pos (n : Nat) (h : 1 ≤ n) : ((n - 1 : Nat) : K) = (n : K) - 1 := by
  rw [Nat.cast_sub h, Nat.cast_one]

/-- C18. Over exact arithmetic, for every width >= 2 and height >= 2, the pixel-to-NDC mapping
of `ray_generation` sends `x = 0` to `u = -width/height` and `x = width-1` to
`u = +width/height`, `y = 0` to `v = -1` and `y = height-1` to `v = +1`, is strictly increasing
in `x` and in `y`, and is antisymmetric; the ray of the pixel `(x, y)` starts at the camera
position and has direction `normalize(forward + u*right - v*up)`, and with a miss shader
installed `ray_generation` returns a render target whose pixel `(x, y)` of the viewport is the
converted colour of the payload of `trace_ray` on that ray with depth 1 and the default
window. -/
theorem ray_generation_ndc [FloorRing K] (ov : abs_overload)
    {RT : Type} (sqrt : K → K) (from_color : color K → RT)
    (rt : raytracer K) (target : Nat → Nat → RT) (position direction right up : float3 K)
    (hw : 2 ≤ rt.width) (hh : 2 ≤ rt.height) :
    ((ndc_u rt.width rt.height 0 : K) = -((rt.width : K) / (rt.height : K)) ∧
      (ndc_u rt.width rt.height (rt.width - 1) : K) = (rt.width : K) / (rt.height : K) ∧
      (ndc_v rt.height 0 : K) = -1 ∧
      (ndc_v rt.height (rt.height - 1) : K) = 1) ∧
    ((∀ x1 x2 : Nat, x1 < x2 →
        (ndc_u rt.width rt.height x1 : K) < ndc_u rt.width rt.height x2) ∧
      (∀ y1 y2 : Nat, y1 < y2 → (ndc_v rt.height y1 : K) < ndc_v rt.height y2)) ∧
    ((∀ x : Nat, x < rt.width →
        (ndc_u rt.width rt.height (rt.width - 1 - x) : K) = -ndc_u rt.width rt.height x) ∧
      (∀ y : Nat, y < rt.height →
        (ndc_v rt.height (rt.height - 1 - y) : K) = -ndc_v rt.height y)) ∧
    (∀ x y : Nat,
      (pixel_ray sqrt rt position direction right up x y).position = position ∧
      (pixel_ray sqrt rt position direction right up x y).direction
        = float3.normalize sqrt (direction + (ndc_u rt.width rt.height x : K) * right
            - (ndc_v rt.height y : K) * up)) ∧
    (∀ m, rt.miss_shader = some m →
      ∃ target1, ray_generation ov sqrt from_color rt target position direction right up
          = Except.ok target1 ∧
        ∀ x y : Nat, x < rt.width → y < rt.height →
          ∃ p, trace_ray ov rt (pixel_ray sqrt rt position direction right up x y) 1
              default_max_t default_min_t = Except.ok p ∧
            target1 x y = from_color p.color) := by
  have hw1 : ((rt.width - 1 : Nat) : K) = (rt.width : K) - 1 :=
    cast_pred_of_pos rt.width (by omega)
  have hh1 : ((rt.height - 1 : Nat) : K) = (rt.height : K) - 1 :=
    cast_pred_of_pos rt.height (by omega)
  have hwK : (2 : K) ≤ (rt.width : K) := by exact_mod_cast hw
  have hhK : (2 : K) ≤ (rt.height : K) := by exact_mod_cast hh
  have hwpos : (0 : K) < (rt.width : K) - 1 := by linarith
  have hhpos : (0 : K) < (rt.height : K) - 1 := by linarith
  have hratio : (0 : K) < (rt.width : K) / (rt.height : K) :=
    div_pos (by linarith) (by linarith)
  refine ⟨⟨?_, ?_, ?_, ?_⟩, ⟨?_, ?_⟩, ⟨?_, ?_⟩, ?_, ?_⟩
  · simp [ndc_u]
  · simp only [ndc_u, hw1]
    rw [mul_div_assoc, div_self hwpos.ne']
    ring
  · simp [ndc_v]
  · simp only [ndc_v, hh1]
    rw [mul_div_assoc, div_self hhpos.ne']
    ring
  · intro x1 x2 hlt
    have hx : (x1 : K) < (x2 : K) := by exact_mod_cast hlt
    simp only [ndc_u, hw1]
    apply mul_lt_mul_of_pos_right _ hratio
    have : 2 * (x1 : K) / ((rt.width : K) - 1) < 2 * (x2 : K) / ((rt.width : K) - 1) :=
      div_lt_div_of_pos_right (by linarith) hwpos
    linarith
  · intro y1 y2 hlt
    have hy : (y1 : K) < (y2 : K) := by exact_mod_cast hlt
    simp only [ndc_v, hh1]
    have : 2 * (y1 : K) / ((rt.height : K) - 1) < 2 * (y2 : K) / ((rt.height : K) - 1) :=
      div_lt_div_of_pos_right (by linarith) hhpos
    linarith
  · intro x hx
    have hc : ((rt.width - 1 - x : Nat) : K) = (rt.width : K) - 1 - (x : K) := by
      rw [Nat.cast_sub (by omega), hw1]
    simp only [ndc_u, hw1, hc]
    field_simp
    ring
  · intro y hy
    have hc : ((rt.height - 1 - y : Nat) : K) = (rt.height : K) - 1 - (y : K) := by
      rw [Nat.cast_sub (by omega), hh1]
    simp only [ndc_v, hh1, hc]
    field_simp
    ring
  · intro x y
    exact ⟨rfl, rfl⟩
  · intro m hm
    have hex : ∀ x y, ∃ p, pixel_payload ov sqrt rt position direction right up x y
        = Except.ok p :=
      fun x y => trace_ray_returns ov rt _ 1 default_max_t default_min_t m hm
    refine ⟨_, ray_generation_pixels ov sqrt from_color rt target position direction right up
      (fun x y => Classical.choose (hex x y))
      (fun x y _ _ => Classical.choose_spec (hex x y)), ?_⟩
    intro x y hx hy
    refine ⟨Classical.choose (hex x y), Classical.choose_spec (hex x y), ?_⟩
    simp [hx, hy]

/-- C18 at a concrete input: `sample_tracer`, whose viewport is 1920 by 1080.
The call `abs(det)` is that of the `float` overload. -/
theorem ray_generation_ndc_witness :
    (ndc_u sample_tracer.width sample_tracer.height 0 : ℚ)
      = -((sample_tracer.width : ℚ) / (sample_tracer.height : ℚ)) ∧
    (ndc_v sample_tracer.height (sample_tracer.height - 1) : ℚ) = 1 :=
  have h := ray_generation_ndc abs_overload.of_float (fun x : ℚ => x) (fun c : color ℚ => c) sample_tracer
    (fun _ _ => 0) ⟨0, 0, -5⟩ ⟨0, 0, 1⟩ ⟨1, 0, 0⟩ ⟨0, 1, 0⟩ (by decide) (by decide)
  ⟨h.1.1, h.1.2.2.2⟩

/-- When no triangle in scan order has a payload inside the window, `trace_ray` with
`depth >= 1` returns what the call of the miss shader gives. -/
theorem trace_ray_no_candidate [FloorRing K] (ov : abs_overload)
    (rt : raytracer K) (r : ray K) (depth : Nat) (max_t min_t : K)
    (hd : depth ≠ 0)
    (hnone : ∀ x ∈ scan_order r rt.acceleration_structures, ¬ in_window ov r min_t max_t x) :
    trace_ray ov rt r depth max_t min_t = (return_miss_shader rt r).1 := by
  have hscan : (scan_boxes ov rt.any_hit_shader r min_t rt.acceleration_structures
      ⟨⟨max_t, 0, 0⟩, none⟩).1 = scan.next ⟨⟨max_t, 0, 0⟩, none⟩ := by
    rcases scan_boxes_outcome ov rt.any_hit_shader r max_t min_t rt.acceleration_structures with
      ⟨f, tri, -, hmem, hw, -, -⟩ | ⟨-, ⟨-, h⟩ | ⟨tri, -, hmem, hw, -⟩⟩
    · exact absurd hw (hnone tri hmem)
    · exact h
    · exact absurd hw (hnone tri hmem)
  unfold trace_ray
  rw [trace_ray_run_next ov rt r depth max_t min_t _ hd hscan, if_neg (lt_irrefl _)]

/-- A ray from `(0, 0, -5)` whose direction is the normalised `(a, b, 1)` with `a = 1` or
`a = -1` misses every constructed triangle of the plane `z = 0` whose vertices have `x` between
`-1/2` and `1/2`: it crosses the plane at `x = 5a`. -/
theorem diagonal_ray_misses [FloorRing K] (ov : abs_overload)
    {sqrt : K → K} (hs : exact_sqrt sqrt) (a b : K)
    (ha : a = 1 ∨ a = -1) (tri : triangle K) (hc : tri.constructed)
    (hz : tri.a.z = 0 ∧ tri.b.z = 0 ∧ tri.c.z = 0)
    (hx : (-1 / 2 ≤ tri.a.x ∧ tri.a.x ≤ 1 / 2) ∧ (-1 / 2 ≤ tri.b.x ∧ tri.b.x ≤ 1 / 2) ∧
      (-1 / 2 ≤ tri.c.x ∧ tri.c.x ≤ 1 / 2)) :
    intersection_shader ov tri (ray.ray sqrt ⟨0, 0, -5⟩ ⟨a, b, 1⟩) = no_hit := by
  by_contra hit
  obtain ⟨hba, hca⟩ := constructed_edges hc
  obtain ⟨hsum, ⟨w0, -⟩, ⟨u0, -⟩, ⟨v0, -⟩, hpt⟩ := hit_geometry ov tri _ hba hca hit
  have hne : (⟨a, b, 1⟩ : float3 K) ≠ 0 := by
    intro h0
    have := congrArg float3.z h0
    simp at this
  obtain ⟨hpos, -⟩ := length_pos hs hne
  have hptx := congrArg float3.x hpt
  have hptz := congrArg float3.z hpt
  have e1 : (ray.ray sqrt ⟨0, 0, -5⟩ ⟨a, b, 1⟩ : ray K).position.x = 0 := rfl
  have e2 : (ray.ray sqrt ⟨0, 0, -5⟩ ⟨a, b, 1⟩ : ray K).direction.x
      = a / float3.length sqrt ⟨a, b, 1⟩ := rfl
  have e3 : (ray.ray sqrt ⟨0, 0, -5⟩ ⟨a, b, 1⟩ : ray K).position.z = -5 := rfl
  have e4 : (ray.ray sqrt ⟨0, 0, -5⟩ ⟨a, b, 1⟩ : ray K).direction.z
      = 1 / float3.length sqrt ⟨a, b, 1⟩ := rfl
  simp only [float3.add_x, float3.add_z, float3.smul_x, float3.smul_z, e1, e2, e3, e4,
    hz.1, hz.2.1, hz.2.2, mul_zero, add_zero, zero_add] at hptx hptz
  have hbound := convex_bounds _ _ _ tri.a.x tri.b.x tri.c.x (-1 / 2) (1 / 2) w0 u0 v0 hsum
    hx.1 hx.2.1 hx.2.2
  rw [← hptx] at hbound
  have ht : (intersection_shader ov tri (ray.ray sqrt ⟨0, 0, -5⟩ ⟨a, b, 1⟩)).t
      * (1 / float3.length sqrt ⟨a, b, 1⟩) = 5 := by linarith
  have hta : (intersection_shader ov tri (ray.ray sqrt ⟨0, 0, -5⟩ ⟨a, b, 1⟩)).t
      * (a / float3.length sqrt ⟨a, b, 1⟩) = 5 * a := by
    have hr : (intersection_shader ov tri (ray.ray sqrt ⟨0, 0, -5⟩ ⟨a, b, 1⟩)).t
        * (a / float3.length sqrt ⟨a, b, 1⟩)
      = (intersection_shader ov tri (ray.ray sqrt ⟨0, 0, -5⟩ ⟨a, b, 1⟩)).t
        * (1 / float3.length sqrt ⟨a, b, 1⟩) * a := by ring
    rw [hr, ht]
  rw [hta] at hbound
  rcases ha with ha | ha <;> rw [ha] at hbound <;> linarith [hbound.1, hbound.2]

/-- The ray of a pixel of the 2 by 2 viewport of the end-to-end scenario: from `(0, 0, -5)`
along the normalised `(u, -v, 1)`, where `u` is `-1` or `1`. -/
theorem square_pixel_ray (sqrt : K → K) (e : float3 K) (x y : Nat) (hx : x < 2) :
    ∃ a b : K, (a = 1 ∨ a = -1) ∧
      pixel_ray sqrt (square_tracer sqrt e) camera_position camera_forward camera_right
        camera_up x y = ray.ray sqrt ⟨0, 0, -5⟩ ⟨a, b, 1⟩ := by
  refine ⟨ndc_u 2 2 x, -ndc_v 2 y, ?_, ?_⟩
  · have hcases : x = 0 ∨ x = 1 := by omega
    rcases hcases with h | h <;> subst h
    · right
      norm_num [ndc_u]
    · left
      norm_num [ndc_u]
  · unfold pixel_ray
    simp only [square_tracer, camera_position, camera_forward, camera_right, camera_up]
    congr 1
    ext <;> simp

/-- The triangles of the end-to-end scene are constructed, lie in the plane `z = 0` and have
their vertices between `-1/2` and `1/2` in `x`. -/
theorem unit_square_extent (e : float3 K) (tri : triangle K) (h : tri ∈ unit_square e) :
    tri.constructed ∧ (tri.a.z = 0 ∧ tri.b.z = 0 ∧ tri.c.z = 0) ∧
    ((-1 / 2 ≤ tri.a.x ∧ tri.a.x ≤ 1 / 2) ∧ (-1 / 2 ≤ tri.b.x ∧ tri.b.x ≤ 1 / 2) ∧
      (-1 / 2 ≤ tri.c.x ∧ tri.c.x ≤ 1 / 2)) := by
  simp only [unit_square, List.mem_cons, List.mem_singleton, List.not_mem_nil, or_false] at h
  rcases h with h | h <;> subst h
  · refine ⟨⟨_, _, _, rfl⟩, ⟨rfl, rfl, rfl⟩, ?_⟩
    norm_num [triangle.triangle, square_vertex]
  · refine ⟨⟨_, _, _, rfl⟩, ⟨rfl, rfl, rfl⟩, ?_⟩
    norm_num [triangle.triangle, square_vertex]

/-- In the end-to-end scenario, with an exact square root, the ray of each of the four pixels
misses both triangles of the square, and its trace is the miss shader's payload. -/
theorem square_pixel_misses [FloorRing K] (ov : abs_overload)
    {sqrt : K → K} (hs : exact_sqrt sqrt) (e : float3 K) (x y : Nat)
    (hx : x < 2) :
    (∀ tri ∈ unit_square e,
      intersection_shader ov tri (pixel_ray sqrt (square_tracer sqrt e) camera_position
        camera_forward camera_right camera_up x y) = no_hit) ∧
    pixel_payload ov sqrt (square_tracer sqrt e) camera_position camera_forward camera_right
        camera_up x y
      = Except.ok (renderer_miss_shader (pixel_ray sqrt (square_tracer sqrt e) camera_position
          camera_forward camera_right camera_up x y)) := by
  obtain ⟨a, b, ha, hray⟩ := square_pixel_ray sqrt e x y hx
  have hno : ∀ tri ∈ unit_square e,
      intersection_shader ov tri (pixel_ray sqrt (square_tracer sqrt e) camera_position
        camera_forward camera_right camera_up x y) = no_hit := by
    intro tri htri
    obtain ⟨hc, hz, hxs⟩ := unit_square_extent e tri htri
    rw [hray]
    exact diagonal_ray_misses ov hs a b ha tri hc hz hxs
  refine ⟨hno, ?_⟩
  unfold pixel_payload
  rw [trace_ray_no_candidate ov _ _ 1 default_max_t default_min_t (by decide)]
  · rfl
  · intro tri htri hw
    obtain ⟨box, hbox, -, hmem⟩ := (mem_scan_order _ _ tri).mp htri
    simp only [square_tracer, List.mem_singleton] at hbox
    subst hbox
    have hts := (foldl_add_triangle (unit_square e) (aabb.fresh : aabb K)
      (by simp [aabb.fresh])).1
    have hmem1 : tri ∈ ((unit_square e).foldl aabb.add_triangle
      (aabb.fresh : aabb K)).triangles := hmem
    rw [hts] at hmem1
    have hmem2 : tri ∈ unit_square e := by simpa [aabb.fresh] using hmem1
    have h1 := hw.1
    rw [hno tri hmem2] at h1
    norm_num [no_hit, default_min_t] at h1

/-- The render target after `ray_generation` in the end-to-end scenario, with an exact square
root: each of the four pixels holds the converted colour of the miss shader for its ray. -/
theorem square_render [FloorRing K] (ov : abs_overload)
    {RT : Type} {sqrt : K → K} (hs : exact_sqrt sqrt)
    (from_color : color K → RT) (e : float3 K) (target : Nat → Nat → RT) :
    ray_generation ov sqrt from_color (square_tracer sqrt e) target camera_position camera_forward
        camera_right camera_up
      = Except.ok (fun i j =>
          if i < 2 ∧ j < 2 then
            from_color (renderer_miss_shader (pixel_ray sqrt (square_tracer sqrt e)
              camera_position camera_forward camera_right camera_up i j)).color
          else target i j) :=
  ray_generation_pixels ov sqrt from_color (square_tracer sqrt e) target camera_position
    camera_forward camera_right camera_up
    (fun i j => renderer_miss_shader (pixel_ray sqrt (square_tracer sqrt e) camera_position
      camera_forward camera_right camera_up i j))
    (fun x y hx _ => (square_pixel_misses ov hs e x y hx).2)

/-- The closest-hit shader of the renderer without lights returns the payload it is given with
the emissive colour of the triangle. -/
theorem closest_hit_emissive (sqrt : K → K) (r : ray K) (p : payload K) (tri : triangle K) :
    renderer_closest_hit_shader sqrt [] r p tri
      = { p with color := color.from_float3 tri.emissive } := rfl

/-- The blue channel of the miss shader's colour is positive for a ray built by the constructor
from a direction `(a, b, 1)`, with an exact square root. -/
theorem miss_blue_pos {sqrt : K → K} (hs : exact_sqrt sqrt) (o : float3 K) (a b : K) :
    0 < (renderer_miss_shader (ray.ray sqrt o ⟨a, b, 1⟩)).color.b := by
  have hne : (⟨a, b, 1⟩ : float3 K) ≠ 0 := by
    intro h0
    have := congrArg float3.z h0
    simp at this
  obtain ⟨hpos, -⟩ := length_pos hs hne
  have hb : (renderer_miss_shader (ray.ray sqrt o ⟨a, b, 1⟩)).color.b
      = 1 / float3.length sqrt ⟨a, b, 1⟩ / (1 / 2) + 1 / 2 := rfl
  rw [hb]
  positivity

/-- C13, refuted as stated. Over the reals, in the scenario (unit square with emissive colour
`(1, 0, 0)`, no lights, camera at `(0, 0, -5)`, viewport 2 by 2, the pixel conversion the
identity), the closest-hit shader would give the colour `(1, 0, 0)`, but the rays of the four
pixels miss both triangles of the square and `ray_generation` writes to each of the four pixels
the miss shader's colour, whose blue channel is positive. -/
theorem square_scene_all_miss :
    (∀ tri ∈ unit_square (⟨1, 0, 0⟩ : float3 ℝ), ∀ (r : ray ℝ) (p : payload ℝ),
      (renderer_closest_hit_shader Real.sqrt [] r p tri).color
        = color.from_float3 ⟨1, 0, 0⟩) ∧
    ∀ overload : abs_overload, ∃ target1 : Nat → Nat → color ℝ,
      ray_generation overload Real.sqrt (fun c => c) (square_tracer Real.sqrt ⟨1, 0, 0⟩)
          (fun _ _ => 0) camera_position camera_forward camera_right camera_up
        = Except.ok target1 ∧
      ∀ x y : Nat, x < 2 → y < 2 →
        (∀ tri ∈ unit_square (⟨1, 0, 0⟩ : float3 ℝ),
          intersection_shader overload tri (pixel_ray Real.sqrt
            (square_tracer Real.sqrt ⟨1, 0, 0⟩) camera_position camera_forward camera_right
            camera_up x y) = no_hit) ∧
        target1 x y = (renderer_miss_shader (pixel_ray Real.sqrt
          (square_tracer Real.sqrt ⟨1, 0, 0⟩) camera_position camera_forward camera_right
          camera_up x y)).color ∧
        target1 x y ≠ color.from_float3 ⟨1, 0, 0⟩ := by
  refine ⟨?_, fun overload => ⟨_, square_render overload exact_sqrt_real (fun c => c) ⟨1, 0, 0⟩
    (fun _ _ => 0), ?_⟩⟩
  · intro tri htri r p
    rw [closest_hit_emissive]
    simp only [unit_square, List.mem_cons, List.mem_singleton, List.not_mem_nil,
      or_false] at htri
    rcases htri with h | h <;> subst h <;> rfl
  · intro x y hx hy
    have hval : (if x < 2 ∧ y < 2 then
        (renderer_miss_shader (pixel_ray Real.sqrt (square_tracer Real.sqrt ⟨1, 0, 0⟩)
          camera_position camera_forward camera_right camera_up x y)).color
        else (0 : color ℝ))
        = (renderer_miss_shader (pixel_ray Real.sqrt (square_tracer Real.sqrt ⟨1, 0, 0⟩)
          camera_position camera_forward camera_right camera_up x y)).color := by
      rw [if_pos ⟨hx, hy⟩]
    refine ⟨(square_pixel_misses overload exact_sqrt_real ⟨1, 0, 0⟩ x y hx).1, hval, ?_⟩
    intro heq
    have hb := congrArg color.b (hval.symm.trans heq)
    obtain ⟨a, b, -, hray⟩ := square_pixel_ray Real.sqrt (⟨1, 0, 0⟩ : float3 ℝ) x y hx
    rw [hray] at hb
    have hpos := miss_blue_pos exact_sqrt_real (⟨0, 0, -5⟩ : float3 ℝ) a b
    rw [hb] at hpos
    simp [color.from_float3] at hpos

/-- C13, amended. End-to-end scenario, over exact arithmetic with an exact square root: with a
scene of one unit square (two triangles) centred at the origin in the plane `z = 0`, of any
emissive colour `e`, no lights, the renderer's miss and closest-hit shaders, camera position
`(0,0,-5)`, forward `(0,0,1)`, right `(1,0,0)`, up `(0,1,0)` and width = height = 2, the ray of
each of the 4 pixels misses both triangles, and `ray_generation` writes to each of the 4 pixels
the miss shader's gradient colour for the ray of that pixel and leaves the rest of the render
target as it was. -/
theorem square_scene_rendering [FloorRing K] (ov : abs_overload)
    {RT : Type} (sqrt : K → K) (hs : exact_sqrt sqrt)
    (from_color : color K → RT) (e : float3 K) (target : Nat → Nat → RT) :
    (∀ x y : Nat, x < 2 → y < 2 → ∀ tri ∈ unit_square e,
      intersection_shader ov tri (pixel_ray sqrt (square_tracer sqrt e) camera_position
        camera_forward camera_right camera_up x y) = no_hit) ∧
    ray_generation ov sqrt from_color (square_tracer sqrt e) target camera_position camera_forward
        camera_right camera_up
      = Except.ok (fun i j =>
          if i < 2 ∧ j < 2 then
            from_color (renderer_miss_shader (pixel_ray sqrt (square_tracer sqrt e)
              camera_position camera_forward camera_right camera_up i j)).color
          else target i j) :=
  ⟨fun x y hx _ => (square_pixel_misses ov hs e x y hx).1, square_render ov hs from_color e target⟩

/-- C13, amended, at a concrete input: the reals with their square root, the emissive colour
`(1, 0, 0)`, the identity as pixel conversion.
The call `abs(det)` is that of the `float` overload. -/
theorem square_scene_rendering_witness :
    ray_generation abs_overload.of_float Real.sqrt (fun c : color ℝ => c) (square_tracer Real.sqrt ⟨1, 0, 0⟩)
        (fun _ _ => 0) camera_position camera_forward camera_right camera_up
      = Except.ok (fun i j =>
          if i < 2 ∧ j < 2 then
            (renderer_miss_shader (pixel_ray Real.sqrt (square_tracer Real.sqrt ⟨1, 0, 0⟩)
              camera_position camera_forward camera_right camera_up i j)).color
          else 0) :=
  (square_scene_rendering abs_overload.of_float Real.sqrt exact_sqrt_real (fun c : color ℝ => c) ⟨1, 0, 0⟩
    (fun _ _ => 0)).2

/-- One slab of `aabb_test`, conversely: between two planes `lo <= hi`, a parameter between the
two plane parameters gives a point between the planes. -/
theorem slab_point (o d lo hi t : K) (hd : d ≠ 0) (hle : lo ≤ hi)
    (h1 : Min.min ((hi - o) * (1 / d)) ((lo - o) * (1 / d)) ≤ t)
    (h2 : t ≤ Max.max ((hi - o) * (1 / d)) ((lo - o) * (1 / d))) :
    lo ≤ o + t * d ∧ o + t * d ≤ hi := by
  rcases lt_or_gt_of_ne hd with hneg | hpos
  · have hord : (hi - o) * (1 / d) ≤ (lo - o) * (1 / d) := by
      rw [mul_one_div, mul_one_div, div_le_div_right_of_neg hneg]
      linarith
    rw [min_eq_left hord] at h1
    rw [max_eq_right hord] at h2
    rw [mul_one_div, div_le_iff_of_neg hneg] at h1
    rw [mul_one_div, le_div_iff_of_neg hneg] at h2
    constructor <;> linarith
  · have hord : (lo - o) * (1 / d) ≤ (hi - o) * (1 / d) := by
      rw [mul_one_div, mul_one_div, div_le_div_iff_of_pos_right hpos]
      linarith
    rw [min_eq_right hord] at h1
    rw [max_eq_left hord] at h2
    rw [mul_one_div, div_le_iff₀ hpos] at h1
    rw [mul_one_div, le_div_iff₀ hpos] at h2
    constructor <;> linarith

/-- The value of `aabb_test`, unfolded to the comparison it returns. -/
theorem aabb_test_eq (box : aabb K) (r : ray K) :
    (box.aabb_test r = true) ↔
      Max.max (Max.max
          (Min.min ((box.aabb_max.x - r.position.x) * (1 / r.direction.x))
            ((box.aabb_min.x - r.position.x) * (1 / r.direction.x)))
          (Min.min ((box.aabb_max.y - r.position.y) * (1 / r.direction.y))
            ((box.aabb_min.y - r.position.y) * (1 / r.direction.y))))
          (Min.min ((box.aabb_max.z - r.position.z) * (1 / r.direction.z))
            ((box.aabb_min.z - r.position.z) * (1 / r.direction.z)))
        ≤ Min.min (Min.min
          (Max.max ((box.aabb_max.x - r.position.x) * (1 / r.direction.x))
            ((box.aabb_min.x - r.position.x) * (1 / r.direction.x)))
          (Max.max ((box.aabb_max.y - r.position.y) * (1 / r.direction.y))
            ((box.aabb_min.y - r.position.y) * (1 / r.direction.y))))
          (Max.max ((box.aabb_max.z - r.position.z) * (1 / r.direction.z))
            ((box.aabb_min.z - r.position.z) * (1 / r.direction.z))) := by
  unfold aabb.aabb_test
  simp only [decide_eq_true_eq, float3.maxelem, float3.minelem, float3.min, float3.max,
    float3.splat, float3.mul_x, float3.mul_y, float3.mul_z, float3.sub_x, float3.sub_y,
    float3.sub_z, float3.div_x, float3.div_y, float3.div_z]

/-- The slab test of a box with `aabb_min <= aabb_max`, for a ray without zero direction
component, is true exactly when some point of the line lies in the box. -/
theorem aabb_test_iff_line (box : aabb K) (r : ray K)
    (hbox : float3.le box.aabb_min box.aabb_max)
    (hx : r.direction.x ≠ 0) (hy : r.direction.y ≠ 0) (hz : r.direction.z ≠ 0) :
    box.aabb_test r = true ↔
      ∃ t : K, float3.le box.aabb_min (r.position + t * r.direction) ∧
        float3.le (r.position + t * r.direction) box.aabb_max := by
  constructor
  · intro h
    rw [aabb_test_eq] at h
    obtain ⟨t, ht⟩ : ∃ t : K, Max.max (Max.max
          (Min.min ((box.aabb_max.x - r.position.x) * (1 / r.direction.x))
            ((box.aabb_min.x - r.position.x) * (1 / r.direction.x)))
          (Min.min ((box.aabb_max.y - r.position.y) * (1 / r.direction.y))
            ((box.aabb_min.y - r.position.y) * (1 / r.direction.y))))
          (Min.min ((box.aabb_max.z - r.position.z) * (1 / r.direction.z))
            ((box.aabb_min.z - r.position.z) * (1 / r.direction.z))) = t := ⟨_, rfl⟩
    have hlo := ht.le
    rw [ht] at h
    refine ⟨t, ?_⟩
    have px := slab_point r.position.x r.direction.x box.aabb_min.x box.aabb_max.x t hx hbox.1
      ((le_max_left _ _).trans ((le_max_left _ _).trans hlo))
      (h.trans ((min_le_left _ _).trans (min_le_left _ _)))
    have py := slab_point r.position.y r.direction.y box.aabb_min.y box.aabb_max.y t hy
      hbox.2.1 ((le_max_right _ _).trans ((le_max_left _ _).trans hlo))
      (h.trans ((min_le_left _ _).trans (min_le_right _ _)))
    have pz := slab_point r.position.z r.direction.z box.aabb_min.z box.aabb_max.z t hz
      hbox.2.2 ((le_max_right _ _).trans hlo) (h.trans (min_le_right _ _))
    exact ⟨⟨px.1, py.1, pz.1⟩, ⟨px.2, py.2, pz.2⟩⟩
  · rintro ⟨t, hlo, hhi⟩
    exact aabb_test_of_point box r t hx hy hz hlo hhi

/-- C15. Over exact arithmetic, for every box with `aabb_min <= aabb_max` componentwise and
every ray whose direction has no zero component, `aabb_test` returns true if and only if the
infinite line `origin + t*direction`, `t` any number, negative included, meets the closed box;
in particular the result is unchanged when the ray direction is negated. -/
theorem aabb_test_line (box : aabb K) (r : ray K)
    (hbox : float3.le box.aabb_min box.aabb_max)
    (hdir : r.direction.x ≠ 0 ∧ r.direction.y ≠ 0 ∧ r.direction.z ≠ 0) :
    (box.aabb_test r = true ↔
      ∃ t : K, float3.le box.aabb_min (r.position + t * r.direction) ∧
        float3.le (r.position + t * r.direction) box.aabb_max) ∧
    box.aabb_test ⟨r.position, -r.direction⟩ = box.aabb_test r := by
  have h1 := aabb_test_iff_line box r hbox hdir.1 hdir.2.1 hdir.2.2
  have h2 := aabb_test_iff_line box ⟨r.position, -r.direction⟩ hbox
    (neg_ne_zero.mpr hdir.1) (neg_ne_zero.mpr hdir.2.1) (neg_ne_zero.mpr hdir.2.2)
  refine ⟨h1, ?_⟩
  rw [Bool.eq_iff_iff, h1, h2]
  have hneg : ∀ t : K, r.position + (-t) * -r.direction = r.position + t * r.direction := by
    intro t
    ext <;> simp
  constructor
  · rintro ⟨t, hlo, hhi⟩
    refine ⟨-t, ?_, ?_⟩
    · rw [← hneg (-t), neg_neg]
      exact hlo
    · rw [← hneg (-t), neg_neg]
      exact hhi
  · rintro ⟨t, hlo, hhi⟩
    refine ⟨-t, ?_, ?_⟩
    · show float3.le box.aabb_min (r.position + (-t) * -r.direction)
      rw [hneg]
      exact hlo
    · show float3.le (r.position + (-t) * -r.direction) box.aabb_max
      rw [hneg]
      exact hhi

/-- C15 at a concrete input: `sample_box` and `sample_ray`. -/
theorem aabb_test_line_witness :
    (sample_box.aabb_test sample_ray = true ↔
      ∃ t : ℚ, float3.le sample_box.aabb_min (sample_ray.position + t * sample_ray.direction) ∧
        float3.le (sample_ray.position + t * sample_ray.direction) sample_box.aabb_max) ∧
    sample_box.aabb_test ⟨sample_ray.position, -sample_ray.direction⟩
      = sample_box.aabb_test sample_ray :=
  aabb_test_line sample_box sample_ray
    (by norm_num [float3.le, sample_box, aabb.add_triangle, aabb.fresh, sample_triangle,
      triangle.triangle, vertex.at_position, float3.min, float3.max])
    (by norm_num [sample_ray])

/-- The quantities of `intersection_shader` for the reversed winding: with the two edges
swapped the determinant changes sign, `u` and `v` trade places and `t` is the same. -/
theorem reversed_quantities (e1 e2 tv d : float3 K) :
    dot e2 (cross d e1) = -dot e1 (cross d e2) ∧
    dot tv (cross d e1) * (1 / dot e2 (cross d e1))
      = dot d (cross tv e1) * (1 / dot e1 (cross d e2)) ∧
    dot d (cross tv e2) * (1 / dot e2 (cross d e1))
      = dot tv (cross d e2) * (1 / dot e1 (cross d e2)) ∧
    dot e1 (cross tv e2) * (1 / dot e2 (cross d e1))
      = dot e2 (cross tv e1) * (1 / dot e1 (cross d e2)) := by
  have hdet : dot e2 (cross d e1) = -dot e1 (cross d e2) := by
    simp only [dot, cross]
    ring
  refine ⟨hdet, ?_, ?_, ?_⟩
  · rw [hdet, one_div, one_div, inv_neg]
    simp only [dot, cross]
    ring
  · rw [hdet, one_div, one_div, inv_neg]
    simp only [dot, cross]
    ring
  · rw [hdet, one_div, one_div, inv_neg]
    simp only [dot, cross]
    ring

/-- A payload of the accepting path is not the no-hit payload: its weights sum to one. -/
theorem accepted_ne_no_hit (t u v : K) :
    ({ t := t, bary := ⟨1 - u - v, u, v⟩, color := 0 } : payload K) ≠ no_hit := by
  intro h
  have hb := congrArg payload.bary h
  have hx := congrArg float3.x hb
  have hy := congrArg float3.y hb
  have hz := congrArg float3.z hb
  simp only [no_hit, float3.zero_x, float3.zero_y, float3.zero_z] at hx hy hz
  rw [hy, hz] at hx
  norm_num at hx

/-- An intersection reported for `(a, b, c)` is reported for the reversed winding `(a, c, b)`,
with the same `t` and the last two weights swapped. -/
theorem reversed_hit [FloorRing K] (ov : abs_overload)
    (vertex_a vertex_b vertex_c : vertex K) (r : ray K)
    (h : intersection_shader ov (triangle.triangle vertex_a vertex_b vertex_c) r ≠ no_hit) :
    intersection_shader ov (triangle.triangle vertex_a vertex_c vertex_b) r ≠ no_hit ∧
    (intersection_shader ov (triangle.triangle vertex_a vertex_c vertex_b) r).t
      = (intersection_shader ov (triangle.triangle vertex_a vertex_b vertex_c) r).t ∧
    (intersection_shader ov (triangle.triangle vertex_a vertex_c vertex_b) r).bary
      = ⟨(intersection_shader ov (triangle.triangle vertex_a vertex_b vertex_c) r).bary.x,
        (intersection_shader ov (triangle.triangle vertex_a vertex_b vertex_c) r).bary.z,
        (intersection_shader ov (triangle.triangle vertex_a vertex_b vertex_c) r).bary.y⟩ := by
  obtain ⟨h1, h2, h3, heq⟩ := intersection_shader_accept ov _ r h
  obtain ⟨q1, q2, q3, q4⟩ := reversed_quantities
    (triangle.triangle vertex_a vertex_b vertex_c).ba
    (triangle.triangle vertex_a vertex_b vertex_c).ca
    (r.position - (triangle.triangle vertex_a vertex_b vertex_c).a) r.direction
  have ea : (triangle.triangle vertex_a vertex_c vertex_b).a
      = (triangle.triangle vertex_a vertex_b vertex_c).a := rfl
  have eba : (triangle.triangle vertex_a vertex_c vertex_b).ba
      = (triangle.triangle vertex_a vertex_b vertex_c).ca := rfl
  have eca : (triangle.triangle vertex_a vertex_c vertex_b).ca
      = (triangle.triangle vertex_a vertex_b vertex_c).ba := rfl
  simp only [not_or, not_lt] at h2 h3
  have hrev := intersection_shader_hit ov (triangle.triangle vertex_a vertex_c vertex_b) r
    (by rw [eba, eca, q1, call_neg]; exact intersection_shader_gate ov _ r h)
    (by
      rw [ea, eba, eca, q2]
      simp only [not_or, not_lt]
      exact ⟨h3.1, by linarith [h2.1, h3.2]⟩)
    (by
      rw [ea, eba, eca, q2, q3]
      simp only [not_or, not_lt]
      exact ⟨h2.1, by linarith [h3.2]⟩)
  rw [ea, eba, eca, q2, q3, q4] at hrev
  rw [hrev, heq]
  refine ⟨accepted_ne_no_hit _ _ _, rfl, ?_⟩
  ext
  · show 1 - _ - _ = 1 - _ - _
    ring
  · rfl
  · rfl

/-- C16. No back-face culling: over exact arithmetic, for every ray and every triangle
`(a, b, c)`, `intersection_shader` on the reversed-winding triangle `(a, c, b)` reports an
intersection if and only if it does on `(a, b, c)`, and then with the same `t` and with the
weights `(w, v, u)`, where `(w, u, v)` are the weights for `(a, b, c)`. -/
theorem intersection_shader_reversed [FloorRing K] (ov : abs_overload)
    (vertex_a vertex_b vertex_c : vertex K) (r : ray K) :
    (intersection_shader ov (triangle.triangle vertex_a vertex_c vertex_b) r ≠ no_hit ↔
      intersection_shader ov (triangle.triangle vertex_a vertex_b vertex_c) r ≠ no_hit) ∧
    (intersection_shader ov (triangle.triangle vertex_a vertex_b vertex_c) r ≠ no_hit →
      (intersection_shader ov (triangle.triangle vertex_a vertex_c vertex_b) r).t
        = (intersection_shader ov (triangle.triangle vertex_a vertex_b vertex_c) r).t ∧
      (intersection_shader ov (triangle.triangle vertex_a vertex_c vertex_b) r).bary
        = ⟨(intersection_shader ov (triangle.triangle vertex_a vertex_b vertex_c) r).bary.x,
          (intersection_shader ov (triangle.triangle vertex_a vertex_b vertex_c) r).bary.z,
          (intersection_shader ov (triangle.triangle vertex_a vertex_b vertex_c) r).bary.y⟩) :=
  ⟨⟨fun h => (reversed_hit ov vertex_a vertex_c vertex_b r h).1,
      fun h => (reversed_hit ov vertex_a vertex_b vertex_c r h).1⟩,
    fun h => (reversed_hit ov vertex_a vertex_b vertex_c r h).2⟩

/-- C16 at a concrete input: `sample_ray` hits `sample_triangle`, and hits it with the same `t`
when the winding is reversed.
The call `abs(det)` is that of the `float` overload. -/
theorem intersection_shader_reversed_witness :
    intersection_shader abs_overload.of_float sample_triangle sample_ray ≠ no_hit ∧
    (intersection_shader abs_overload.of_float (triangle.triangle (vertex.at_position 0 0 0)
        (vertex.at_position 0 1 0) (vertex.at_position 1 0 0)) sample_ray).t
      = (intersection_shader abs_overload.of_float sample_triangle sample_ray).t :=
  have hit : intersection_shader abs_overload.of_float sample_triangle sample_ray ≠ no_hit := by
    norm_num [sample_triangle, sample_ray, intersection_shader, abs_overload.call, no_hit,
      triangle.triangle,
      vertex.at_position, cross, dot, payload.ext_iff, float3.ext_iff, abs_div]
  ⟨hit, ((intersection_shader_reversed abs_overload.of_float (vertex.at_position (0 : ℚ) 0 0)
    (vertex.at_position 1 0 0) (vertex.at_position 0 1 0) sample_ray).2 hit).1⟩

/-- The vertex positions of two lists of triangles, one after the other. -/
theorem vertex_positions_append (l1 l2 : List (triangle K)) :
    vertex_positions (l1 ++ l2) = vertex_positions l1 ++ vertex_positions l2 := by
  induction l1 with
  | nil => rfl
  | cons t rest ih => simp [vertex_positions, ih]

/-- The corners after `add_triangle`: the componentwise minimum and maximum of the three
vertices and of the seed, which is the first vertex for an empty box and the old corner
otherwise. -/
theorem add_triangle_seed (box : aabb K) (t : triangle K) :
    (box.triangles = [] →
      (box.add_triangle t).aabb_min = float3.min t.c (float3.min t.b (float3.min t.a t.a)) ∧
      (box.add_triangle t).aabb_max = float3.max t.c (float3.max t.b (float3.max t.a t.a))) ∧
    (box.triangles ≠ [] →
      (box.add_triangle t).aabb_min
        = float3.min t.c (float3.min t.b (float3.min t.a box.aabb_min)) ∧
      (box.add_triangle t).aabb_max
        = float3.max t.c (float3.max t.b (float3.max t.a box.aabb_max))) := by
  constructor
  · intro h
    simp [aabb.add_triangle, h]
  · intro h
    have hne : box.triangles.isEmpty = false := by
      cases hts : box.triangles with
      | nil => exact absurd hts h
      | cons _ _ => rfl
    simp [aabb.add_triangle, hne]

/-- A fourfold minimum is one of its four arguments. -/
theorem min4_choice (c b a lo : K) :
    Min.min c (Min.min b (Min.min a lo)) = c ∨ Min.min c (Min.min b (Min.min a lo)) = b ∨
    Min.min c (Min.min b (Min.min a lo)) = a ∨ Min.min c (Min.min b (Min.min a lo)) = lo := by
  rcases min_choice c (Min.min b (Min.min a lo)) with h | h
  · exact Or.inl h
  · rw [h]
    rcases min_choice b (Min.min a lo) with h1 | h1
    · exact Or.inr (Or.inl h1)
    · rw [h1]
      rcases min_choice a lo with h2 | h2
      · exact Or.inr (Or.inr (Or.inl h2))
      · exact Or.inr (Or.inr (Or.inr h2))

/-- A fourfold maximum is one of its four arguments. -/
theorem max4_choice (c b a hi : K) :
    Max.max c (Max.max b (Max.max a hi)) = c ∨ Max.max c (Max.max b (Max.max a hi)) = b ∨
    Max.max c (Max.max b (Max.max a hi)) = a ∨ Max.max c (Max.max b (Max.max a hi)) = hi := by
  rcases max_choice c (Max.max b (Max.max a hi)) with h | h
  · exact Or.inl h
  · rw [h]
    rcases max_choice b (Max.max a hi) with h1 | h1
    · exact Or.inr (Or.inl h1)
    · rw [h1]
      rcases max_choice a hi with h2 | h2
      · exact Or.inr (Or.inr (Or.inl h2))
      · exact Or.inr (Or.inr (Or.inr h2))

/-- A component that is one of the three components of the new triangle, or a component
attained in the old triangles, is attained in the triangles after `add_triangle`. -/
theorem attains_step (f : float3 K → K) (m seed : float3 K) (ts : List (triangle K))
    (t : triangle K)
    (hm : f m = f t.c ∨ f m = f t.b ∨ f m = f t.a ∨ f m = f seed)
    (hseed : f seed = f t.a ∨ attains f seed ts) :
    attains f m (ts ++ [t]) := by
  have hnew : ∀ p, p = t.a ∨ p = t.b ∨ p = t.c → p ∈ vertex_positions (ts ++ [t]) := by
    intro p hp
    rw [vertex_positions_append]
    apply List.mem_append_right
    simp only [vertex_positions, List.mem_cons, List.not_mem_nil, or_false]
    exact hp
  rcases hm with h | h | h | h
  · exact ⟨t.c, hnew _ (Or.inr (Or.inr rfl)), h⟩
  · exact ⟨t.b, hnew _ (Or.inr (Or.inl rfl)), h⟩
  · exact ⟨t.a, hnew _ (Or.inl rfl), h⟩
  · rcases hseed with hs | ⟨p, hp, hs⟩
    · exact ⟨t.a, hnew _ (Or.inl rfl), h.trans hs⟩
    · refine ⟨p, ?_, h.trans hs⟩
      rw [vertex_positions_append]
      exact List.mem_append_left _ hp

/-- After `add_triangle` on a box that is empty or whose corners are attained, the corners are
attained. -/
theorem add_triangle_attained (box : aabb K) (t : triangle K)
    (h : box.triangles = [] ∨ box.attained) : (box.add_triangle t).attained := by
  obtain ⟨hempty, hfull⟩ := add_triangle_seed box t
  unfold aabb.attained
  rw [add_triangle_triangles]
  by_cases hts : box.triangles = []
  · obtain ⟨hmin, hmax⟩ := hempty hts
    rw [hmin, hmax]
    exact ⟨⟨attains_step _ _ t.a _ t (min4_choice _ _ _ _) (Or.inl rfl),
        attains_step _ _ t.a _ t (min4_choice _ _ _ _) (Or.inl rfl),
        attains_step _ _ t.a _ t (min4_choice _ _ _ _) (Or.inl rfl)⟩,
      ⟨attains_step _ _ t.a _ t (max4_choice _ _ _ _) (Or.inl rfl),
        attains_step _ _ t.a _ t (max4_choice _ _ _ _) (Or.inl rfl),
        attains_step _ _ t.a _ t (max4_choice _ _ _ _) (Or.inl rfl)⟩⟩
  · obtain ⟨hmin, hmax⟩ := hfull hts
    rw [hmin, hmax]
    rcases h with h | h
    · exact absurd h hts
    · obtain ⟨⟨a1, a2, a3⟩, ⟨b1, b2, b3⟩⟩ := h
      exact ⟨⟨attains_step _ _ box.aabb_min _ t (min4_choice _ _ _ _) (Or.inr a1),
          attains_step _ _ box.aabb_min _ t (min4_choice _ _ _ _) (Or.inr a2),
          attains_step _ _ box.aabb_min _ t (min4_choice _ _ _ _) (Or.inr a3)⟩,
        ⟨attains_step _ _ box.aabb_max _ t (max4_choice _ _ _ _) (Or.inr b1),
          attains_step _ _ box.aabb_max _ t (max4_choice _ _ _ _) (Or.inr b2),
          attains_step _ _ box.aabb_max _ t (max4_choice _ _ _ _) (Or.inr b3)⟩⟩

/-- A non-empty run of `add_triangle` calls on a box that is empty or whose corners are
attained leaves the corners attained. -/
theorem foldl_add_triangle_attained (ts : List (triangle K)) (hne : ts ≠ []) (box : aabb K)
    (h : box.triangles = [] ∨ box.attained) :
    (ts.foldl aabb.add_triangle box).attained := by
  induction ts generalizing box with
  | nil => exact absurd rfl hne
  | cons t rest ih =>
    rw [List.foldl_cons]
    by_cases hrest : rest = []
    · subst hrest
      exact add_triangle_attained box t h
    · exact ih hrest _ (Or.inr (add_triangle_attained box t h))

/-- Membership in the vertex positions of a list of triangles. -/
theorem mem_vertex_positions (ts : List (triangle K)) (p : float3 K) :
    p ∈ vertex_positions ts ↔ ∃ t ∈ ts, p = t.a ∨ p = t.b ∨ p = t.c := by
  induction ts with
  | nil => simp [vertex_positions]
  | cons t rest ih =>
    simp only [vertex_positions, List.mem_cons, ih]
    constructor
    · rintro (h | h | h | ⟨s, hs, h⟩)
      · exact ⟨t, Or.inl rfl, Or.inl h⟩
      · exact ⟨t, Or.inl rfl, Or.inr (Or.inl h)⟩
      · exact ⟨t, Or.inl rfl, Or.inr (Or.inr h)⟩
      · exact ⟨s, Or.inr hs, h⟩
    · rintro ⟨s, hs | hs, h⟩
      · subst hs
        rcases h with h | h | h
        · exact Or.inl h
        · exact Or.inr (Or.inl h)
        · exact Or.inr (Or.inr (Or.inl h))
      · exact Or.inr (Or.inr (Or.inr ⟨s, hs, h⟩))

/-- C17. The box is tight: for every non-empty sequence `ts` of triangles added by
`add_triangle` to an empty box, `get_traingles` returns `ts` in insertion order; every vertex
`a`, `b`, `c` of every added triangle lies between `aabb_min` and `aabb_max` componentwise, and
each component of `aabb_min` and of `aabb_max` is that component of one of these vertices, so
`aabb_min` is their componentwise minimum and `aabb_max` their componentwise maximum; hence a
point `q` of the box lies, in each component, between two of these vertices. -/
theorem add_triangle_tight (box0 : aabb K) (h0 : box0.triangles = [])
    (ts : List (triangle K)) (hne : ts ≠ []) :
    (ts.foldl aabb.add_triangle box0).get_traingles = ts ∧
    (∀ p ∈ vertex_positions ts,
      float3.le (ts.foldl aabb.add_triangle box0).aabb_min p ∧
      float3.le p (ts.foldl aabb.add_triangle box0).aabb_max) ∧
    ((attains float3.x (ts.foldl aabb.add_triangle box0).aabb_min ts ∧
        attains float3.y (ts.foldl aabb.add_triangle box0).aabb_min ts ∧
        attains float3.z (ts.foldl aabb.add_triangle box0).aabb_min ts) ∧
      (attains float3.x (ts.foldl aabb.add_triangle box0).aabb_max ts ∧
        attains float3.y (ts.foldl aabb.add_triangle box0).aabb_max ts ∧
        attains float3.z (ts.foldl aabb.add_triangle box0).aabb_max ts)) ∧
    (∀ q : float3 K, float3.le (ts.foldl aabb.add_triangle box0).aabb_min q →
      float3.le q (ts.foldl aabb.add_triangle box0).aabb_max →
      (∃ p ∈ vertex_positions ts, ∃ p1 ∈ vertex_positions ts, p.x ≤ q.x ∧ q.x ≤ p1.x) ∧
      (∃ p ∈ vertex_positions ts, ∃ p1 ∈ vertex_positions ts, p.y ≤ q.y ∧ q.y ≤ p1.y) ∧
      (∃ p ∈ vertex_positions ts, ∃ p1 ∈ vertex_positions ts, p.z ≤ q.z ∧ q.z ≤ p1.z)) := by
  obtain ⟨htris, henc⟩ := foldl_add_triangle ts box0 (by simp [h0])
  have hts : (ts.foldl aabb.add_triangle box0).triangles = ts := by
    rw [htris, h0]
    rfl
  have hatt := foldl_add_triangle_attained ts hne box0 (Or.inl h0)
  unfold aabb.attained at hatt
  rw [hts] at hatt henc
  obtain ⟨⟨⟨px, hpx, ex⟩, ⟨py, hpy, ey⟩, ⟨pz, hpz, ez⟩⟩,
    ⟨⟨qx, hqx, fx⟩, ⟨qy, hqy, fy⟩, ⟨qz, hqz, fz⟩⟩⟩ := hatt
  refine ⟨hts, ?_, ⟨⟨⟨px, hpx, ex⟩, ⟨py, hpy, ey⟩, ⟨pz, hpz, ez⟩⟩,
    ⟨⟨qx, hqx, fx⟩, ⟨qy, hqy, fy⟩, ⟨qz, hqz, fz⟩⟩⟩, ?_⟩
  · intro p hp
    obtain ⟨t, ht, hpt⟩ := (mem_vertex_positions ts p).mp hp
    obtain ⟨ha, hb, hc⟩ := henc t ht
    rcases hpt with h | h | h <;> rw [h]
    · exact ha
    · exact hb
    · exact hc
  · intro q hlo hhi
    refine ⟨⟨px, hpx, qx, hqx, ?_, ?_⟩, ⟨py, hpy, qy, hqy, ?_, ?_⟩, ⟨pz, hpz, qz, hqz, ?_, ?_⟩⟩
    · rw [← ex]; exact hlo.1
    · rw [← fx]; exact hhi.1
    · rw [← ey]; exact hlo.2.1
    · rw [← fy]; exact hhi.2.1
    · rw [← ez]; exact hlo.2.2
    · rw [← fz]; exact hhi.2.2

/-- C17 at a concrete input: `small_triangle` then `sample_triangle` added to a
default-constructed box. -/
theorem add_triangle_tight_witness :
    ([small_triangle, sample_triangle].foldl aabb.add_triangle aabb.fresh).get_traingles
      = [small_triangle, sample_triangle] ∧
    attains float3.x ([small_triangle, sample_triangle].foldl aabb.add_triangle
      aabb.fresh).aabb_min [small_triangle, sample_triangle] :=
  have h := add_triangle_tight aabb.fresh rfl [small_triangle, sample_triangle] (by simp)
  ⟨h.1, h.2.2.1.1.1⟩

/-- The shader arguments of two runs of calls, one after the other. -/
theorem handed_append (l1 l2 : List (event K)) : handed (l1 ++ l2) = handed l1 ++ handed l2 := by
  induction l1 with
  | nil => rfl
  | cons e rest ih => cases e <;> simp [handed, ih]

/-- A run of `intersection_shader` calls hands nothing to a shader. -/
theorem handed_map (l : List (triangle K)) : handed (l.map event.intersection_shader) = [] := by
  induction l with
  | nil => rfl
  | cons t rest ih => simp [handed, ih]

/-- The outer loop hands to the shaders what the inner loop hands on the triangles in scan
order. -/
theorem scan_boxes_handed [FloorRing K] (ov : abs_overload)
    (any_hit_shader : Option (hit_shader K)) (r : ray K) (min_t : K)
    (bs : List (aabb K)) (st : closest K) :
    handed (scan_boxes ov any_hit_shader r min_t bs st).2 =
      handed (scan_triangles ov any_hit_shader r min_t (scan_order r bs) st).2 := by
  induction bs generalizing st with
  | nil => simp [scan_boxes, scan_order, scan_triangles]
  | cons b rest ih =>
    simp only [scan_boxes, scan_order]
    by_cases hb : b.aabb_test r = true
    · simp only [hb, not_true_eq_false, if_false, if_true, scan_triangles_append ov]
      cases h1 : (scan_triangles ov any_hit_shader r min_t b.get_traingles st).1 with
      | returned result => simp [handed]
      | next st1 => simp [handed, handed_append, ih st1]
    · simp [hb, handed, ih st]

/-- What the scan of `trace_ray` hands to the any-hit shader: nothing, unless it returns from
inside the loops, and then the payload of the triangle it returns for. -/
theorem scan_boxes_handed_outcome [FloorRing K] (ov : abs_overload)
    (any_hit_shader : Option (hit_shader K)) (r : ray K)
    (max_t min_t : K) (bs : List (aabb K)) :
    (∃ f tri, any_hit_shader = some f ∧ tri ∈ scan_order r bs ∧ in_window ov r min_t max_t tri ∧
      (scan_boxes ov any_hit_shader r min_t bs ⟨⟨max_t, 0, 0⟩, none⟩).1
        = scan.returned (f r (intersection_shader ov tri r) tri) ∧
      handed (scan_boxes ov any_hit_shader r min_t bs ⟨⟨max_t, 0, 0⟩, none⟩).2
        = [(intersection_shader ov tri r, tri)]) ∨
    (handed (scan_boxes ov any_hit_shader r min_t bs ⟨⟨max_t, 0, 0⟩, none⟩).2 = [] ∧
      ((scan_boxes ov any_hit_shader r min_t bs ⟨⟨max_t, 0, 0⟩, none⟩).1
          = scan.next ⟨⟨max_t, 0, 0⟩, none⟩ ∨
      (∃ tri, tri ∈ scan_order r bs ∧ in_window ov r min_t max_t tri ∧
        (scan_boxes ov any_hit_shader r min_t bs ⟨⟨max_t, 0, 0⟩, none⟩).1
          = scan.next ⟨intersection_shader ov tri r, some tri⟩))) := by
  obtain ⟨hflat, -, -⟩ := scan_boxes_flat ov any_hit_shader r min_t bs ⟨⟨max_t, 0, 0⟩, none⟩
  have hh := scan_boxes_handed ov any_hit_shader r min_t bs ⟨⟨max_t, 0, 0⟩, none⟩
  cases any_hit_shader with
  | some f =>
    rcases scan_triangles_any_hit ov f r min_t (scan_order r bs) ⟨⟨max_t, 0, 0⟩, none⟩ with
      ⟨-, heq⟩ | ⟨pre, tri, post, hl, -, h2, heq⟩
    · right
      rw [heq] at hflat hh
      rw [handed_map] at hh
      exact ⟨hh, Or.inl hflat⟩
    · left
      rw [heq] at hflat hh
      simp only [handed_append, handed_map, handed, List.nil_append] at hh
      exact ⟨f, tri, rfl, by simp [hl], ⟨h2.1, h2.2⟩, hflat, hh⟩
  | none =>
    right
    obtain ⟨hlog, hres⟩ := scan_triangles_closest ov r min_t (scan_order r bs) ⟨⟨max_t, 0, 0⟩, none⟩
    rw [hlog, handed_map] at hh
    refine ⟨hh, ?_⟩
    rcases hres with ⟨-, heq⟩ | ⟨pre, tri, post, hl, h1, h2, -, -, heq⟩
    · exact Or.inl (hflat.trans heq)
    · exact Or.inr ⟨tri, by simp [hl], ⟨h1, h2⟩, hflat.trans heq⟩

/-- The statement `return miss_shader(ray);` hands nothing to a closest-hit or any-hit
shader. -/
theorem handed_return_miss (rt : raytracer K) (r : ray K) :
    handed (return_miss_shader rt r).2 = [] := by
  unfold return_miss_shader
  cases rt.miss_shader <;> rfl

/-- Every payload and triangle that `trace_ray` hands to the closest-hit or any-hit shader: the
triangle is in scan order, the payload is that of `intersection_shader` for it, and its `t` is
inside the window. -/
theorem trace_ray_handed [FloorRing K] (ov : abs_overload)
    (rt : raytracer K) (r : ray K) (depth : Nat) (max_t min_t : K)
    (p : payload K) (tri : triangle K)
    (h : (p, tri) ∈ handed (trace_ray_log ov rt r depth max_t min_t)) :
    tri ∈ scan_order r rt.acceleration_structures ∧ p = intersection_shader ov tri r ∧
    in_window ov r min_t max_t tri := by
  unfold trace_ray_log at h
  by_cases hd : depth = 0
  · have hrun : trace_ray_run ov rt r depth max_t min_t = return_miss_shader rt r := by
      unfold trace_ray_run
      rw [if_pos hd]
    rw [hrun, handed_return_miss] at h
    exact absurd h (List.not_mem_nil _)
  · rcases scan_boxes_handed_outcome ov rt.any_hit_shader r max_t min_t
      rt.acceleration_structures with
      ⟨f, t1, -, hmem, hw, hres, hh⟩ | ⟨hh, hres | ⟨t1, hmem, hw, hres⟩⟩
    · rw [trace_ray_run_returned ov rt r depth max_t min_t _ hd hres, hh] at h
      simp only [List.mem_singleton, Prod.mk.injEq] at h
      obtain ⟨hp, ht⟩ := h
      subst ht
      exact ⟨hmem, hp, hw⟩
    · rw [trace_ray_run_next ov rt r depth max_t min_t _ hd hres, if_neg (lt_irrefl _)] at h
      simp only [handed_append, hh, handed_return_miss, List.append_nil] at h
      exact absurd h (List.not_mem_nil _)
    · rw [trace_ray_run_next ov rt r depth max_t min_t _ hd hres, if_pos hw.2] at h
      cases hc : rt.closest_hit_shader with
      | some f =>
        rw [hc] at h
        simp only [handed_append, hh, handed, List.nil_append, List.mem_singleton,
          Prod.mk.injEq] at h
        obtain ⟨hp, ht⟩ := h
        subst ht
        exact ⟨hmem, hp, hw⟩
      | none =>
        rw [hc] at h
        simp only [handed_append, hh, handed_return_miss, List.append_nil] at h
        exact absurd h (List.not_mem_nil _)

/-- C19, refuted as stated for a window that contains the sentinel `t = -1`. The ray
`grazing_ray` passes `aabb_test` of the box of `sample_tracer` and misses its triangle:
`intersection_shader` returns the no-hit payload, whichever function `abs` is.  With
`min_t = -2` and depth 1, `trace_ray` hands that no-hit payload and the triangle to the
closest-hit shader and returns its result. -/
theorem trace_ray_hands_no_hit :
    sample_box.aabb_test grazing_ray = true ∧
    ∀ overload : abs_overload,
      intersection_shader overload sample_triangle grazing_ray = no_hit ∧
      handed (trace_ray_log overload sample_tracer grazing_ray 1 default_max_t (-2))
        = [(no_hit, sample_triangle)] ∧
      trace_ray overload sample_tracer grazing_ray 1 default_max_t (-2)
        = Except.ok (echo_shader grazing_ray no_hit sample_triangle) := by
  have htest : sample_box.aabb_test grazing_ray = true := by
    norm_num [sample_box, grazing_ray, aabb.aabb_test, aabb.add_triangle, aabb.fresh,
      sample_triangle, triangle.triangle, vertex.at_position, float3.splat, float3.min,
      float3.max, float3.maxelem, float3.minelem]
  have htris : sample_box.get_traingles = [sample_triangle] := rfl
  refine ⟨htest, fun overload => ?_⟩
  have hno : intersection_shader overload sample_triangle grazing_ray = no_hit := by
    cases overload
    · norm_num [sample_triangle, grazing_ray, intersection_shader, abs_overload.call, no_hit,
        triangle.triangle, vertex.at_position, cross, dot, abs_div]
    · exact intersection_shader_of_int_below_one _ _ (by
        norm_num [sample_triangle, grazing_ray, triangle.triangle, vertex.at_position, cross,
          dot, abs_div])
  refine ⟨hno, ?_, ?_⟩
  · norm_num [trace_ray_log, trace_ray_run, sample_tracer, scan_boxes, htest, htris,
      scan_triangles, hno, no_hit, default_max_t, handed]
  · norm_num [trace_ray, trace_ray_run, sample_tracer, scan_boxes, htest, htris,
      scan_triangles, hno, no_hit, default_max_t]

/-- C19, amended. For every acceleration set, ray, depth and every window that does not contain
the sentinel `t = -1` (every window with `min_t >= -1`, the default one included), each
triangle and payload that `trace_ray` hands to the closest-hit or any-hit shader come from a
genuine intersection: the triangle belongs to a box accepted by `aabb_test`, the payload is the
one `intersection_shader` returned for it, and it is not the no-hit payload. -/
theorem trace_ray_hands_genuine [FloorRing K] (ov : abs_overload)
    (rt : raytracer K) (r : ray K) (depth : Nat) (max_t min_t : K)
    (hwin : ¬ (min_t < -1 ∧ -1 < max_t)) :
    ∀ p tri, (p, tri) ∈ handed (trace_ray_log ov rt r depth max_t min_t) →
      (∃ box ∈ rt.acceleration_structures, box.aabb_test r = true ∧
        tri ∈ box.get_traingles) ∧
      p = intersection_shader ov tri r ∧
      intersection_shader ov tri r ≠ no_hit := by
  intro p tri h
  obtain ⟨hmem, hp, hw⟩ := trace_ray_handed ov rt r depth max_t min_t p tri h
  refine ⟨(mem_scan_order r _ tri).mp hmem, hp, ?_⟩
  intro hno
  unfold in_window at hw
  rw [hno] at hw
  exact hwin hw

/-- C19, amended, at a concrete input: `sample_tracer` traced along `sample_ray` with depth 1
and the default window hands the payload of `sample_triangle` to the closest-hit shader, and it
is a genuine intersection.
The call `abs(det)` is that of the `float` overload. -/
theorem trace_ray_hands_genuine_witness :
    handed (trace_ray_log abs_overload.of_float sample_tracer sample_ray 1 default_max_t default_min_t)
      = [(intersection_shader abs_overload.of_float sample_triangle sample_ray, sample_triangle)] ∧
    intersection_shader abs_overload.of_float sample_triangle sample_ray ≠ no_hit :=
  have htest : sample_box.aabb_test sample_ray = true := by
    norm_num [sample_box, sample_ray, aabb.aabb_test, aabb.add_triangle, aabb.fresh,
      sample_triangle, triangle.triangle, vertex.at_position, float3.splat, float3.min,
      float3.max, float3.maxelem, float3.minelem]
  have ht : (intersection_shader abs_overload.of_float sample_triangle sample_ray).t = 1 := by
    norm_num [sample_triangle, sample_ray, intersection_shader, abs_overload.call,
      triangle.triangle,
      vertex.at_position, cross, dot, abs_div]
  have htris : sample_box.get_traingles = [sample_triangle] := rfl
  have hlog : handed (trace_ray_log abs_overload.of_float sample_tracer sample_ray 1 default_max_t default_min_t)
      = [(intersection_shader abs_overload.of_float sample_triangle sample_ray, sample_triangle)] := by
    norm_num [trace_ray_log, trace_ray_run, sample_tracer, scan_boxes, htest, htris,
      scan_triangles, ht, default_max_t, default_min_t, handed]
  ⟨hlog, (trace_ray_hands_genuine abs_overload.of_float sample_tracer sample_ray 1 default_max_t default_min_t
    (by norm_num [default_min_t]) (intersection_shader abs_overload.of_float sample_triangle sample_ray)
    sample_triangle (by rw [hlog]; simp)).2.2⟩

/-- The statement `return miss_shader(ray);` does not dereference `closest_triangle`. -/
theorem return_miss_no_dereference (rt : raytracer K) (r : ray K) :
    (return_miss_shader rt r).1 ≠ Except.error fault.null_dereference := by
  unfold return_miss_shader
  cases rt.miss_shader <;> simp

/-- C20. The dereference of `closest_triangle` in `trace_ray` is safe: for every acceleration
set, ray, depth, `min_t` and `max_t`, whenever the scan ends with
`closest_hit_payload.t < max_t`, `closest_triangle` is set and points to a triangle of a box of
the acceleration set whose `intersection_shader` payload is `closest_hit_payload`; and
`trace_ray` never ends in a null dereference. -/
theorem trace_ray_dereference_safe [FloorRing K] (ov : abs_overload)
    (rt : raytracer K) (r : ray K) (depth : Nat)
    (max_t min_t : K) :
    (∀ st : closest K,
      (scan_boxes ov rt.any_hit_shader r min_t rt.acceleration_structures
        ⟨⟨max_t, 0, 0⟩, none⟩).1 = scan.next st →
      st.closest_hit_payload.t < max_t →
      ∃ tri, st.closest_triangle = some tri ∧
        (∃ box ∈ rt.acceleration_structures, tri ∈ box.get_traingles) ∧
        intersection_shader ov tri r = st.closest_hit_payload) ∧
    trace_ray ov rt r depth max_t min_t ≠ Except.error fault.null_dereference := by
  constructor
  · intro st hst hlt
    rcases scan_boxes_outcome ov rt.any_hit_shader r max_t min_t rt.acceleration_structures with
      ⟨f, tri, -, -, -, hres, -⟩ | ⟨-, ⟨-, hres⟩ | ⟨tri, -, hmem, -, hres⟩⟩
    · rw [hres] at hst
      exact absurd hst (by simp)
    · rw [hres] at hst
      simp only [scan.next.injEq] at hst
      rw [← hst] at hlt
      exact absurd hlt (lt_irrefl _)
    · rw [hres] at hst
      simp only [scan.next.injEq] at hst
      rw [← hst]
      obtain ⟨box, hbox, -, htri⟩ := (mem_scan_order r _ tri).mp hmem
      exact ⟨tri, rfl, ⟨box, hbox, htri⟩, rfl⟩
  · unfold trace_ray
    by_cases hd : depth = 0
    · have hrun : trace_ray_run ov rt r depth max_t min_t = return_miss_shader rt r := by
        unfold trace_ray_run
        rw [if_pos hd]
      rw [hrun]
      exact return_miss_no_dereference rt r
    · rcases scan_boxes_outcome ov rt.any_hit_shader r max_t min_t rt.acceleration_structures with
        ⟨f, tri, -, -, -, hres, -⟩ | ⟨-, ⟨-, hres⟩ | ⟨tri, -, -, hw, hres⟩⟩
      · rw [trace_ray_run_returned ov rt r depth max_t min_t _ hd hres]
        simp
      · rw [trace_ray_run_next ov rt r depth max_t min_t _ hd hres, if_neg (lt_irrefl _)]
        exact return_miss_no_dereference rt r
      · rw [trace_ray_run_next ov rt r depth max_t min_t _ hd hres, if_pos hw.2]
        cases hc : rt.closest_hit_shader with
        | some f => simp
        | none => exact return_miss_no_dereference rt r

/-- C20 at a concrete input: the scan of `sample_tracer` along `sample_ray` with the default
window ends with `sample_triangle` as closest triangle and its payload, whose `t = 1` is below
`max_t`.
The call `abs(det)` is that of the `float` overload. -/
theorem trace_ray_dereference_safe_witness :
    (scan_boxes abs_overload.of_float sample_tracer.any_hit_shader sample_ray default_min_t
        sample_tracer.acceleration_structures ⟨⟨default_max_t, 0, 0⟩, none⟩).1
      = scan.next ⟨intersection_shader abs_overload.of_float sample_triangle sample_ray, some sample_triangle⟩ ∧
    (intersection_shader abs_overload.of_float sample_triangle sample_ray).t < default_max_t ∧
    ∃ tri, (some sample_triangle : Option (triangle ℚ)) = some tri ∧
      (∃ box ∈ sample_tracer.acceleration_structures, tri ∈ box.get_traingles) ∧
      intersection_shader abs_overload.of_float tri sample_ray =
        intersection_shader abs_overload.of_float sample_triangle sample_ray :=
  have htest : sample_box.aabb_test sample_ray = true := by
    norm_num [sample_box, sample_ray, aabb.aabb_test, aabb.add_triangle, aabb.fresh,
      sample_triangle, triangle.triangle, vertex.at_position, float3.splat, float3.min,
      float3.max, float3.maxelem, float3.minelem]
  have ht : (intersection_shader abs_overload.of_float sample_triangle sample_ray).t = 1 := by
    norm_num [sample_triangle, sample_ray, intersection_shader, abs_overload.call,
      triangle.triangle,
      vertex.at_position, cross, dot, abs_div]
  have htris : sample_box.get_traingles = [sample_triangle] := rfl
  have hscan : (scan_boxes abs_overload.of_float sample_tracer.any_hit_shader sample_ray default_min_t
        sample_tracer.acceleration_structures ⟨⟨default_max_t, 0, 0⟩, none⟩).1
      = scan.next ⟨intersection_shader abs_overload.of_float sample_triangle sample_ray, some sample_triangle⟩ := by
    norm_num [sample_tracer, scan_boxes, htest, htris, scan_triangles, ht, default_max_t,
      default_min_t]
  have hlt : (intersection_shader abs_overload.of_float sample_triangle sample_ray).t <
    default_max_t := by
    rw [ht]
    norm_num [default_max_t]
  ⟨hscan, hlt, (trace_ray_dereference_safe abs_overload.of_float sample_tracer sample_ray 1 default_max_t
    default_min_t).1 _ hscan hlt⟩

/-- One iteration of the loop of `build_box`. -/
theorem build_box_step (item : item_access K) (order : argument_order)
    (vb : List (vertex K)) (id : Nat) (box : aabb K)
    (va vb1 vc : vertex K) (hlt : id < vb.length)
    (ha : item vb id = Except.ok va) (hb : item vb (id + 1) = Except.ok vb1)
    (hc : item vb (id + 2) = Except.ok vc) :
    build_box item order vb id box
      = build_box item order vb (id + 3) (box.add_triangle (order.arrange va vb1 vc)) := by
  rw [build_box, if_pos hlt, ha, hb, hc]

/-- The end of the loop of `build_box`. -/
theorem build_box_done (item : item_access K) (order : argument_order)
    (vb : List (vertex K)) (id : Nat) (box : aabb K)
    (hge : vb.length ≤ id) : build_box item order vb id box = Except.ok box := by
  rw [build_box, if_neg (by omega)]

/-- The tail of a buffer from an index with three vertices left. -/
theorem drop_three (vb : List (vertex K)) (id : Nat) (h : id + 3 ≤ vb.length) :
    ∃ va vb1 vc, vb[id]? = some va ∧ vb[id + 1]? = some vb1 ∧ vb[id + 2]? = some vc ∧
      vb.drop id = va :: vb1 :: vc :: vb.drop (id + 3) := by
  have h0 : id < vb.length := by omega
  have h1 : id + 1 < vb.length := by omega
  have h2 : id + 2 < vb.length := by omega
  refine ⟨vb[id], vb[id + 1], vb[id + 2], List.getElem?_eq_getElem h0,
    List.getElem?_eq_getElem h1, List.getElem?_eq_getElem h2, ?_⟩
  rw [List.drop_eq_getElem_cons h0, List.drop_eq_getElem_cons h1, List.drop_eq_getElem_cons h2]

/-- On a buffer with a whole number `m` of triples left, with an accessor that is exact inside
the buffer, the loop adds the triangles of those triples in order. -/
theorem build_box_exact (item : item_access K) (order : argument_order)
    (hitem : item.exact) (vb : List (vertex K))
    (m : Nat) : ∀ (id : Nat) (box : aabb K), vb.length = id + 3 * m →
      build_box item order vb id box
        = Except.ok ((triples order (vb.drop id)).foldl aabb.add_triangle box) := by
  induction m with
  | zero =>
    intro id box hlen
    rw [build_box_done item order vb id box (by omega), List.drop_of_length_le (by omega)]
    rfl
  | succ m ih =>
    intro id box hlen
    obtain ⟨va, vb1, vc, ha, hb, hc, hdrop⟩ := drop_three vb id (by omega)
    rw [build_box_step item order vb id box va vb1 vc (by omega) (hitem _ _ _ ha) (hitem _ _ _ hb)
      (hitem _ _ _ hc), ih (id + 3) _ (by omega), hdrop]
    rfl

/-- The number of triangles of a buffer of `3k` vertices. -/
theorem triples_length (order : argument_order) (k : Nat) : ∀ vb : List (vertex K), vb.length = 3 * k →
    (triples order vb).length = k := by
  induction k with
  | zero =>
    intro vb h
    have : vb = [] := List.length_eq_zero.mp (by omega)
    subst this
    rfl
  | succ k ih =>
    intro vb h
    match vb, h with
    | a :: b :: c :: rest, h =>
      simp only [triples, List.length_cons]
      rw [ih rest (by simp only [List.length_cons] at h; omega)]

/-- The `j`-th triangle of a buffer is built from the vertices `3j`, `3j+1`, `3j+2`. -/
theorem triples_getElem (order : argument_order) (j : Nat) : ∀ (vb : List (vertex K)) (va vb1 vc : vertex K),
    vb[3 * j]? = some va → vb[3 * j + 1]? = some vb1 → vb[3 * j + 2]? = some vc →
    (triples order vb)[j]? = some (order.arrange va vb1 vc) := by
  induction j with
  | zero =>
    intro vb va vb1 vc ha hb hc
    match vb, ha, hb, hc with
    | a :: b :: c :: rest, ha, hb, hc =>
      simp only [Nat.mul_zero, List.getElem?_cons_zero, Option.some.injEq, zero_add,
        List.getElem?_cons_succ] at ha hb hc
      subst ha hb hc
      simp [triples]
    | [a, b], _, _, hc => simp at hc
    | [a], _, hb, _ => simp at hb
    | [], ha, _, _ => simp at ha
  | succ j ih =>
    intro vb va vb1 vc ha hb hc
    match vb, ha, hb, hc with
    | a :: b :: c :: rest, ha, hb, hc =>
      have e0 : 3 * (j + 1) = (3 * j + 2) + 1 := by omega
      have e1 : 3 * (j + 1) + 1 = (3 * j + 1 + 2) + 1 := by omega
      have e2 : 3 * (j + 1) + 2 = (3 * j + 2 + 2) + 1 := by omega
      rw [e0] at ha
      rw [e1] at hb
      rw [e2] at hc
      simp only [List.getElem?_cons_succ] at ha hb hc
      simp only [triples, List.getElem?_cons_succ]
      exact ih rest va vb1 vc ha hb hc
    | [a, b], ha, _, _ =>
      have e0 : 3 * (j + 1) = (3 * j + 2) + 1 := by omega
      rw [e0] at ha
      simp at ha
    | [a], ha, _, _ =>
      have e0 : 3 * (j + 1) = (3 * j + 2) + 1 := by omega
      rw [e0] at ha
      simp at ha
    | [], ha, _, _ => simp at ha

/-- The box of a buffer owns the triangles of its triples, in order. -/
theorem box_of_triangles (order : argument_order) (vb : List (vertex K)) : (box_of order vb).get_traingles = triples order vb := by
  have h := (foldl_add_triangle (triples order vb) (aabb.fresh : aabb K) (by simp [aabb.fresh])).1
  unfold box_of aabb.get_traingles
  rw [h]
  rfl

/-- With an accessor that is exact inside the buffers, on buffers whose lengths are multiples
of 3, the outer loop appends the box of each buffer, in buffer order. -/
theorem build_boxes_exact (item : item_access K) (order : argument_order)
    (hitem : item.exact)
    (bufs : List (List (vertex K))) (hwf : ∀ vb ∈ bufs, 3 ∣ vb.length) :
    ∀ acc : List (aabb K), build_boxes item order bufs acc =
      Except.ok (acc ++ bufs.map (box_of order)) := by
  induction bufs with
  | nil =>
    intro acc
    simp [build_boxes]
  | cons vb rest ih =>
    intro acc
    obtain ⟨m, hm⟩ := hwf vb (List.mem_cons_self _ _)
    have hbox := build_box_exact item order hitem vb m 0 aabb.fresh (by omega)
    rw [List.drop_zero] at hbox
    rw [build_boxes, hbox]
    simp only []
    rw [ih (fun v hv => hwf v (List.mem_cons_of_mem _ hv))]
    simp [box_of]

/-- The triangle arranged from three reads is the constructor applied to these three vertices,
in the order of evaluation: to the reads themselves for the written order, to a permutation of
them otherwise. -/
theorem arrange_constructed (order : argument_order) (read_0 read_1 read_2 : vertex K) :
    (argument_order.abc.arrange read_0 read_1 read_2
      = triangle.triangle read_0 read_1 read_2) ∧
    ∃ p q s : vertex K, List.Perm [p, q, s] [read_0, read_1, read_2] ∧
      order.arrange read_0 read_1 read_2 = triangle.triangle p q s := by
  refine ⟨rfl, ?_⟩
  cases order
  · exact ⟨read_0, read_1, read_2, List.Perm.refl _, rfl⟩
  · exact ⟨read_0, read_2, read_1, List.Perm.cons _ (List.Perm.swap _ _ _), rfl⟩
  · exact ⟨read_1, read_0, read_2, List.Perm.swap _ _ _, rfl⟩
  · exact ⟨read_2, read_0, read_1,
      (List.Perm.swap _ _ _).trans (List.Perm.cons _ (List.Perm.swap _ _ _)), rfl⟩
  · exact ⟨read_1, read_2, read_0,
      (List.Perm.cons _ (List.Perm.swap _ _ _)).trans (List.Perm.swap _ _ _), rfl⟩
  · exact ⟨read_2, read_1, read_0,
      ((List.Perm.swap _ _ _).trans (List.Perm.cons _ (List.Perm.swap _ _ _))).trans
        (List.Perm.swap _ _ _), rfl⟩

/-- C11. For every list of vertex buffers whose lengths are multiples of 3 (an accessor `item`
that returns the elements of a buffer, any order of evaluation of the constructor arguments),
`build_acceleration_structure` appends to `acceleration_structures` exactly one box per buffer,
in buffer order, and leaves the boxes already present and the rest of the tracer unchanged; the
box for a buffer of `3k` vertices owns exactly `k` triangles, in order, the `j`-th built by the
constructor from the vertices `3j`, `3j+1`, `3j+2` (in this order as `a`, `b`, `c` when the
arguments are evaluated as written).  Calling it a second time appends the same boxes again,
which is not the result of the first call unless there is no buffer. -/
theorem build_acceleration_structure_appends (item : item_access K) (order : argument_order)
    (hitem : item.exact)
    (rt : raytracer K) (hwf : ∀ vb ∈ rt.per_shape_vertex_buffer, 3 ∣ vb.length) :
    build_acceleration_structure item order rt
      = Except.ok { rt with acceleration_structures :=
          rt.acceleration_structures ++ rt.per_shape_vertex_buffer.map (box_of order) } ∧
    (∀ vb ∈ rt.per_shape_vertex_buffer, ∀ k : Nat, vb.length = 3 * k →
      (box_of order vb).get_traingles.length = k ∧
      ∀ (j : Nat) (va vb1 vc : vertex K), vb[3 * j]? = some va → vb[3 * j + 1]? = some vb1 →
        vb[3 * j + 2]? = some vc →
        (box_of order vb).get_traingles[j]? = some (order.arrange va vb1 vc) ∧
        (order = argument_order.abc →
          (box_of order vb).get_traingles[j]? = some (triangle.triangle va vb1 vc)) ∧
        ∃ p q s : vertex K, List.Perm [p, q, s] [va, vb1, vc] ∧
          (box_of order vb).get_traingles[j]? = some (triangle.triangle p q s)) ∧
    build_acceleration_structure item order { rt with acceleration_structures :=
        rt.acceleration_structures ++ rt.per_shape_vertex_buffer.map (box_of order) }
      = Except.ok { rt with acceleration_structures :=
          rt.acceleration_structures ++ rt.per_shape_vertex_buffer.map (box_of order)
            ++ rt.per_shape_vertex_buffer.map (box_of order) } ∧
    (rt.per_shape_vertex_buffer ≠ [] →
      ({ rt with acceleration_structures :=
          rt.acceleration_structures ++ rt.per_shape_vertex_buffer.map (box_of order)
            ++ rt.per_shape_vertex_buffer.map (box_of order) } : raytracer K)
        ≠ { rt with acceleration_structures :=
          rt.acceleration_structures ++ rt.per_shape_vertex_buffer.map (box_of order) }) := by
  refine ⟨?_, ?_, ?_, ?_⟩
  · unfold build_acceleration_structure
    rw [build_boxes_exact item order hitem _ hwf]
  · intro vb _ k hk
    rw [box_of_triangles]
    refine ⟨triples_length order k vb hk, fun j va vb1 vc ha hb hc => ?_⟩
    have hj := triples_getElem order j vb va vb1 vc ha hb hc
    obtain ⟨-, p, q, s, hperm, harr⟩ := arrange_constructed order va vb1 vc
    refine ⟨hj, ?_, p, q, s, hperm, ?_⟩
    · intro ho
      rw [hj, ho]
      rfl
    · rw [hj, harr]
  · unfold build_acceleration_structure
    simp only []
    rw [build_boxes_exact item order hitem _ hwf]
  · intro hne heq
    have hlen := congrArg (fun r : raytracer K => r.acceleration_structures.length) heq
    simp only [List.length_append, List.length_map] at hlen
    have : rt.per_shape_vertex_buffer.length ≠ 0 := fun h => hne (List.length_eq_zero.mp h)
    omega

/-- The checked accessor is exact inside the buffer. -/
theorem checked_item_exact : (checked_item : item_access K).exact := by
  intro buffer i v h
  unfold checked_item
  rw [h]

/-- C11 at a concrete input: `sample_scene`, one buffer of three vertices, with the checked
accessor. -/
theorem build_acceleration_structure_appends_witness :
    build_acceleration_structure checked_item argument_order.abc sample_scene
      = Except.ok { sample_scene with acceleration_structures :=
          sample_scene.acceleration_structures
            ++ sample_scene.per_shape_vertex_buffer.map (box_of argument_order.abc) } :=
  (build_acceleration_structure_appends checked_item argument_order.abc checked_item_exact
    sample_scene
    (by
      intro vb hvb
      simp only [sample_scene, List.mem_singleton] at hvb
      subst hvb
      exact ⟨1, rfl⟩)).1

end cg.renderer
